import Mathlib

/-!
# demoinfocs: header reader, frame decoder, tick reconciler and parse driver

A shallow embedding of `parsing.go` (package `demoinfocs`).  The file is one
Go source file; everything it calls that lives elsewhere (the bit reader, the
`common` and `events` packages, the sub-frame decoders, the command-tag
constants) is either modelled from the specification or taken as a parameter,
and is marked as such.

Conventions

* A Go `string` is a sequence of bytes: `GoString := List Nat`.
* A Go `panic` is a result of its own (`Res.fault`), carrying the state the
  parser was in when the panic was raised.  A returned `error` is an ordinary
  value (`Option error`, `none` for `nil`).
* Pointers to `common.Player` are addresses (`Nat`) into `Parser.heap`.
* A `float32` / `float64` is carried as its IEEE-754 bit pattern.
-/

namespace demoinfocs

/-! ## Results of stateful code -/

/-- A Go `string`: a finite sequence of bytes. -/
abbrev GoString := List Nat

/-- A Go `error` created with `errors.New`: its message. -/
abbrev error := String

/-- The values this development distinguishes among Go panics. -/
inductive PanicValue where
  /-- The bit reader ran out of data. -/
  | unexpectedEOF
  /-- The cursor is already past the end of the chunk being closed. -/
  | chunkOverrun
  /-- Closing a chunk with no chunk open. -/
  | noChunk
  /-- Text: "Tried to parse tick before parsing header". -/
  | headerNotParsed
  /-- Text: "Canny handle it anymoe (command %v unknown)". -/
  | unknownCommand (cmd : Nat)
  /-- Go runtime error: index out of range. -/
  | indexOutOfRange
  /-- Go runtime error: close of closed channel. -/
  | closeOfClosedChannel
  /-- Any panic raised inside a sub-frame decoder. -/
  | collaborator (code : Nat)
deriving DecidableEq, Repr

/-- Outcome of running stateful code from a state of type `S`: it either
returns `val` in state `st`, or panics with `pv` in state `st`. -/
inductive Res (S α : Type) where
  | ret (val : α) (st : S)
  | fault (pv : PanicValue) (st : S)
deriving DecidableEq, Repr

/-- The state in which the code stopped (returned or panicked). -/
def Res.state {S α : Type} : Res S α → S
  | .ret _ s => s
  | .fault _ s => s

/-- The returned value, if the code returned. -/
def Res.value {S α : Type} : Res S α → Option α
  | .ret a _ => some a
  | .fault _ _ => none

/-- The panic value, if the code panicked. -/
def Res.panicValue {S α : Type} : Res S α → Option PanicValue
  | .ret _ _ => none
  | .fault e _ => some e

/-- Stateful code over a state of type `S`. -/
def Act (S α : Type) : Type := S → Res S α

/-- Sequencing: a panic in the first action ends the run. -/
def Act.bind {S α β : Type} (m : Act S α) (f : α → Act S β) : Act S β := fun s =>
  match m s with
  | .ret a s1 => f a s1
  | .fault e s1 => .fault e s1

instance {S : Type} : Monad (Act S) where
  pure a := fun s => .ret a s
  bind := Act.bind

/-- Raise a Go panic. -/
def Act.panic {S α : Type} (e : PanicValue) : Act S α := fun s => .fault e s

/-- Read the current state. -/
def Act.get {S : Type} : Act S S := fun s => .ret s s

/-- Change the current state. -/
def Act.modify {S : Type} (f : S → S) : Act S Unit := fun s => .ret () (f s)

/-! ## The bit reader (external) -/

/-- Modelled from the spec: the ByteCursor (`p.bitReader`) is not in the
source file.  The spec describes it as a sequential bit/byte reader over the
demo buffer with fixed-width reads and scoped chunks.  `data` is the buffer,
one byte per element (an element counts modulo 256), `pos` is the cursor in
bits from the start of the buffer, `chunkTargets` holds the end positions (in
bits) of the open chunks, innermost first. -/
structure BitReader where
  data : List Nat
  pos : Nat
  chunkTargets : List Int
deriving DecidableEq, Repr

/-- Little-endian value of a sequence of bytes. -/
def leNat : List Nat → Nat
  | [] => 0
  | b :: bs => b % 256 + 256 * leNat bs

/-- The `k` bits of `data` that start at bit position `pos`, least significant
bit first, as a number. -/
def peekBits (data : List Nat) (pos k : Nat) : Nat :=
  leNat ((data.drop (pos / 8)).take (k / 8 + 2)) / 2 ^ (pos % 8) % 2 ^ k

/-- The `n` bytes of `data` that start at bit position `pos`. -/
def bytesAt (data : List Nat) (pos n : Nat) : List Nat :=
  (List.range n).map (fun i => peekBits data (pos + 8 * i) 8)

/-- The prefix of a byte sequence before its first NUL byte. -/
def cString (bs : List Nat) : GoString := bs.takeWhile (fun b => b != 0)

namespace BitReader

/-- Modelled from the spec: a fixed-width read of `k` bits.  Reading beyond
the end of the buffer is a panic, raised with the cursor where it was. -/
def readBits (k : Nat) : Act BitReader Nat := fun r =>
  if r.pos + k ≤ 8 * r.data.length then
    .ret (peekBits r.data r.pos k) { r with pos := r.pos + k }
  else .fault .unexpectedEOF r

/-- Modelled from the spec: `ReadSingleByte()`. -/
def ReadSingleByte : Act BitReader Nat := readBits 8

/-- Modelled from the spec: `ReadInt(bits)`, an unsigned integer. -/
def ReadInt (bits : Nat) : Act BitReader Nat := readBits bits

/-- Two's-complement reading of a `bits`-wide unsigned value. -/
def toSigned (bits : Nat) (u : Nat) : Int :=
  if 2 ^ (bits - 1) ≤ u then (u : Int) - 2 ^ bits else (u : Int)

/-- Modelled from the spec: `ReadSignedInt(bits)` (spec: `readSignedInt`),
little-endian two's complement. -/
def ReadSignedInt (bits : Nat) : Act BitReader Int := fun r =>
  match readBits bits r with
  | .ret u r1 => .ret (toSigned bits u) r1
  | .fault e r1 => .fault e r1

/-- Modelled from the spec: `ReadFloat()` (spec: `readFloat`), a 32-bit float,
carried as its bit pattern. -/
def ReadFloat : Act BitReader Nat := readBits 32

/-- Modelled from the spec: `ReadBytes(n)` (spec: `readBytes`). -/
def ReadBytes (n : Nat) : Act BitReader (List Nat) := fun r =>
  if r.pos + 8 * n ≤ 8 * r.data.length then
    .ret (bytesAt r.data r.pos n) { r with pos := r.pos + 8 * n }
  else .fault .unexpectedEOF r

/-- Modelled from the spec: `ReadCString(n)` (spec: `readFixedString`): a
field of `n` bytes holding a string that ends at the first NUL byte, or fills
the field when there is none.  The whole field is consumed. -/
def ReadCString (n : Nat) : Act BitReader GoString := fun r =>
  match ReadBytes n r with
  | .ret bs r1 => .ret (cString bs) r1
  | .fault e r1 => .fault e r1

/-- Modelled from the spec: `BeginChunk(length)` (spec: `beginScope`): open a
chunk of `length` bits at the cursor. -/
def BeginChunk (length : Int) : Act BitReader Unit := fun r =>
  .ret () { r with chunkTargets := ((r.pos : Int) + length) :: r.chunkTargets }

/-- Modelled from the spec: `EndChunk()` (spec: `endScope`, "guaranteeing exact
consumption of the declared range"): close the innermost chunk and leave the
cursor exactly at its end, skipping what was not read.  It is a panic when the
cursor is already beyond that end, or when the end lies beyond the buffer. -/
def EndChunk : Act BitReader Unit := fun r =>
  match r.chunkTargets with
  | [] => .fault .noChunk r
  | target :: rest =>
    if target < (r.pos : Int) then .fault .chunkOverrun r
    else if (8 * r.data.length : Int) < target then .fault .unexpectedEOF r
    else .ret () { r with pos := target.toNat, chunkTargets := rest }

end BitReader

/-! ## Data model (packages `common` and `events`, external) -/

/-- Modelled from the spec: `common.DemoHeader` is not in the source file; the
fields are those `ParseHeader` assigns, in layout order.  Integers are Go `int`
(64 bits); `PlaybackTime` is a `float32`, carried as its bit pattern. -/
structure common.DemoHeader where
  Filestamp : GoString
  Protocol : Int
  NetworkProtocol : Int
  ServerName : GoString
  ClientName : GoString
  MapName : GoString
  GameDirectory : GoString
  PlaybackTime : Nat
  PlaybackTicks : Int
  PlaybackFrames : Int
  SignonLength : Int
deriving DecidableEq, Repr

/-- Modelled from the spec: a position (`r3.Vector`), three `float64`
coordinates carried as bit patterns. -/
structure r3.Vector where
  X : Nat
  Y : Nat
  Z : Nat
deriving DecidableEq, Repr

/-- Modelled from the spec: the RawSlot (`playerInfo`), with the fields the
source file reads. -/
structure playerInfo where
  UserID : Int
  Name : GoString
  XUID : Int
  IsFakePlayer : Bool
deriving DecidableEq, Repr

/-- Modelled from the spec: `common.Player`, with the fields the spec lists.
`AdditionalPlayerInformation` is a pointer into `p.additionalPlayerInfo`,
carried as the index it points at.  `Hp` stands for whatever `IsAlive`
inspects; the source file never writes it. -/
structure common.Player where
  EntityID : Int
  Name : GoString
  SteamID : Int
  IsBot : Bool
  Hp : Int
  Position : r3.Vector
  LastAlivePosition : r3.Vector
  AdditionalPlayerInformation : Option Nat
deriving DecidableEq, Repr

/-- Modelled from the spec: `common.Player.IsAlive()` ("the Player is
currently alive") is not in the source file; it is a function of the Player's
health. -/
def common.Player.IsAlive (pl : common.Player) : Bool := decide (0 < pl.Hp)

/-- Modelled from the spec: the three events of the event sink.  A
`PlayerBindEvent` carries the pointer `Player`; `deref` records what that
pointer refers to at the moment of the dispatch, which is when the listeners
run (dispatch is synchronous). -/
inductive Event where
  | HeaderParsedEvent (Header : common.DemoHeader)
  | PlayerBindEvent (Player : Nat) (deref : common.Player)
  | TickDoneEvent
deriving DecidableEq, Repr

/-! ## Parser state -/

/-- The part of the parser the sub-frame decoders work on: the cursor, the
slot tables, the Player objects, and their own private state `decoders`. -/
structure Shared (σ : Type) where
  bitReader : BitReader
  rawPlayers : List (Option playerInfo)
  players : Nat → Option Nat
  heap : Nat → common.Player
  decoders : σ

/-- Modelled from the spec: the `Parser` struct is not in the source file; the
fields are those the source file uses.

* `rawPlayers` is indexed by slot; `players k` is the pointer bound at slot
  `k` (`none` for `nil`); `heap a` is the Player at address `a`.
* `connectedPlayers` is the Go map, `none` for a missing key or a `nil` value.
* `additionalPlayerInfo` is the length of the array of that name: the source
  file only takes the address of its elements.
* `ingameTick` and `currentFrame` are Go `int` (64 bits).  The frame counter
  counts decoded frames from 0 and a frame takes at least six bytes of the
  buffer, so the counter stays far from the 64-bit bound and its increment is
  written without wrap-around.
* `cancelChan` is the number of cancellation requests waiting in the channel.
* `msgQueueClosed` tells whether `close(p.msgQueue)` has happened.
* `events` is the log of what `p.eventDispatcher.Dispatch` was called with, in
  call order; `stderr` is the log of diagnostics written to standard error. -/
structure Parser (σ : Type) where
  bitReader : BitReader
  rawPlayers : List (Option playerInfo)
  players : Nat → Option Nat
  heap : Nat → common.Player
  decoders : σ
  header : Option common.DemoHeader
  ingameTick : Int
  currentFrame : Int
  connectedPlayers : Int → Option Nat
  additionalPlayerInfo : Nat
  cancelChan : Nat
  msgQueueClosed : Bool
  events : List Event
  stderr : List String

variable {σ : Type}

/-- The decoders' view of the parser. -/
def Parser.shared (p : Parser σ) : Shared σ :=
  { bitReader := p.bitReader, rawPlayers := p.rawPlayers, players := p.players,
    heap := p.heap, decoders := p.decoders }

/-- Write the decoders' view back into the parser. -/
def Parser.setShared (p : Parser σ) (s : Shared σ) : Parser σ :=
  { p with bitReader := s.bitReader, rawPlayers := s.rawPlayers, players := s.players,
           heap := s.heap, decoders := s.decoders }

/-- Run a bit-reader operation on `p.bitReader`. -/
def onReader {α : Type} (m : Act BitReader α) : Act (Parser σ) α := fun p =>
  match m p.bitReader with
  | .ret a r => .ret a { p with bitReader := r }
  | .fault e r => .fault e { p with bitReader := r }

/-- Source: `p.eventDispatcher.Dispatch(e)`. -/
def Dispatch (e : Event) : Act (Parser σ) Unit :=
  Act.modify (fun p => { p with events := p.events ++ [e] })

/-- What a sub-frame decoder leaves behind: the shared state, and whether it
returned (`none`) or panicked (`some code`). -/
structure DecoderResult (σ : Type) where
  shared : Shared σ
  panicked : Option Nat

/-- A sub-frame decoder (a parameter, the decoders are not in the source file):
it may read the whole parser, writes the shared part only, and may panic.  The
header, the counters, the registry, the cancellation channel, the message
queue's completion signal and the log of the three events of this file are
written by the functions of the source file alone. -/
abbrev Decoder (σ : Type) : Type := Parser σ → DecoderResult σ

/-- Run a sub-frame decoder. -/
def Decoder.run (f : Decoder σ) : Act (Parser σ) Unit := fun p =>
  match (f p).panicked with
  | none => .ret () (p.setShared (f p).shared)
  | some code => .fault (.collaborator code) (p.setShared (f p).shared)

/-- What the source file uses and does not define: the nine command tags
(`demoCommand` constants, one byte each) and the five sub-frame decoders.  The
tags are cases of one Go `switch`, hence pairwise distinct. -/
structure Deps (σ : Type) where
  dcSynctick : Nat
  dcStop : Nat
  dcConsoleCommand : Nat
  dcDataTables : Nat
  dcStringTables : Nat
  dcUserCommand : Nat
  dcSignon : Nat
  dcPacket : Nat
  dcCustomData : Nat
  distinct : [dcSynctick, dcStop, dcConsoleCommand, dcDataTables, dcStringTables,
    dcUserCommand, dcSignon, dcPacket, dcCustomData].Nodup
  stParserParsePacket : Decoder σ
  mapEquipment : Decoder σ
  bindEntities : Decoder σ
  parseStringTables : Decoder σ
  parsePacket : Decoder σ

/-- The defined set of command tags. -/
def Deps.tags (x : Deps σ) : List Nat :=
  [x.dcSynctick, x.dcStop, x.dcConsoleCommand, x.dcDataTables, x.dcStringTables,
    x.dcUserCommand, x.dcSignon, x.dcPacket, x.dcCustomData]

/-- The five sub-frame decoders. -/
def Deps.decoders (x : Deps σ) : List (Decoder σ) :=
  [x.stParserParsePacket, x.mapEquipment, x.bindEntities, x.parseStringTables, x.parsePacket]

/-! ## `parsing.go` -/

/-- Source: `const maxOsPath = 260`. -/
def maxOsPath : Nat := 260

/-- The expected filestamp, "HL2DEMO". -/
def HL2DEMO : GoString := [72, 76, 50, 68, 69, 77, 79]

/-- Source: `Parser.ParseHeader`. -/
def ParseHeader : Act (Parser σ) (Option error) := do
  let Filestamp ← onReader (BitReader.ReadCString 8)
  let Protocol ← onReader (BitReader.ReadSignedInt 32)
  let NetworkProtocol ← onReader (BitReader.ReadSignedInt 32)
  let ServerName ← onReader (BitReader.ReadCString maxOsPath)
  let ClientName ← onReader (BitReader.ReadCString maxOsPath)
  let MapName ← onReader (BitReader.ReadCString maxOsPath)
  let GameDirectory ← onReader (BitReader.ReadCString maxOsPath)
  let PlaybackTime ← onReader BitReader.ReadFloat
  let PlaybackTicks ← onReader (BitReader.ReadSignedInt 32)
  let PlaybackFrames ← onReader (BitReader.ReadSignedInt 32)
  let SignonLength ← onReader (BitReader.ReadSignedInt 32)
  let h : common.DemoHeader :=
    { Filestamp, Protocol, NetworkProtocol, ServerName, ClientName, MapName,
      GameDirectory, PlaybackTime, PlaybackTicks, PlaybackFrames, SignonLength }
  if h.Filestamp ≠ HL2DEMO then
    return some "Invalid File-Type; expecting HL2DEMO in the first 8 bytes"
  else
    Act.modify (fun p => { p with header := some h })
    Dispatch (Event.HeaderParsedEvent h)
    return none

/-- Source: `Parser.Cancel`: put one cancellation request into the channel.  A
send that has to wait for room in the channel is not modelled. -/
def Cancel (p : Parser σ) : Parser σ := { p with cancelChan := p.cancelChan + 1 }

/-- Source: `Parser.parseFrame`.  `ReadSignedInt(32) << 3` is a shift of a Go
`int` (64 bits) holding a 32-bit value, so it is the product by 8. -/
def parseFrame (x : Deps σ) : Act (Parser σ) Bool := do
  let cmd ← onReader BitReader.ReadSingleByte
  let tick ← onReader (BitReader.ReadSignedInt 32)
  Act.modify (fun p => { p with ingameTick := tick })
  let _ ← onReader BitReader.ReadSingleByte
  Act.modify (fun p => { p with currentFrame := p.currentFrame + 1 })
  if cmd = x.dcSynctick then
    return true
  else if cmd = x.dcStop then
    return false
  else if cmd = x.dcConsoleCommand then
    let n ← onReader (BitReader.ReadSignedInt 32)
    onReader (BitReader.BeginChunk (n * 2 ^ 3))
    onReader BitReader.EndChunk
    return true
  else if cmd = x.dcDataTables then
    let n ← onReader (BitReader.ReadSignedInt 32)
    onReader (BitReader.BeginChunk (n * 2 ^ 3))
    x.stParserParsePacket.run
    onReader BitReader.EndChunk
    x.mapEquipment.run
    x.bindEntities.run
    return true
  else if cmd = x.dcStringTables then
    x.parseStringTables.run
    return true
  else if cmd = x.dcUserCommand then
    let _ ← onReader (BitReader.ReadInt 32)
    let n ← onReader (BitReader.ReadSignedInt 32)
    onReader (BitReader.BeginChunk (n * 2 ^ 3))
    onReader BitReader.EndChunk
    return true
  else if cmd = x.dcSignon ∨ cmd = x.dcPacket then
    x.parsePacket.run
    return true
  else if cmd = x.dcCustomData then
    Act.modify (fun p =>
      { p with stderr := p.stderr ++ ["WARNING: Found CustomData but not handled\n"] })
    return true
  else
    Act.panic (.unknownCommand cmd)

/-- Write through the pointer `pl`: replace the Player at address `pl` by `f` of
it. -/
def updPlayer (pl : Nat) (f : common.Player → common.Player) : Act (Parser σ) Unit :=
  Act.modify (fun p => { p with heap := Function.update p.heap pl (f (p.heap pl)) })

/-- Source: the body of the `range p.rawPlayers` loop of `ParseNextFrame`, for
slot `k` holding the non-nil raw player `rp`.  Taking the address
`&p.additionalPlayerInfo[pl.EntityID]` is a Go panic when the index is outside
the array. -/
def reconcileSlot (k : Nat) (rp : playerInfo) : Act (Parser σ) Unit := do
  let p ← Act.get
  match p.players k with
  | none => return ()
  | some pl =>
    let newPlayer := (p.connectedPlayers rp.UserID).isNone
    if newPlayer then
      Act.modify (fun p =>
        { p with connectedPlayers := Function.update p.connectedPlayers rp.UserID (some pl) })
    updPlayer pl (fun o => { o with Name := rp.Name })
    updPlayer pl (fun o => { o with SteamID := rp.XUID })
    updPlayer pl (fun o => { o with IsBot := rp.IsFakePlayer })
    let p ← Act.get
    let i := (p.heap pl).EntityID
    if i < 0 ∨ (p.additionalPlayerInfo : Int) ≤ i then
      Act.panic .indexOutOfRange
    updPlayer pl (fun o => { o with AdditionalPlayerInformation := some i.toNat })
    let p ← Act.get
    if (p.heap pl).IsAlive then
      updPlayer pl (fun o => { o with LastAlivePosition := o.Position })
    let p ← Act.get
    if newPlayer ∧ (p.heap pl).SteamID ≠ 0 then
      Dispatch (Event.PlayerBindEvent pl (p.heap pl))

/-- Source: the `for k, rp := range p.rawPlayers` loop of `ParseNextFrame`,
over the slots from index `k` on. -/
def reconcile : List (Option playerInfo) → Nat → Act (Parser σ) Unit
  | [], _ => pure ()
  | none :: rest, k => reconcile rest (k + 1)
  | some rp :: rest, k => do
    reconcileSlot k rp
    reconcile rest (k + 1)

/-- Source: `close(p.msgQueue)`; closing a closed channel is a Go panic. -/
def closeMsgQueue : Act (Parser σ) Unit := fun p =>
  if p.msgQueueClosed then .fault .closeOfClosedChannel p
  else .ret () { p with msgQueueClosed := true }

/-- Source: `Parser.ParseNextFrame`. -/
def ParseNextFrame (x : Deps σ) : Act (Parser σ) Bool := do
  let p ← Act.get
  if p.header.isNone then
    Act.panic .headerNotParsed
  let b ← parseFrame x
  let p ← Act.get
  reconcile p.rawPlayers 0
  Dispatch Event.TickDoneEvent
  if !b then
    closeMsgQueue
  return b

/-- Source: `Parser.ParseToEnd`.  Each turn of the `for` loop takes a pending
cancellation request if there is one, and decodes a frame otherwise.  `fuel`
bounds the number of turns; `none` means the bound was reached. -/
def ParseToEnd (x : Deps σ) : Nat → Parser σ → Option (Res (Parser σ) (Option error))
  | 0, _ => none
  | fuel + 1, p =>
    if 0 < p.cancelChan then
      some (.ret (some "Parsing was cancelled before it finished")
        { p with cancelChan := p.cancelChan - 1 })
    else
      match ParseNextFrame x p with
      | .ret b p1 => if !b then some (.ret none p1) else ParseToEnd x fuel p1
      | .fault e p1 => some (.fault e p1)

/-! ## Vocabulary of the properties -/

/-- Move the cursor of `p` forward by `k` bits. -/
def Parser.advance (p : Parser σ) (k : Nat) : Parser σ :=
  { p with bitReader := { p.bitReader with pos := p.bitReader.pos + k } }

/-- At least `k` bits are left between the cursor and the end of the buffer. -/
def Parser.avail (p : Parser σ) (k : Nat) : Prop :=
  p.bitReader.pos + k ≤ 8 * p.bitReader.data.length

instance (p : Parser σ) (k : Nat) : Decidable (p.avail k) := by
  unfold Parser.avail; infer_instance

/-- Size of the fixed header layout in bytes: 8 + 4 + 4 + 4 * 260 + 4 + 4 + 4 + 4. -/
def headerBytes : Nat := 1072

/-- Size of the fixed header layout in bits. -/
def headerBits : Nat := 8576

/-- The 8-byte filestamp field at the cursor, read as a NUL-terminated string. -/
def filestampAt (p : Parser σ) : GoString :=
  cString (bytesAt p.bitReader.data p.bitReader.pos 8)

/-- The eleven header fields found at bit position `pos` of `data`, in layout
order. -/
def headerAt (data : List Nat) (pos : Nat) : common.DemoHeader :=
  { Filestamp := cString (bytesAt data pos 8)
    Protocol := BitReader.toSigned 32 (peekBits data (pos + 64) 32)
    NetworkProtocol := BitReader.toSigned 32 (peekBits data (pos + 96) 32)
    ServerName := cString (bytesAt data (pos + 128) 260)
    ClientName := cString (bytesAt data (pos + 2208) 260)
    MapName := cString (bytesAt data (pos + 4288) 260)
    GameDirectory := cString (bytesAt data (pos + 6368) 260)
    PlaybackTime := peekBits data (pos + 8448) 32
    PlaybackTicks := BitReader.toSigned 32 (peekBits data (pos + 8480) 32)
    PlaybackFrames := BitReader.toSigned 32 (peekBits data (pos + 8512) 32)
    SignonLength := BitReader.toSigned 32 (peekBits data (pos + 8544) 32) }

/-- The message of the error `ParseHeader` returns. -/
def invalidFileType : error := "Invalid File-Type; expecting HL2DEMO in the first 8 bytes"

/-- The message of the error `ParseToEnd` returns on cancellation. -/
def cancelled : error := "Parsing was cancelled before it finished"

/-! ### Frames -/

/-- The command tag byte at the cursor. -/
def tagAt (p : Parser σ) : Nat := peekBits p.bitReader.data p.bitReader.pos 8

/-- The 32-bit signed integer right after the tag byte. -/
def tickAt (p : Parser σ) : Int :=
  BitReader.toSigned 32 (peekBits p.bitReader.data (p.bitReader.pos + 8) 32)

/-- Number of bits in the head of a frame: tag byte, tick, player slot byte. -/
def frameHeadBits : Nat := 48

/-- The parser after the head of a frame has been read: the cursor is past the
tag byte, the tick and the player slot byte, the ingame tick is the one read
and the frame counter is one higher. -/
def Parser.frameHead (p : Parser σ) : Parser σ :=
  { p.advance frameHeadBits with ingameTick := tickAt p, currentFrame := p.currentFrame + 1 }

/-- The `switch cmd` of `parseFrame`: what follows the head of the frame. -/
def frameSwitch (x : Deps σ) (cmd : Nat) : Act (Parser σ) Bool := do
  if cmd = x.dcSynctick then
    return true
  else if cmd = x.dcStop then
    return false
  else if cmd = x.dcConsoleCommand then
    let n ← onReader (BitReader.ReadSignedInt 32)
    onReader (BitReader.BeginChunk (n * 2 ^ 3))
    onReader BitReader.EndChunk
    return true
  else if cmd = x.dcDataTables then
    let n ← onReader (BitReader.ReadSignedInt 32)
    onReader (BitReader.BeginChunk (n * 2 ^ 3))
    x.stParserParsePacket.run
    onReader BitReader.EndChunk
    x.mapEquipment.run
    x.bindEntities.run
    return true
  else if cmd = x.dcStringTables then
    x.parseStringTables.run
    return true
  else if cmd = x.dcUserCommand then
    let _ ← onReader (BitReader.ReadInt 32)
    let n ← onReader (BitReader.ReadSignedInt 32)
    onReader (BitReader.BeginChunk (n * 2 ^ 3))
    onReader BitReader.EndChunk
    return true
  else if cmd = x.dcSignon ∨ cmd = x.dcPacket then
    x.parsePacket.run
    return true
  else if cmd = x.dcCustomData then
    Act.modify (fun p =>
      { p with stderr := p.stderr ++ ["WARNING: Found CustomData but not handled\n"] })
    return true
  else
    Act.panic (.unknownCommand cmd)

/-- Every run of `m` relates the state it starts in to the state it stops in
(by return or by panic) by `I`, and panics only with values in `P`. -/
def Act.Within {S α : Type} (I : S → S → Prop) (P : PanicValue → Prop) (m : Act S α) : Prop :=
  ∀ s, I s (m s).state ∧ ∀ e, (m s).panicValue = some e → P e

/-- Every value `m` returns satisfies `Q`. -/
def Act.Returns {S α : Type} (Q : α → Prop) (m : Act S α) : Prop :=
  ∀ s a s1, m s = .ret a s1 → Q a

/-- The Player `o` after the loop body has copied the raw player `rp` into it,
refreshed its back-reference and its last alive position. -/
def reconciled (rp : playerInfo) (o : common.Player) : common.Player :=
  { o with
    Name := rp.Name, SteamID := rp.XUID, IsBot := rp.IsFakePlayer
    AdditionalPlayerInformation := some o.EntityID.toNat
    LastAlivePosition := if o.IsAlive then o.Position else o.LastAlivePosition }

/-- The Player `o` after the loop body has copied the raw player `rp` into it,
before the back-reference is taken. -/
def copied (rp : playerInfo) (o : common.Player) : common.Player :=
  { o with Name := rp.Name, SteamID := rp.XUID, IsBot := rp.IsFakePlayer }

/-- The registry after the loop body has seen user `uid` with Player `pl`. -/
def registered (c : Int → Option Nat) (uid : Int) (pl : Nat) : Int → Option Nat :=
  if (c uid).isNone then Function.update c uid (some pl) else c

/-- What the reconciliation loop leaves alone between the states `p` and `s`:
the slot tables and every Player's health, position and entity index; and a
Player's last alive position is either what it was or, for a Player that is
alive, its position. -/
def Reconciles (p s : Parser σ) : Prop :=
  s.players = p.players ∧ s.rawPlayers = p.rawPlayers ∧
  ∀ a, (s.heap a).Hp = (p.heap a).Hp ∧ (s.heap a).Position = (p.heap a).Position ∧
    (s.heap a).EntityID = (p.heap a).EntityID ∧
    ((s.heap a).LastAlivePosition = (p.heap a).LastAlivePosition ∨
      ((p.heap a).IsAlive = true ∧ (s.heap a).LastAlivePosition = (p.heap a).Position))

/-- The PlayerBind events of an event log, in order: for each the name,
persistent identifier and bot flag of the Player it carries, as they were at
the dispatch. -/
def bindInfo : List Event → List (GoString × Int × Bool)
  | [] => []
  | Event.PlayerBindEvent _ d :: rest => (d.Name, d.SteamID, d.IsBot) :: bindInfo rest
  | _ :: rest => bindInfo rest

/-- The name, persistent identifier and bot flag a raw player carries. -/
def playerInfo.info (rp : playerInfo) : GoString × Int × Bool :=
  (rp.Name, rp.XUID, rp.IsFakePlayer)

/-- In the state `q` exactly one slot has a raw player, a bound Player and a
user identifier that is not in the registry; its raw player is `rp`, and the
persistent identifier of `rp` is not zero. -/
def OneFresh (q : Parser σ) (rp : playerInfo) : Prop :=
  ∃ k a, q.rawPlayers[k]? = some (some rp) ∧ q.players k = some a ∧
    q.connectedPlayers rp.UserID = none ∧ rp.XUID ≠ 0 ∧
    ∀ j rp1 a1, j ≠ k → q.rawPlayers[j]? = some (some rp1) → q.players j = some a1 →
      q.connectedPlayers rp1.UserID ≠ none

/-- A run of `ParseNextFrame` over one frame per element of the list: each
call returns, and when its reconciliation starts (after `parseFrame`) the
state has exactly one fresh slot, whose raw player is the list element. -/
inductive FreshFrames (x : Deps σ) : Parser σ → List playerInfo → Parser σ → Prop where
  | done (p : Parser σ) : FreshFrames x p [] p
  | frame {p q s t : Parser σ} {b : Bool} {rp : playerInfo} {rps : List playerInfo}
      (hframe : parseFrame x p = .ret b q) (hfresh : OneFresh q rp)
      (hnext : ParseNextFrame x p = .ret b s) (hrest : FreshFrames x s rps t) :
      FreshFrames x p (rp :: rps) t

/-- The panic values of the bit reader. -/
def readerPanic (e : PanicValue) : Prop :=
  e = .unexpectedEOF ∨ e = .chunkOverrun ∨ e = .noChunk

/-- A bit-reader operation panics only with the reader's panic values. -/
def ReaderOp {α : Type} (m : Act BitReader α) : Prop :=
  ∀ r e, (m r).panicValue = some e → readerPanic e

/-! ### The header layout, written out as an encoder -/

/-- Spec wording: a 32-bit little-endian field holding the number `u`. -/
def encodeUint32 (u : Nat) : List Nat :=
  [u % 256, u / 256 % 256, u / 65536 % 256, u / 16777216 % 256]

/-- Spec wording: a 32-bit signed little-endian integer (two's complement). -/
def encodeInt32 (v : Int) : List Nat := encodeUint32 (v % 2 ^ 32).toNat

/-- Spec wording: a bounded C-string in a field of `cap` bytes: the bytes of
the string, cut to the capacity, followed by NUL bytes up to the capacity. -/
def encodeCString (cap : Nat) (s : GoString) : List Nat :=
  s.take cap ++ List.replicate (cap - s.length) 0

/-- Spec wording: the fixed layout, "an 8-byte magic string, two 32-bit signed
little-endian integers, four bounded C-strings (capacity 260 bytes each), one
32-bit float, three 32-bit signed integers". -/
def encodeHeader (h : common.DemoHeader) : List Nat :=
  encodeCString 8 h.Filestamp ++ (encodeInt32 h.Protocol ++ (encodeInt32 h.NetworkProtocol ++
  (encodeCString 260 h.ServerName ++ (encodeCString 260 h.ClientName ++
  (encodeCString 260 h.MapName ++ (encodeCString 260 h.GameDirectory ++
  (encodeUint32 h.PlaybackTime ++ (encodeInt32 h.PlaybackTicks ++
  (encodeInt32 h.PlaybackFrames ++ encodeInt32 h.SignonLength)))))))))

/-- The value fits a 32-bit signed integer. -/
def fitsInt32 (v : Int) : Prop := -2 ^ 31 ≤ v ∧ v < 2 ^ 31

instance (v : Int) : Decidable (fitsInt32 v) := by
  unfold fitsInt32; infer_instance

/-- The string can be the content of a C-string: bytes, none of them NUL. -/
def isCStringBody (s : GoString) : Prop := ∀ b ∈ s, b ≠ 0 ∧ b < 256

instance (s : GoString) : Decidable (isCStringBody s) := by
  unfold isCStringBody; infer_instance

/-- The header can be written in the fixed layout: the filestamp is "HL2DEMO",
the integers fit 32 bits, the float is a 32-bit pattern, and the strings are
C-string contents. -/
def common.DemoHeader.Encodable (h : common.DemoHeader) : Prop :=
  h.Filestamp = HL2DEMO ∧
  fitsInt32 h.Protocol ∧ fitsInt32 h.NetworkProtocol ∧
  isCStringBody h.ServerName ∧ isCStringBody h.ClientName ∧
  isCStringBody h.MapName ∧ isCStringBody h.GameDirectory ∧
  h.PlaybackTime < 2 ^ 32 ∧
  fitsInt32 h.PlaybackTicks ∧ fitsInt32 h.PlaybackFrames ∧ fitsInt32 h.SignonLength

instance (h : common.DemoHeader) : Decidable h.Encodable := by
  unfold common.DemoHeader.Encodable; infer_instance

/-- The header with each string cut to the 260 bytes that fit its field. -/
def common.DemoHeader.truncated (h : common.DemoHeader) : common.DemoHeader :=
  { h with
    ServerName := h.ServerName.take maxOsPath
    ClientName := h.ClientName.take maxOsPath
    MapName := h.MapName.take maxOsPath
    GameDirectory := h.GameDirectory.take maxOsPath }

/-- A header whose server name is 300 bytes long and whose map name fills its
field exactly. -/
def exampleHeader : common.DemoHeader :=
  { Filestamp := HL2DEMO, Protocol := 4, NetworkProtocol := -1
    ServerName := List.replicate 300 65, ClientName := [71, 79, 84, 86]
    MapName := List.replicate 260 66, GameDirectory := [99, 115, 103, 111]
    PlaybackTime := 1065353216, PlaybackTicks := 128, PlaybackFrames := -2147483648
    SignonLength := 2147483647 }

/-! ### Concrete inputs -/

/-- A decoder that does nothing and returns. -/
def Decoder.skip : Decoder σ := fun p => { shared := p.shared, panicked := none }

/-- Command tags 1 to 9 and decoders that do nothing. -/
def exampleDeps : Deps Unit :=
  { dcSignon := 1, dcPacket := 2, dcSynctick := 3, dcConsoleCommand := 4, dcUserCommand := 5,
    dcDataTables := 6, dcStop := 7, dcCustomData := 8, dcStringTables := 9,
    distinct := by decide,
    stParserParsePacket := Decoder.skip,
    mapEquipment := Decoder.skip,
    bindEntities := Decoder.skip,
    parseStringTables := Decoder.skip,
    parsePacket := Decoder.skip }

/-- A Player with every field zero. -/
def zeroPlayer : common.Player :=
  { EntityID := 0, Name := [], SteamID := 0, IsBot := false, Hp := 0,
    Position := ⟨0, 0, 0⟩, LastAlivePosition := ⟨0, 0, 0⟩,
    AdditionalPlayerInformation := none }

/-- A parser at the start of the buffer `data`: nothing parsed, no slot in use,
no cancellation requested, the message queue open. -/
def newParser (data : List Nat) : Parser Unit :=
  { bitReader := { data := data, pos := 0, chunkTargets := [] }
    rawPlayers := [], players := fun _ => none, heap := fun _ => zeroPlayer, decoders := ()
    header := none, ingameTick := 0, currentFrame := 0, connectedPlayers := fun _ => none
    additionalPlayerInfo := 64, cancelChan := 0, msgQueueClosed := false
    events := [], stderr := [] }

/-- A Player bound at slot 0 that is alive, away from its last alive position,
in front of a stop frame, with no raw player in any slot. -/
def aliveNoSlotParser : Parser Unit :=
  { newParser [7, 5, 0, 0, 0, 0] with
    header := some exampleHeader
    rawPlayers := [none]
    players := fun k => if k = 0 then some 0 else none
    heap := fun _ => { zeroPlayer with Hp := 100, Position := ⟨1, 2, 3⟩ } }

/-- A raw player with user identifier 1 and XUID 7. -/
def rawPlayerOne : playerInfo :=
  { UserID := 1, Name := [65, 108], XUID := 7, IsFakePlayer := false }

/-- A Player bound at slot 0 that is alive, away from its last alive position,
in front of a synctick frame, with a raw player in slot 0. -/
def aliveSlotParser : Parser Unit :=
  { newParser [3, 5, 0, 0, 0, 0] with
    header := some exampleHeader
    rawPlayers := [some rawPlayerOne]
    players := fun k => if k = 0 then some 0 else none
    heap := fun _ => { zeroPlayer with Hp := 100, Position := ⟨1, 2, 3⟩ } }

/-- A raw player with user identifier 2 and XUID 9. -/
def rawPlayerTwo : playerInfo :=
  { UserID := 2, Name := [66, 111], XUID := 9, IsFakePlayer := true }

/-- A raw player in slot 0 with a persistent identifier never seen before, no
Player bound at slot 0, in front of a synctick frame. -/
def unboundSlotParser : Parser Unit :=
  { newParser [3, 5, 0, 0, 0, 0] with
    header := some exampleHeader
    rawPlayers := [some rawPlayerOne] }

/-- Decoders that do nothing, but for the packet decoder, which delivers the
raw player of user 1 with XUID 7 in slot 0. -/
def xuidArrivesDeps : Deps Unit :=
  { exampleDeps with
    parsePacket := fun p =>
      { shared := { p.shared with rawPlayers := [some rawPlayerOne] }, panicked := none } }

/-- User 1 in slot 0 with a bound Player and XUID 0, in front of a synctick
frame and a packet frame. -/
def zeroXuidParser : Parser Unit :=
  { newParser [3, 5, 0, 0, 0, 0, 2, 6, 0, 0, 0, 0] with
    header := some exampleHeader
    rawPlayers := [some { rawPlayerOne with XUID := 0 }]
    players := fun k => if k = 0 then some 0 else none }

/-- Decoders that do nothing, but for the packet decoder, which delivers a
second raw player, in slot 1, and binds Player 1 there. -/
def joinDeps : Deps Unit :=
  { exampleDeps with
    parsePacket := fun p =>
      { shared := { p.shared with
          rawPlayers := [some rawPlayerOne, some rawPlayerTwo]
          players := fun k => if k = 0 then some 0 else if k = 1 then some 1 else none },
        panicked := none } }

/-- User 1 in slot 0 with a bound Player and XUID 7, in front of a synctick
frame and a packet frame. -/
def twoFramesParser : Parser Unit :=
  { newParser [3, 5, 0, 0, 0, 0, 2, 6, 0, 0, 0, 0] with
    header := some exampleHeader
    rawPlayers := [some rawPlayerOne]
    players := fun k => if k = 0 then some 0 else none }

/-- The 32-bit signed integer found `off` bits past the cursor: the length, in
bytes, that a skipped frame announces for its payload. -/
def lengthAt (p : Parser σ) (off : Nat) : Int :=
  BitReader.toSigned 32 (peekBits p.bitReader.data (p.bitReader.pos + off) 32)

/-- Whether the event is a PlayerBind event. -/
def Event.isBind : Event → Bool
  | .PlayerBindEvent _ _ => true
  | _ => false

/-- The events the loop body dispatches for slot `k` holding the raw player
`rp`, when run from `p`: what it appends to the event log. -/
def slotEvents (k : Nat) (rp : playerInfo) (p : Parser σ) : List Event :=
  (reconcileSlot k rp p).state.events.drop p.events.length

/-- The events the reconciliation loop dispatches over the slots from index `k`
on, when run from `p`, each with the user identifier of the raw player for
which the loop body dispatched it.  The loop is run as it is; the trace only
records, next to each event, which slot's turn it was. -/
def loopTrace : List (Option playerInfo) → Nat → Parser σ → List (Int × Event)
  | [], _, _ => []
  | none :: rest, k, p => loopTrace rest (k + 1) p
  | some rp :: rest, k, p =>
    (slotEvents k rp p).map (fun e => (rp.UserID, e)) ++
      match reconcileSlot k rp p with
      | .ret _ p1 => loopTrace rest (k + 1) p1
      | .fault _ _ => []

/-- The trace of the reconciliation loop of one call of `ParseNextFrame`. -/
def frameTrace (x : Deps σ) (p : Parser σ) : List (Int × Event) :=
  if p.header.isNone then []
  else
    match parseFrame x p with
    | .ret _ q => loopTrace q.rawPlayers 0 q
    | .fault _ _ => []

/-- The parser after `n` calls of `ParseNextFrame` in a row, or where the
first of them that panics stops. -/
def runFrames (x : Deps σ) : Nat → Parser σ → Parser σ
  | 0, p => p
  | n + 1, p =>
    match ParseNextFrame x p with
    | .ret _ s => runFrames x n s
    | .fault _ s => s

/-- The traces of the calls of `runFrames`, one after the other. -/
def sessionTrace (x : Deps σ) : Nat → Parser σ → List (Int × Event)
  | 0, _ => []
  | n + 1, p =>
    frameTrace x p ++
      match ParseNextFrame x p with
      | .ret _ s => sessionTrace x n s
      | .fault _ _ => []

/-- The registry only grows from `p` to `s`: what is registered stays
registered, with the same Player. -/
def RegistryGrows (p s : Parser σ) : Prop :=
  ∀ u a, p.connectedPlayers u = some a → s.connectedPlayers u = some a

/-! ## Lemmas on the monad and the reader -/

theorem Act.bind_eq {S α β : Type} (m : Act S α) (f : α → Act S β) (s : S) :
    (m >>= f) s = match m s with
      | .ret a s1 => f a s1
      | .fault e s1 => .fault e s1 := rfl

theorem Act.pure_eq {S α : Type} (a : α) (s : S) : (pure a : Act S α) s = .ret a s := rfl

@[simp] theorem Parser.advance_pos (p : Parser σ) (k : Nat) :
    (p.advance k).bitReader.pos = p.bitReader.pos + k := rfl

@[simp] theorem Parser.advance_data (p : Parser σ) (k : Nat) :
    (p.advance k).bitReader.data = p.bitReader.data := rfl

@[simp] theorem Parser.advance_header (p : Parser σ) (k : Nat) :
    (p.advance k).header = p.header := rfl

@[simp] theorem Parser.advance_events (p : Parser σ) (k : Nat) :
    (p.advance k).events = p.events := rfl

@[simp] theorem Parser.advance_advance (p : Parser σ) (j k : Nat) :
    (p.advance j).advance k = p.advance (j + k) := by
  simp [Parser.advance, Nat.add_assoc]

theorem onReader_readBits {k : Nat} {p : Parser σ}
    (h : p.bitReader.pos + k ≤ 8 * p.bitReader.data.length) :
    onReader (BitReader.readBits k) p
      = .ret (peekBits p.bitReader.data p.bitReader.pos k) (p.advance k) := by
  simp [onReader, BitReader.readBits, h, Parser.advance]

theorem onReader_readBits_eof {k : Nat} {p : Parser σ}
    (h : ¬ p.bitReader.pos + k ≤ 8 * p.bitReader.data.length) :
    onReader (BitReader.readBits k) p = .fault .unexpectedEOF p := by
  simp [onReader, BitReader.readBits, h]

theorem onReader_ReadSignedInt {k : Nat} {p : Parser σ}
    (h : p.bitReader.pos + k ≤ 8 * p.bitReader.data.length) :
    onReader (BitReader.ReadSignedInt k) p
      = .ret (BitReader.toSigned k (peekBits p.bitReader.data p.bitReader.pos k))
          (p.advance k) := by
  simp [onReader, BitReader.ReadSignedInt, BitReader.readBits, h, Parser.advance]

theorem onReader_ReadSignedInt_eof {k : Nat} {p : Parser σ}
    (h : ¬ p.bitReader.pos + k ≤ 8 * p.bitReader.data.length) :
    onReader (BitReader.ReadSignedInt k) p = .fault .unexpectedEOF p := by
  simp [onReader, BitReader.ReadSignedInt, BitReader.readBits, h]

theorem onReader_ReadCString {n : Nat} {p : Parser σ}
    (h : p.bitReader.pos + 8 * n ≤ 8 * p.bitReader.data.length) :
    onReader (BitReader.ReadCString n) p
      = .ret (cString (bytesAt p.bitReader.data p.bitReader.pos n)) (p.advance (8 * n)) := by
  simp [onReader, BitReader.ReadCString, BitReader.ReadBytes, h, Parser.advance]

theorem onReader_ReadCString_eof {n : Nat} {p : Parser σ}
    (h : ¬ p.bitReader.pos + 8 * n ≤ 8 * p.bitReader.data.length) :
    onReader (BitReader.ReadCString n) p = .fault .unexpectedEOF p := by
  simp [onReader, BitReader.ReadCString, BitReader.ReadBytes, h]

/-! ## Lemmas on the byte layout -/

theorem leNat_lt (l : List Nat) : leNat l < 256 ^ l.length := by
  induction l with
  | nil => simp [leNat]
  | cons b bs ih =>
    simp only [leNat, List.length_cons, pow_succ]
    have := Nat.mod_lt b (show 0 < 256 by norm_num)
    omega

theorem leNat_append (a b : List Nat) :
    leNat (a ++ b) = leNat a + 256 ^ a.length * leNat b := by
  induction a with
  | nil => simp [leNat]
  | cons x xs ih =>
    have e : leNat (x :: xs ++ b) = x % 256 + 256 * leNat (xs ++ b) := rfl
    have e2 : leNat (x :: xs) = x % 256 + 256 * leNat xs := rfl
    rw [e, e2, ih, List.length_cons, pow_succ]
    ring

theorem leNat_take_add (l : List Nat) (m j : Nat) :
    leNat (l.take (m + j)) % 256 ^ m = leNat (l.take m) := by
  by_cases hm : m ≤ l.length
  · have hsplit : l.take (m + j) = l.take m ++ (l.drop m).take j := by
      rw [List.take_add]
    have hlen : (l.take m).length = m := by simp [hm]
    rw [hsplit, leNat_append, hlen, Nat.add_mul_mod_self_left, Nat.mod_eq_of_lt]
    have := leNat_lt (l.take m)
    rwa [hlen] at this
  · have h1 : l.take (m + j) = l := List.take_of_length_le (by omega)
    have h2 : l.take m = l := List.take_of_length_le (by omega)
    rw [h1, h2, Nat.mod_eq_of_lt]
    calc leNat l < 256 ^ l.length := leNat_lt l
      _ ≤ 256 ^ m := Nat.pow_le_pow_right (by norm_num) (by omega)

theorem peekBits_aligned (data : List Nat) (i m : Nat) :
    peekBits data (8 * i) (8 * m) = leNat ((data.drop i).take m) := by
  unfold peekBits
  have h1 : 8 * i / 8 = i := by omega
  have h2 : 8 * i % 8 = 0 := by omega
  have h3 : 8 * m / 8 = m := by omega
  rw [h1, h2, h3, pow_zero, Nat.div_one, pow_mul]
  exact leNat_take_add _ m 2

theorem peekBits_field {data A F R : List Nat} {pos k : Nat}
    (hd : data = A ++ (F ++ R)) (hpos : pos = 8 * A.length) (hk : k = 8 * F.length) :
    peekBits data pos k = leNat F := by
  subst hd hpos hk
  rw [peekBits_aligned]
  simp

theorem bytesAt_field {data A F R : List Nat} {pos n : Nat}
    (hd : data = A ++ (F ++ R)) (hpos : pos = 8 * A.length) (hn : n = F.length) :
    bytesAt data pos n = F.map (fun b => b % 256) := by
  subst hd hpos hn
  unfold bytesAt
  apply List.ext_getElem
  · simp
  · intro j h1 h2
    simp only [List.getElem_map, List.getElem_range]
    have hj : j < F.length := by simpa using h1
    have e : 8 * A.length + 8 * j = 8 * (A.length + j) := by ring
    have e1 : 8 * 1 = 8 := rfl
    rw [e, ← e1, peekBits_aligned]
    have : List.drop (A.length + j) (A ++ (F ++ R)) = F.drop j ++ R := by
      rw [← List.drop_drop, List.drop_left, List.drop_append_of_le_length (by omega)]
    rw [this]
    rw [List.drop_eq_getElem_cons hj]
    simp [leNat]

/-! ## Lemmas on the encoder -/

theorem encodeCString_length (cap : Nat) (s : GoString) :
    (encodeCString cap s).length = cap := by
  simp [encodeCString]; omega

theorem encodeUint32_length (u : Nat) : (encodeUint32 u).length = 4 := rfl

theorem encodeInt32_length (v : Int) : (encodeInt32 v).length = 4 := rfl

theorem leNat_encodeUint32 (u : Nat) : leNat (encodeUint32 u) = u % 2 ^ 32 := by
  simp only [encodeUint32, leNat]
  omega

theorem toSigned_encodeInt32 (v : Int) (hv : fitsInt32 v) :
    BitReader.toSigned 32 (leNat (encodeInt32 v)) = v := by
  obtain ⟨h1, h2⟩ := hv
  rw [encodeInt32, leNat_encodeUint32]
  unfold BitReader.toSigned
  have hnn : 0 ≤ v % 2 ^ 32 := Int.emod_nonneg _ (by norm_num)
  have hlt : v % 2 ^ 32 < 2 ^ 32 := Int.emod_lt_of_pos _ (by norm_num)
  have hm : (v % 2 ^ 32).toNat % 2 ^ 32 = (v % 2 ^ 32).toNat := by
    apply Nat.mod_eq_of_lt
    omega
  rw [hm]
  have hc : (((v % 2 ^ 32).toNat : Nat) : Int) = v % 2 ^ 32 := Int.toNat_of_nonneg hnn
  split
  · rename_i h
    rw [hc]
    omega
  · rename_i h
    rw [hc]
    omega

theorem cString_encodeCString (cap : Nat) (s : GoString) (hs : isCStringBody s) :
    cString ((encodeCString cap s).map (fun b => b % 256)) = s.take cap := by
  have hmap : (encodeCString cap s).map (fun b => b % 256)
      = s.take cap ++ List.replicate (cap - s.length) 0 := by
    simp only [encodeCString, List.map_append, List.map_replicate]
    congr 1
    conv_rhs => rw [← List.map_id (List.take cap s)]
    apply List.map_congr_left
    intro b hb
    exact Nat.mod_eq_of_lt (hs b (List.mem_of_mem_take hb)).2
  rw [hmap]
  unfold cString
  rw [List.takeWhile_append_of_pos]
  · have : List.takeWhile (fun b => b != 0) (List.replicate (cap - s.length) 0) = [] := by
      cases h : cap - s.length with
      | zero => simp
      | succ n => simp [List.replicate_succ]
    rw [this, List.append_nil]
  · intro b hb
    have := (hs b (List.mem_of_mem_take hb)).1
    simpa using this

theorem headerAt_encodeHeader (h : common.DemoHeader) (rest : List Nat) (henc : h.Encodable) :
    headerAt (encodeHeader h ++ rest) 0 = h.truncated := by
  obtain ⟨hfs, hp, hnp, hsn, hcn, hmn, hgd, hpt, hticks, hframes, hsl⟩ := henc
  have e0 : bytesAt (encodeHeader h ++ rest) 0 8 = (encodeCString 8 h.Filestamp).map (fun b => b % 256) :=
    bytesAt_field (A := ([] : List Nat)) (F := encodeCString 8 h.Filestamp) (R := (encodeInt32 h.Protocol ++ (encodeInt32 h.NetworkProtocol ++ (encodeCString 260 h.ServerName ++ (encodeCString 260 h.ClientName ++ (encodeCString 260 h.MapName ++ (encodeCString 260 h.GameDirectory ++ (encodeUint32 h.PlaybackTime ++ (encodeInt32 h.PlaybackTicks ++ (encodeInt32 h.PlaybackFrames ++ (encodeInt32 h.SignonLength ++ rest))))))))))) (by simp only [encodeHeader, List.append_assoc, List.nil_append]) (by simp [encodeCString_length, encodeUint32_length, encodeInt32_length]) (by simp [encodeCString_length, encodeUint32_length, encodeInt32_length])
  have e1 : peekBits (encodeHeader h ++ rest) 64 32 = leNat (encodeInt32 h.Protocol) :=
    peekBits_field (A := ([] : List Nat) ++ encodeCString 8 h.Filestamp) (F := encodeInt32 h.Protocol) (R := (encodeInt32 h.NetworkProtocol ++ (encodeCString 260 h.ServerName ++ (encodeCString 260 h.ClientName ++ (encodeCString 260 h.MapName ++ (encodeCString 260 h.GameDirectory ++ (encodeUint32 h.PlaybackTime ++ (encodeInt32 h.PlaybackTicks ++ (encodeInt32 h.PlaybackFrames ++ (encodeInt32 h.SignonLength ++ rest)))))))))) (by simp only [encodeHeader, List.append_assoc, List.nil_append]) (by simp [encodeCString_length, encodeUint32_length, encodeInt32_length]) (by simp [encodeCString_length, encodeUint32_length, encodeInt32_length])
  have e2 : peekBits (encodeHeader h ++ rest) 96 32 = leNat (encodeInt32 h.NetworkProtocol) :=
    peekBits_field (A := ([] : List Nat) ++ encodeCString 8 h.Filestamp ++ encodeInt32 h.Protocol) (F := encodeInt32 h.NetworkProtocol) (R := (encodeCString 260 h.ServerName ++ (encodeCString 260 h.ClientName ++ (encodeCString 260 h.MapName ++ (encodeCString 260 h.GameDirectory ++ (encodeUint32 h.PlaybackTime ++ (encodeInt32 h.PlaybackTicks ++ (encodeInt32 h.PlaybackFrames ++ (encodeInt32 h.SignonLength ++ rest))))))))) (by simp only [encodeHeader, List.append_assoc, List.nil_append]) (by simp [encodeCString_length, encodeUint32_length, encodeInt32_length]) (by simp [encodeCString_length, encodeUint32_length, encodeInt32_length])
  have e3 : bytesAt (encodeHeader h ++ rest) 128 260 = (encodeCString 260 h.ServerName).map (fun b => b % 256) :=
    bytesAt_field (A := ([] : List Nat) ++ encodeCString 8 h.Filestamp ++ encodeInt32 h.Protocol ++ encodeInt32 h.NetworkProtocol) (F := encodeCString 260 h.ServerName) (R := (encodeCString 260 h.ClientName ++ (encodeCString 260 h.MapName ++ (encodeCString 260 h.GameDirectory ++ (encodeUint32 h.PlaybackTime ++ (encodeInt32 h.PlaybackTicks ++ (encodeInt32 h.PlaybackFrames ++ (encodeInt32 h.SignonLength ++ rest)))))))) (by simp only [encodeHeader, List.append_assoc, List.nil_append]) (by simp [encodeCString_length, encodeUint32_length, encodeInt32_length]) (by simp [encodeCString_length, encodeUint32_length, encodeInt32_length])
  have e4 : bytesAt (encodeHeader h ++ rest) 2208 260 = (encodeCString 260 h.ClientName).map (fun b => b % 256) :=
    bytesAt_field (A := ([] : List Nat) ++ encodeCString 8 h.Filestamp ++ encodeInt32 h.Protocol ++ encodeInt32 h.NetworkProtocol ++ encodeCString 260 h.ServerName) (F := encodeCString 260 h.ClientName) (R := (encodeCString 260 h.MapName ++ (encodeCString 260 h.GameDirectory ++ (encodeUint32 h.PlaybackTime ++ (encodeInt32 h.PlaybackTicks ++ (encodeInt32 h.PlaybackFrames ++ (encodeInt32 h.SignonLength ++ rest))))))) (by simp only [encodeHeader, List.append_assoc, List.nil_append]) (by simp [encodeCString_length, encodeUint32_length, encodeInt32_length]) (by simp [encodeCString_length, encodeUint32_length, encodeInt32_length])
  have e5 : bytesAt (encodeHeader h ++ rest) 4288 260 = (encodeCString 260 h.MapName).map (fun b => b % 256) :=
    bytesAt_field (A := ([] : List Nat) ++ encodeCString 8 h.Filestamp ++ encodeInt32 h.Protocol ++ encodeInt32 h.NetworkProtocol ++ encodeCString 260 h.ServerName ++ encodeCString 260 h.ClientName) (F := encodeCString 260 h.MapName) (R := (encodeCString 260 h.GameDirectory ++ (encodeUint32 h.PlaybackTime ++ (encodeInt32 h.PlaybackTicks ++ (encodeInt32 h.PlaybackFrames ++ (encodeInt32 h.SignonLength ++ rest)))))) (by simp only [encodeHeader, List.append_assoc, List.nil_append]) (by simp [encodeCString_length, encodeUint32_length, encodeInt32_length]) (by simp [encodeCString_length, encodeUint32_length, encodeInt32_length])
  have e6 : bytesAt (encodeHeader h ++ rest) 6368 260 = (encodeCString 260 h.GameDirectory).map (fun b => b % 256) :=
    bytesAt_field (A := ([] : List Nat) ++ encodeCString 8 h.Filestamp ++ encodeInt32 h.Protocol ++ encodeInt32 h.NetworkProtocol ++ encodeCString 260 h.ServerName ++ encodeCString 260 h.ClientName ++ encodeCString 260 h.MapName) (F := encodeCString 260 h.GameDirectory) (R := (encodeUint32 h.PlaybackTime ++ (encodeInt32 h.PlaybackTicks ++ (encodeInt32 h.PlaybackFrames ++ (encodeInt32 h.SignonLength ++ rest))))) (by simp only [encodeHeader, List.append_assoc, List.nil_append]) (by simp [encodeCString_length, encodeUint32_length, encodeInt32_length]) (by simp [encodeCString_length, encodeUint32_length, encodeInt32_length])
  have e7 : peekBits (encodeHeader h ++ rest) 8448 32 = leNat (encodeUint32 h.PlaybackTime) :=
    peekBits_field (A := ([] : List Nat) ++ encodeCString 8 h.Filestamp ++ encodeInt32 h.Protocol ++ encodeInt32 h.NetworkProtocol ++ encodeCString 260 h.ServerName ++ encodeCString 260 h.ClientName ++ encodeCString 260 h.MapName ++ encodeCString 260 h.GameDirectory) (F := encodeUint32 h.PlaybackTime) (R := (encodeInt32 h.PlaybackTicks ++ (encodeInt32 h.PlaybackFrames ++ (encodeInt32 h.SignonLength ++ rest)))) (by simp only [encodeHeader, List.append_assoc, List.nil_append]) (by simp [encodeCString_length, encodeUint32_length, encodeInt32_length]) (by simp [encodeCString_length, encodeUint32_length, encodeInt32_length])
  have e8 : peekBits (encodeHeader h ++ rest) 8480 32 = leNat (encodeInt32 h.PlaybackTicks) :=
    peekBits_field (A := ([] : List Nat) ++ encodeCString 8 h.Filestamp ++ encodeInt32 h.Protocol ++ encodeInt32 h.NetworkProtocol ++ encodeCString 260 h.ServerName ++ encodeCString 260 h.ClientName ++ encodeCString 260 h.MapName ++ encodeCString 260 h.GameDirectory ++ encodeUint32 h.PlaybackTime) (F := encodeInt32 h.PlaybackTicks) (R := (encodeInt32 h.PlaybackFrames ++ (encodeInt32 h.SignonLength ++ rest))) (by simp only [encodeHeader, List.append_assoc, List.nil_append]) (by simp [encodeCString_length, encodeUint32_length, encodeInt32_length]) (by simp [encodeCString_length, encodeUint32_length, encodeInt32_length])
  have e9 : peekBits (encodeHeader h ++ rest) 8512 32 = leNat (encodeInt32 h.PlaybackFrames) :=
    peekBits_field (A := ([] : List Nat) ++ encodeCString 8 h.Filestamp ++ encodeInt32 h.Protocol ++ encodeInt32 h.NetworkProtocol ++ encodeCString 260 h.ServerName ++ encodeCString 260 h.ClientName ++ encodeCString 260 h.MapName ++ encodeCString 260 h.GameDirectory ++ encodeUint32 h.PlaybackTime ++ encodeInt32 h.PlaybackTicks) (F := encodeInt32 h.PlaybackFrames) (R := (encodeInt32 h.SignonLength ++ rest)) (by simp only [encodeHeader, List.append_assoc, List.nil_append]) (by simp [encodeCString_length, encodeUint32_length, encodeInt32_length]) (by simp [encodeCString_length, encodeUint32_length, encodeInt32_length])
  have e10 : peekBits (encodeHeader h ++ rest) 8544 32 = leNat (encodeInt32 h.SignonLength) :=
    peekBits_field (A := ([] : List Nat) ++ encodeCString 8 h.Filestamp ++ encodeInt32 h.Protocol ++ encodeInt32 h.NetworkProtocol ++ encodeCString 260 h.ServerName ++ encodeCString 260 h.ClientName ++ encodeCString 260 h.MapName ++ encodeCString 260 h.GameDirectory ++ encodeUint32 h.PlaybackTime ++ encodeInt32 h.PlaybackTicks ++ encodeInt32 h.PlaybackFrames) (F := encodeInt32 h.SignonLength) (R := rest) (by simp only [encodeHeader, List.append_assoc, List.nil_append]) (by simp [encodeCString_length, encodeUint32_length, encodeInt32_length]) (by simp [encodeCString_length, encodeUint32_length, encodeInt32_length])
  have hfsb : isCStringBody h.Filestamp := by rw [hfs]; decide
  simp only [headerAt, Nat.zero_add, e0, e1, e2, e3, e4, e5, e6, e7, e8, e9, e10,
    cString_encodeCString _ _ hfsb, cString_encodeCString _ _ hsn, cString_encodeCString _ _ hcn,
    cString_encodeCString _ _ hmn, cString_encodeCString _ _ hgd,
    toSigned_encodeInt32 _ hp, toSigned_encodeInt32 _ hnp, toSigned_encodeInt32 _ hticks,
    toSigned_encodeInt32 _ hframes, toSigned_encodeInt32 _ hsl, leNat_encodeUint32,
    Nat.mod_eq_of_lt hpt, common.DemoHeader.truncated, maxOsPath]
  have : List.take 8 h.Filestamp = h.Filestamp := by rw [hfs]; rfl
  rw [this]

theorem encodeHeader_length (h : common.DemoHeader) : (encodeHeader h).length = 1072 := by
  simp [encodeHeader, encodeCString_length, encodeUint32_length, encodeInt32_length]


/-! ## `ParseHeader` -/

/-- What `ParseHeader` does when the buffer holds the whole fixed layout. -/
theorem ParseHeader_eq (p : Parser σ)
    (h : p.bitReader.pos + 8576 ≤ 8 * p.bitReader.data.length) :
    ParseHeader p =
      if (headerAt p.bitReader.data p.bitReader.pos).Filestamp ≠ HL2DEMO then
        .ret (some invalidFileType) (p.advance 8576)
      else
        .ret none { p.advance 8576 with
          header := some (headerAt p.bitReader.data p.bitReader.pos)
          events := p.events ++
            [Event.HeaderParsedEvent (headerAt p.bitReader.data p.bitReader.pos)] } := by
  unfold ParseHeader
  simp only [Act.bind_eq, maxOsPath, BitReader.ReadFloat]
  rw [onReader_ReadCString (by omega)]; dsimp only
  rw [onReader_ReadSignedInt (by simp; omega)]; dsimp only
  rw [onReader_ReadSignedInt (by simp; omega)]; dsimp only
  rw [onReader_ReadCString (by simp; omega)]; dsimp only
  rw [onReader_ReadCString (by simp; omega)]; dsimp only
  rw [onReader_ReadCString (by simp; omega)]; dsimp only
  rw [onReader_ReadCString (by simp; omega)]; dsimp only
  rw [onReader_readBits (by simp; omega)]; dsimp only
  rw [onReader_ReadSignedInt (by simp; omega)]; dsimp only
  rw [onReader_ReadSignedInt (by simp; omega)]; dsimp only
  rw [onReader_ReadSignedInt (by simp; omega)]; dsimp only
  simp only [Parser.advance_advance, Parser.advance_pos, Parser.advance_data, headerAt]
  split
  · rfl
  · rfl

/-- When the buffer ends inside the fixed layout, `ParseHeader` panics in the
reader, with the header and the event log as they were. -/
theorem ParseHeader_eof (p : Parser σ)
    (h : ¬ p.bitReader.pos + 8576 ≤ 8 * p.bitReader.data.length) :
    ∃ k, ParseHeader p = .fault .unexpectedEOF (p.advance k) := by
  unfold ParseHeader
  simp only [Act.bind_eq, maxOsPath, BitReader.ReadFloat]
  by_cases h0 : p.bitReader.pos + 8 * 8 ≤ 8 * p.bitReader.data.length
  swap
  · rw [onReader_ReadCString_eof h0]; exact ⟨0, by simp [Parser.advance]⟩
  rw [onReader_ReadCString h0]; dsimp only
  try simp only [Parser.advance_advance]
  by_cases h1 : (p.advance (8 * 8)).bitReader.pos + 32 ≤ 8 * (p.advance (8 * 8)).bitReader.data.length
  swap
  · rw [onReader_ReadSignedInt_eof h1]; exact ⟨_, rfl⟩
  rw [onReader_ReadSignedInt h1]; dsimp only
  try simp only [Parser.advance_advance]
  by_cases h2 : (p.advance (8 * 8 + 32)).bitReader.pos + 32 ≤ 8 * (p.advance (8 * 8 + 32)).bitReader.data.length
  swap
  · rw [onReader_ReadSignedInt_eof h2]; exact ⟨_, rfl⟩
  rw [onReader_ReadSignedInt h2]; dsimp only
  try simp only [Parser.advance_advance]
  by_cases h3 : (p.advance (8 * 8 + 32 + 32)).bitReader.pos + 8 * 260 ≤ 8 * (p.advance (8 * 8 + 32 + 32)).bitReader.data.length
  swap
  · rw [onReader_ReadCString_eof h3]; exact ⟨_, rfl⟩
  rw [onReader_ReadCString h3]; dsimp only
  try simp only [Parser.advance_advance]
  by_cases h4 : (p.advance (8 * 8 + 32 + 32 + 8 * 260)).bitReader.pos + 8 * 260 ≤ 8 * (p.advance (8 * 8 + 32 + 32 + 8 * 260)).bitReader.data.length
  swap
  · rw [onReader_ReadCString_eof h4]; exact ⟨_, rfl⟩
  rw [onReader_ReadCString h4]; dsimp only
  try simp only [Parser.advance_advance]
  by_cases h5 : (p.advance (8 * 8 + 32 + 32 + 8 * 260 + 8 * 260)).bitReader.pos + 8 * 260 ≤ 8 * (p.advance (8 * 8 + 32 + 32 + 8 * 260 + 8 * 260)).bitReader.data.length
  swap
  · rw [onReader_ReadCString_eof h5]; exact ⟨_, rfl⟩
  rw [onReader_ReadCString h5]; dsimp only
  try simp only [Parser.advance_advance]
  by_cases h6 : (p.advance (8 * 8 + 32 + 32 + 8 * 260 + 8 * 260 + 8 * 260)).bitReader.pos + 8 * 260 ≤ 8 * (p.advance (8 * 8 + 32 + 32 + 8 * 260 + 8 * 260 + 8 * 260)).bitReader.data.length
  swap
  · rw [onReader_ReadCString_eof h6]; exact ⟨_, rfl⟩
  rw [onReader_ReadCString h6]; dsimp only
  try simp only [Parser.advance_advance]
  by_cases h7 : (p.advance (8 * 8 + 32 + 32 + 8 * 260 + 8 * 260 + 8 * 260 + 8 * 260)).bitReader.pos + 32 ≤ 8 * (p.advance (8 * 8 + 32 + 32 + 8 * 260 + 8 * 260 + 8 * 260 + 8 * 260)).bitReader.data.length
  swap
  · rw [onReader_readBits_eof h7]; exact ⟨_, rfl⟩
  rw [onReader_readBits h7]; dsimp only
  try simp only [Parser.advance_advance]
  by_cases h8 : (p.advance (8 * 8 + 32 + 32 + 8 * 260 + 8 * 260 + 8 * 260 + 8 * 260 + 32)).bitReader.pos + 32 ≤ 8 * (p.advance (8 * 8 + 32 + 32 + 8 * 260 + 8 * 260 + 8 * 260 + 8 * 260 + 32)).bitReader.data.length
  swap
  · rw [onReader_ReadSignedInt_eof h8]; exact ⟨_, rfl⟩
  rw [onReader_ReadSignedInt h8]; dsimp only
  try simp only [Parser.advance_advance]
  by_cases h9 : (p.advance (8 * 8 + 32 + 32 + 8 * 260 + 8 * 260 + 8 * 260 + 8 * 260 + 32 + 32)).bitReader.pos + 32 ≤ 8 * (p.advance (8 * 8 + 32 + 32 + 8 * 260 + 8 * 260 + 8 * 260 + 8 * 260 + 32 + 32)).bitReader.data.length
  swap
  · rw [onReader_ReadSignedInt_eof h9]; exact ⟨_, rfl⟩
  rw [onReader_ReadSignedInt h9]; dsimp only
  try simp only [Parser.advance_advance]
  by_cases h10 : (p.advance (8 * 8 + 32 + 32 + 8 * 260 + 8 * 260 + 8 * 260 + 8 * 260 + 32 + 32 + 32)).bitReader.pos + 32 ≤ 8 * (p.advance (8 * 8 + 32 + 32 + 8 * 260 + 8 * 260 + 8 * 260 + 8 * 260 + 32 + 32 + 32)).bitReader.data.length
  swap
  · rw [onReader_ReadSignedInt_eof h10]; exact ⟨_, rfl⟩
  rw [onReader_ReadSignedInt h10]; dsimp only
  try simp only [Parser.advance_advance]
  exfalso
  simp only [Parser.advance_pos, Parser.advance_data] at *
  omega

/-- C1: when the 8-byte filestamp field at the cursor, read as a NUL-terminated
string, is not "HL2DEMO", `ParseHeader` leaves the header as it was (nil on a
parser that has none) and dispatches no event, whatever the buffer; and when
the buffer holds the whole fixed layout it returns the invalid-file-type error,
having changed nothing but the cursor. -/
theorem ParseHeader_rejects_bad_filestamp (p : Parser σ) (hsig : filestampAt p ≠ HL2DEMO) :
    (ParseHeader p).state.header = p.header ∧
    (ParseHeader p).state.events = p.events ∧
    (p.avail headerBits →
      ParseHeader p = .ret (some invalidFileType) (p.advance headerBits)) := by
  by_cases h : p.bitReader.pos + 8576 ≤ 8 * p.bitReader.data.length
  · have hfs : (headerAt p.bitReader.data p.bitReader.pos).Filestamp ≠ HL2DEMO := hsig
    rw [ParseHeader_eq p h, if_pos hfs]
    exact ⟨rfl, rfl, fun _ => rfl⟩
  · obtain ⟨k, hk⟩ := ParseHeader_eof p h
    rw [hk]
    exact ⟨rfl, rfl, fun ha => absurd ha h⟩

set_option maxRecDepth 100000 in
/-- C1, at a concrete input: a buffer of 1072 bytes that starts with "HL2DEMX". -/
theorem ParseHeader_rejects_bad_filestamp_witness :
    filestampAt (newParser ([72, 76, 50, 68, 69, 77, 88] ++ List.replicate 1065 0)) ≠ HL2DEMO ∧
    (ParseHeader (newParser ([72, 76, 50, 68, 69, 77, 88] ++ List.replicate 1065 0))).state.header
      = none ∧
    (ParseHeader (newParser ([72, 76, 50, 68, 69, 77, 88] ++ List.replicate 1065 0))).state.events
      = [] ∧
    ParseHeader (newParser ([72, 76, 50, 68, 69, 77, 88] ++ List.replicate 1065 0))
      = .ret (some invalidFileType)
          ((newParser ([72, 76, 50, 68, 69, 77, 88] ++ List.replicate 1065 0)).advance 8576) :=
  have h := ParseHeader_rejects_bad_filestamp
    (newParser ([72, 76, 50, 68, 69, 77, 88] ++ List.replicate 1065 0)) (by decide)
  ⟨by decide, h.1, h.2.1, h.2.2 (by decide)⟩

/-- C2: round trip.  For a header `h` that the fixed layout can hold (filestamp
"HL2DEMO", 32-bit integers, C-string contents), `ParseHeader` run at the start
of a buffer that begins with the encoding of `h` returns nil and stores, and
dispatches, `h` with each string cut to the 260 bytes that fit its field; so
it stores `h` itself when no string is longer than 260 bytes. -/
theorem ParseHeader_roundtrip (h : common.DemoHeader) (rest : List Nat) (p : Parser σ)
    (henc : h.Encodable) (hdata : p.bitReader.data = encodeHeader h ++ rest)
    (hpos : p.bitReader.pos = 0) :
    ParseHeader p = .ret none { p.advance headerBits with
      header := some h.truncated
      events := p.events ++ [Event.HeaderParsedEvent h.truncated] } ∧
    (h.ServerName.length ≤ maxOsPath → h.ClientName.length ≤ maxOsPath →
      h.MapName.length ≤ maxOsPath → h.GameDirectory.length ≤ maxOsPath →
      (ParseHeader p).state.header = some h) := by
  have hav : p.bitReader.pos + 8576 ≤ 8 * p.bitReader.data.length := by
    rw [hpos, hdata, List.length_append, encodeHeader_length]; omega
  have hfs : (headerAt p.bitReader.data p.bitReader.pos).Filestamp = HL2DEMO := by
    rw [hdata, hpos, headerAt_encodeHeader h rest henc]
    exact henc.1
  have hrun : ParseHeader p = .ret none { p.advance headerBits with
      header := some h.truncated
      events := p.events ++ [Event.HeaderParsedEvent h.truncated] } := by
    rw [ParseHeader_eq p hav, if_neg (not_not.mpr hfs), hdata, hpos,
      headerAt_encodeHeader h rest henc]
    rfl
  refine ⟨hrun, fun h1 h2 h3 h4 => ?_⟩
  rw [hrun]
  simp only [Res.state, common.DemoHeader.truncated, List.take_of_length_le h1,
    List.take_of_length_le h2, List.take_of_length_le h3, List.take_of_length_le h4]

set_option maxRecDepth 100000 in
/-- C2, at a concrete input: a header whose server name has 300 bytes comes
back with the first 260 of them, every other field as it was. -/
theorem ParseHeader_roundtrip_witness :
    exampleHeader.Encodable ∧
    (ParseHeader (newParser (encodeHeader exampleHeader))).state.header
      = some { exampleHeader with ServerName := List.replicate 260 65 } :=
  ⟨by decide,
   (congrArg (fun r => r.state.header)
      (ParseHeader_roundtrip exampleHeader [] (newParser (encodeHeader exampleHeader))
        (by decide) (by simp [newParser]) rfl).1).trans (by decide)⟩

/-! ## `parseFrame` -/

theorem parseFrame_eq (x : Deps σ) (p : Parser σ) (h : p.avail frameHeadBits) :
    parseFrame x p = frameSwitch x (tagAt p) p.frameHead := by
  unfold Parser.avail frameHeadBits at h
  unfold parseFrame
  simp only [Act.bind_eq, BitReader.ReadSingleByte]
  rw [onReader_readBits (by omega)]; dsimp only
  rw [onReader_ReadSignedInt (by simp; omega)]; dsimp only
  simp only [Act.modify]
  rw [onReader_readBits (by simp; omega)]; dsimp only
  rfl

theorem parseFrame_eof (x : Deps σ) (p : Parser σ) (h : ¬ p.avail frameHeadBits) :
    ∃ q, parseFrame x p = .fault .unexpectedEOF q := by
  unfold Parser.avail frameHeadBits at h
  unfold parseFrame
  simp only [Act.bind_eq, BitReader.ReadSingleByte]
  by_cases h0 : p.bitReader.pos + 8 ≤ 8 * p.bitReader.data.length
  swap
  · rw [onReader_readBits_eof h0]; exact ⟨_, rfl⟩
  rw [onReader_readBits h0]; dsimp only
  by_cases h1 : (p.advance 8).bitReader.pos + 32 ≤ 8 * (p.advance 8).bitReader.data.length
  swap
  · rw [onReader_ReadSignedInt_eof h1]; exact ⟨_, rfl⟩
  rw [onReader_ReadSignedInt h1]; dsimp only
  simp only [Act.modify]
  rw [onReader_readBits_eof (by simp at h1 ⊢; omega)]
  exact ⟨_, rfl⟩

section SecActWithin
variable {S α β : Type} {I : S → S → Prop} {P : PanicValue → Prop}

theorem within_bind {m : Act S α} {f : α → Act S β} (htrans : ∀ a b c, I a b → I b c → I a c)
    (hm : Act.Within I P m) (hf : ∀ a, Act.Within I P (f a)) :
    Act.Within I P (m >>= f) := by
  intro s
  have h1 := hm s
  rw [Act.bind_eq]
  cases hms : m s with
  | ret a s1 =>
    rw [hms] at h1
    have h2 := hf a s1
    exact ⟨htrans _ _ _ h1.1 h2.1, h2.2⟩
  | fault e s1 =>
    rw [hms] at h1
    exact h1

theorem within_pure (hrefl : ∀ a, I a a) (a : α) : Act.Within I P (Pure.pure a : Act S α) := by
  intro s
  exact ⟨hrefl s, fun e he => by cases he⟩

theorem within_ite {c : Prop} [Decidable c] {m1 m2 : Act S α}
    (h1 : Act.Within I P m1) (h2 : Act.Within I P m2) :
    Act.Within I P (if c then m1 else m2) := by
  split
  · exact h1
  · exact h2

theorem within_modify {f : S → S} (hf : ∀ s, I s (f s)) : Act.Within I P (Act.modify f) := by
  intro s
  exact ⟨hf s, fun e he => by cases he⟩

theorem within_panic {e : PanicValue} (hrefl : ∀ a, I a a) (he : P e) :
    Act.Within I P (Act.panic e : Act S α) := by
  intro s
  refine ⟨hrefl s, fun e1 he1 => ?_⟩
  simp only [Act.panic, Res.panicValue, Option.some.injEq] at he1
  exact he1 ▸ he

end SecActWithin

theorem readerOp_readBits (k : Nat) : ReaderOp (BitReader.readBits k) := by
  intro r e h
  unfold BitReader.readBits at h
  split at h
  · cases h
  · simp only [Res.panicValue, Option.some.injEq] at h
    exact Or.inl h.symm

theorem readerOp_ReadSingleByte : ReaderOp BitReader.ReadSingleByte := readerOp_readBits 8

theorem readerOp_ReadInt (k : Nat) : ReaderOp (BitReader.ReadInt k) := readerOp_readBits k

theorem readerOp_ReadSignedInt (k : Nat) : ReaderOp (BitReader.ReadSignedInt k) := by
  intro r e h
  unfold BitReader.ReadSignedInt at h
  cases hr : BitReader.readBits k r with
  | ret a s => rw [hr] at h; cases h
  | fault e1 s =>
    rw [hr] at h
    exact readerOp_readBits k r e (by rw [hr]; exact h)

theorem readerOp_BeginChunk (n : Int) : ReaderOp (BitReader.BeginChunk n) := by
  intro r e h
  cases h

theorem readerOp_EndChunk : ReaderOp BitReader.EndChunk := by
  intro r e h
  unfold BitReader.EndChunk at h
  split at h
  · simp only [Res.panicValue, Option.some.injEq] at h
    exact Or.inr (Or.inr h.symm)
  · split at h
    · simp only [Res.panicValue, Option.some.injEq] at h
      exact Or.inr (Or.inl h.symm)
    · split at h
      · simp only [Res.panicValue, Option.some.injEq] at h
        exact Or.inl h.symm
      · cases h

section SecActWithin
variable {α : Type} {I : Parser σ → Parser σ → Prop} {P : PanicValue → Prop}

theorem within_onReader {m : Act BitReader α} (hI : ∀ (p : Parser σ) r, I p { p with bitReader := r })
    (hP : ∀ e, readerPanic e → P e) (hm : ReaderOp m) :
    Act.Within I P (demoinfocs.onReader m : Act (Parser σ) α) := by
  intro p
  unfold demoinfocs.onReader
  cases hr : m p.bitReader with
  | ret a r => exact ⟨hI p r, fun e he => by cases he⟩
  | fault e r =>
    refine ⟨hI p r, fun e1 he1 => ?_⟩
    simp only [Res.panicValue, Option.some.injEq] at he1
    exact hP _ (hm p.bitReader e1 (by rw [hr]; simp [Res.panicValue, he1]))

theorem within_decoder (f : Decoder σ) (hI : ∀ p : Parser σ, I p (p.setShared (f p).shared))
    (hP : ∀ c, P (.collaborator c)) : Act.Within I P f.run := by
  intro p
  unfold Decoder.run
  cases hr : (f p).panicked with
  | none => exact ⟨hI p, fun e he => by cases he⟩
  | some c =>
    refine ⟨hI p, fun e1 he1 => ?_⟩
    simp only [Res.panicValue, Option.some.injEq] at he1
    exact he1 ▸ hP c

end SecActWithin

/-- The relation `I` is kept by everything `parseFrame` does after the head of
the frame, and the panics there are the reader's, the decoders' and, for a tag
outside the defined set only, the one for an unknown command. -/
theorem frameSwitch_within (x : Deps σ) (cmd : Nat)
    {I : Parser σ → Parser σ → Prop} {P : PanicValue → Prop}
    (hrefl : ∀ a, I a a) (htrans : ∀ a b c, I a b → I b c → I a c)
    (hreader : ∀ (p : Parser σ) r, I p { p with bitReader := r })
    (hshared : ∀ f ∈ x.decoders, ∀ p : Parser σ, I p (p.setShared (f p).shared))
    (hstderr : ∀ (p : Parser σ) l, I p { p with stderr := l })
    (hP1 : ∀ e, readerPanic e → P e) (hP2 : ∀ c, P (.collaborator c))
    (hP3 : cmd ∉ x.tags → P (.unknownCommand cmd)) :
    Act.Within I P (frameSwitch x cmd) := by
  have hrd : ∀ {α : Type} (m : Act BitReader α), ReaderOp m →
      Act.Within I P (onReader m : Act (Parser σ) α) :=
    fun m hm => within_onReader hreader hP1 hm
  have hdec : ∀ f ∈ x.decoders, Act.Within I P f.run :=
    fun f hf => within_decoder f (hshared f hf) hP2
  have hpure : ∀ b : Bool, Act.Within I P (Pure.pure b : Act (Parser σ) Bool) :=
    fun b => within_pure hrefl b
  unfold frameSwitch
  split
  · exact hpure _
  rename_i h1
  split
  · exact hpure _
  rename_i h2
  split
  · exact within_bind htrans (hrd _ (readerOp_ReadSignedInt _)) fun _ =>
      within_bind htrans (hrd _ (readerOp_BeginChunk _)) fun _ =>
      within_bind htrans (hrd _ readerOp_EndChunk) fun _ => hpure _
  rename_i h3
  split
  · exact within_bind htrans (hrd _ (readerOp_ReadSignedInt _)) fun _ =>
      within_bind htrans (hrd _ (readerOp_BeginChunk _)) fun _ =>
      within_bind htrans (hdec _ (by simp [Deps.decoders])) fun _ =>
      within_bind htrans (hrd _ readerOp_EndChunk) fun _ =>
      within_bind htrans (hdec _ (by simp [Deps.decoders])) fun _ =>
      within_bind htrans (hdec _ (by simp [Deps.decoders])) fun _ => hpure _
  rename_i h4
  split
  · exact within_bind htrans (hdec _ (by simp [Deps.decoders])) fun _ => hpure _
  rename_i h5
  split
  · exact within_bind htrans (hrd _ (readerOp_ReadInt _)) fun _ =>
      within_bind htrans (hrd _ (readerOp_ReadSignedInt _)) fun _ =>
      within_bind htrans (hrd _ (readerOp_BeginChunk _)) fun _ =>
      within_bind htrans (hrd _ readerOp_EndChunk) fun _ => hpure _
  rename_i h6
  split
  · exact within_bind htrans (hdec _ (by simp [Deps.decoders])) fun _ => hpure _
  rename_i h7
  split
  · exact within_bind htrans (within_modify (fun p => hstderr p _)) fun _ => hpure _
  rename_i h8
  refine within_panic hrefl (hP3 ?_)
  simp only [Deps.tags, List.mem_cons, List.mem_singleton, List.not_mem_nil, or_false, not_or]
  exact ⟨h1, h2, h3, h4, h5, h6, not_or.mp h7 |>.1, not_or.mp h7 |>.2, h8⟩

theorem parseFrame_unfold (x : Deps σ) :
    parseFrame x = (do
      let cmd ← onReader BitReader.ReadSingleByte
      let tick ← onReader (BitReader.ReadSignedInt 32)
      Act.modify (fun p => { p with ingameTick := tick })
      let _ ← onReader BitReader.ReadSingleByte
      Act.modify (fun p => { p with currentFrame := p.currentFrame + 1 })
      frameSwitch x cmd) := rfl

/-- The relation `I` is kept by everything `parseFrame` does. -/
theorem parseFrame_within (x : Deps σ)
    {I : Parser σ → Parser σ → Prop} {P : PanicValue → Prop}
    (hrefl : ∀ a, I a a) (htrans : ∀ a b c, I a b → I b c → I a c)
    (hreader : ∀ (p : Parser σ) r, I p { p with bitReader := r })
    (hshared : ∀ f ∈ x.decoders, ∀ p : Parser σ, I p (p.setShared (f p).shared))
    (hstderr : ∀ (p : Parser σ) l, I p { p with stderr := l })
    (htick : ∀ (p : Parser σ) t, I p { p with ingameTick := t })
    (hframe : ∀ (p : Parser σ) n, I p { p with currentFrame := n })
    (hP1 : ∀ e, readerPanic e → P e) (hP2 : ∀ c, P (.collaborator c))
    (hP3 : ∀ c, P (.unknownCommand c)) :
    Act.Within I P (parseFrame x) := by
  rw [parseFrame_unfold]
  repeat' first
    | apply within_bind htrans
    | exact frameSwitch_within x _ hrefl htrans hreader hshared hstderr hP1 hP2 (fun _ => hP3 _)
    | exact within_onReader hreader hP1 (readerOp_ReadSignedInt _)
    | exact within_onReader hreader hP1 readerOp_ReadSingleByte
    | exact within_modify (fun p => htick p _)
    | exact within_modify (fun p => hframe p _)
    | intro _


section SecActReturns
variable {S α β : Type} {Q : β → Prop}

theorem returns_bind {m : Act S α} {f : α → Act S β} (hf : ∀ a, Act.Returns Q (f a)) :
    Act.Returns Q (m >>= f) := by
  intro s b s2 h
  rw [Act.bind_eq] at h
  cases hms : m s with
  | ret a s1 => rw [hms] at h; exact hf a s1 b s2 h
  | fault e s1 => rw [hms] at h; cases h

theorem returns_pure {b : β} (hb : Q b) : Act.Returns Q (Pure.pure b : Act S β) := by
  intro s a s1 h
  cases h
  exact hb

theorem returns_ite {c : Prop} [Decidable c] {m1 m2 : Act S β}
    (h1 : Act.Returns Q m1) (h2 : Act.Returns Q m2) :
    Act.Returns Q (if c then m1 else m2) := by
  split
  · exact h1
  · exact h2

theorem returns_panic {e : PanicValue} : Act.Returns Q (Act.panic e : Act S β) := by
  intro s a s1 h
  cases h

end SecActReturns

/-- The nine command tags are pairwise different. -/
theorem Deps.pairwise_ne (x : Deps σ) :
    (x.dcSynctick ≠ x.dcStop ∧ x.dcSynctick ≠ x.dcConsoleCommand ∧
      x.dcSynctick ≠ x.dcDataTables ∧ x.dcSynctick ≠ x.dcStringTables ∧
      x.dcSynctick ≠ x.dcUserCommand ∧ x.dcSynctick ≠ x.dcSignon ∧
      x.dcSynctick ≠ x.dcPacket ∧ x.dcSynctick ≠ x.dcCustomData) ∧
    (x.dcStop ≠ x.dcConsoleCommand ∧ x.dcStop ≠ x.dcDataTables ∧
      x.dcStop ≠ x.dcStringTables ∧ x.dcStop ≠ x.dcUserCommand ∧ x.dcStop ≠ x.dcSignon ∧
      x.dcStop ≠ x.dcPacket ∧ x.dcStop ≠ x.dcCustomData) ∧
    (x.dcConsoleCommand ≠ x.dcDataTables ∧ x.dcConsoleCommand ≠ x.dcStringTables ∧
      x.dcConsoleCommand ≠ x.dcUserCommand ∧ x.dcConsoleCommand ≠ x.dcSignon ∧
      x.dcConsoleCommand ≠ x.dcPacket ∧ x.dcConsoleCommand ≠ x.dcCustomData) ∧
    (x.dcDataTables ≠ x.dcStringTables ∧ x.dcDataTables ≠ x.dcUserCommand ∧
      x.dcDataTables ≠ x.dcSignon ∧ x.dcDataTables ≠ x.dcPacket ∧
      x.dcDataTables ≠ x.dcCustomData) ∧
    (x.dcStringTables ≠ x.dcUserCommand ∧ x.dcStringTables ≠ x.dcSignon ∧
      x.dcStringTables ≠ x.dcPacket ∧ x.dcStringTables ≠ x.dcCustomData) ∧
    (x.dcUserCommand ≠ x.dcSignon ∧ x.dcUserCommand ≠ x.dcPacket ∧
      x.dcUserCommand ≠ x.dcCustomData) ∧
    (x.dcSignon ≠ x.dcPacket ∧ x.dcSignon ≠ x.dcCustomData) ∧
    x.dcPacket ≠ x.dcCustomData := by
  have h := x.distinct
  simp only [List.nodup_cons, List.mem_cons, List.mem_singleton, not_or, List.not_mem_nil,
    not_false_eq_true, List.nodup_nil, and_true] at h
  exact h

theorem frameSwitch_synctick (x : Deps σ) (p : Parser σ) :
    frameSwitch x x.dcSynctick p = .ret true p := by
  simp only [frameSwitch, ↓reduceIte, Act.pure_eq]

theorem frameSwitch_stop (x : Deps σ) (p : Parser σ) :
    frameSwitch x x.dcStop p = .ret false p := by
  obtain ⟨⟨n01, n02, n03, n04, n05, n06, n07, n08⟩, ⟨n12, n13, n14, n15, n16, n17, n18⟩, ⟨n23, n24, n25, n26, n27, n28⟩, ⟨n34, n35, n36, n37, n38⟩, ⟨n45, n46, n47, n48⟩, ⟨n56, n57, n58⟩, ⟨n67, n68⟩, n78⟩ := x.pairwise_ne
  simp only [frameSwitch, ↓reduceIte, Act.pure_eq, (Ne.symm n01)]

theorem frameSwitch_customData (x : Deps σ) (p : Parser σ) :
    frameSwitch x x.dcCustomData p = .ret true
      { p with stderr := p.stderr ++ ["WARNING: Found CustomData but not handled\n"] } := by
  obtain ⟨⟨n01, n02, n03, n04, n05, n06, n07, n08⟩, ⟨n12, n13, n14, n15, n16, n17, n18⟩, ⟨n23, n24, n25, n26, n27, n28⟩, ⟨n34, n35, n36, n37, n38⟩, ⟨n45, n46, n47, n48⟩, ⟨n56, n57, n58⟩, ⟨n67, n68⟩, n78⟩ := x.pairwise_ne
  simp only [frameSwitch, ↓reduceIte, Act.pure_eq, Act.bind_eq, Act.modify, or_self,
    (Ne.symm n08), (Ne.symm n18), (Ne.symm n28), (Ne.symm n38), (Ne.symm n48), (Ne.symm n58), (Ne.symm n68), (Ne.symm n78)]

theorem frameSwitch_unknown (x : Deps σ) (cmd : Nat) (p : Parser σ) (h : cmd ∉ x.tags) :
    frameSwitch x cmd p = .fault (.unknownCommand cmd) p := by
  simp only [Deps.tags, List.mem_cons, not_or, List.mem_singleton, List.not_mem_nil,
    not_false_eq_true, and_true] at h
  obtain ⟨h1, h2, h3, h4, h5, h6, h7, h8, h9⟩ := h
  simp only [frameSwitch, ↓reduceIte, h1, h2, h3, h4, h5, h6, h7, h8, h9, Act.panic, or_self]

theorem frameSwitch_returns (x : Deps σ) (cmd : Nat) (p s : Parser σ) (b : Bool)
    (h : frameSwitch x cmd p = .ret b s) : b = false ↔ cmd = x.dcStop := by
  by_cases hc : cmd = x.dcStop
  · subst hc
    rw [frameSwitch_stop] at h
    cases h
    simp
  · have hp : Act.Returns (fun b => b = true) (Pure.pure true : Act (Parser σ) Bool) :=
      returns_pure rfl
    have hr : Act.Returns (fun b => b = true) (frameSwitch x cmd) := by
      unfold frameSwitch
      rw [if_neg hc]
      split
      · exact hp
      split
      · exact returns_bind fun _ => returns_bind fun _ => returns_bind fun _ => hp
      split
      · exact returns_bind fun _ => returns_bind fun _ => returns_bind fun _ =>
          returns_bind fun _ => returns_bind fun _ => returns_bind fun _ => hp
      split
      · exact returns_bind fun _ => hp
      split
      · exact returns_bind fun _ => returns_bind fun _ => returns_bind fun _ =>
          returns_bind fun _ => hp
      split
      · exact returns_bind fun _ => hp
      split
      · exact returns_bind fun _ => hp
      · exact returns_panic
    have hb := hr p b s h
    simp only at hb
    simp [hb, hc]

/-- With no raw player in any slot, the loop changes nothing. -/
theorem reconcile_all_nil (l : List (Option playerInfo)) (k : Nat) (p : Parser σ)
    (h : ∀ rp ∈ l, rp = none) : reconcile l k p = .ret () p := by
  induction l generalizing k with
  | nil => rfl
  | cons a rest ih =>
    have ha : a = none := h a (List.mem_cons_self _ _)
    subst ha
    unfold reconcile
    exact ih (k + 1) (fun rp hrp => h rp (List.mem_cons_of_mem _ hrp))

theorem ParseNextFrame_no_header (x : Deps σ) (p : Parser σ) (h : p.header = none) :
    ParseNextFrame x p = .fault .headerNotParsed p := by
  simp [ParseNextFrame, Act.bind_eq, Act.get, h, Act.panic]

/-- `ParseNextFrame` on a parser whose header is set. -/
theorem ParseNextFrame_eq (x : Deps σ) (p : Parser σ) (h : p.header ≠ none) :
    ParseNextFrame x p =
      match parseFrame x p with
      | .fault e q => .fault e q
      | .ret b q =>
        match reconcile q.rawPlayers 0 q with
        | .fault e s => .fault e s
        | .ret _ s =>
          if b then .ret true { s with events := s.events ++ [Event.TickDoneEvent] }
          else if s.msgQueueClosed then
            .fault .closeOfClosedChannel { s with events := s.events ++ [Event.TickDoneEvent] }
          else .ret false { s with events := s.events ++ [Event.TickDoneEvent],
                                   msgQueueClosed := true } := by
  obtain ⟨hd, hhd⟩ := Option.ne_none_iff_exists'.mp h
  simp only [ParseNextFrame, Act.bind_eq, Act.get, hhd, Option.isNone_some, Bool.false_eq_true,
    ↓reduceIte, Act.pure_eq]
  cases hpf : parseFrame x p with
  | fault e q => rfl
  | ret b q =>
    dsimp only
    cases hrc : reconcile q.rawPlayers 0 q with
    | fault e s => rfl
    | ret u s =>
      cases b
      · by_cases hq : s.msgQueueClosed = true <;>
          simp only [Dispatch, Act.modify, closeMsgQueue, Bool.not_false, ↓reduceIte,
            Bool.false_eq_true, Act.bind_eq, hq, Act.pure_eq]
      · simp only [Dispatch, Act.modify, Bool.not_true, Bool.false_eq_true, ↓reduceIte,
          Act.bind_eq, Act.pure_eq]

/-! ## The reconciliation loop -/

theorem reconcileSlot_unbound (k : Nat) (rp : playerInfo) (p : Parser σ)
    (h : p.players k = none) : reconcileSlot k rp p = .ret () p := by
  simp only [reconcileSlot, Act.bind_eq, Act.get, h, Act.pure_eq]

theorem reconcileSlot_bound (k : Nat) (rp : playerInfo) (p : Parser σ) (pl : Nat)
    (h : p.players k = some pl) :
    reconcileSlot k rp p =
      if (p.heap pl).EntityID < 0 ∨ (p.additionalPlayerInfo : Int) ≤ (p.heap pl).EntityID then
        .fault .indexOutOfRange { p with
          connectedPlayers := registered p.connectedPlayers rp.UserID pl
          heap := Function.update p.heap pl (copied rp (p.heap pl)) }
      else
        .ret () { p with
          connectedPlayers := registered p.connectedPlayers rp.UserID pl
          heap := Function.update p.heap pl (reconciled rp (p.heap pl))
          events :=
            if (p.connectedPlayers rp.UserID).isNone ∧ rp.XUID ≠ 0 then
              p.events ++ [Event.PlayerBindEvent pl (reconciled rp (p.heap pl))]
            else p.events } := by
  cases hnew : p.connectedPlayers rp.UserID <;>
  by_cases hidx : (p.heap pl).EntityID < 0 ∨ (p.additionalPlayerInfo : Int) ≤ (p.heap pl).EntityID <;>
  by_cases halive : 0 < (p.heap pl).Hp <;>
  by_cases hx : rp.XUID = 0 <;>
  simp only [reconcileSlot, Act.bind_eq, Act.get, h, hnew, Option.isNone_none, Option.isNone_some,
    ↓reduceIte, Act.modify, updPlayer, Act.pure_eq, Act.panic, Dispatch, Function.update_same,
    Function.update_idem, hidx, halive, hx, registered, copied, reconciled,
    common.Player.IsAlive, decide_eq_true_eq, Bool.false_eq_true, true_and, false_and,
    ne_eq, not_true_eq_false, not_false_eq_true, decide_True, decide_False]

/-! ## `ParseNextFrame` -/


theorem parseFrame_returns (x : Deps σ) (p s : Parser σ) (b : Bool)
    (h : parseFrame x p = .ret b s) : b = false ↔ tagAt p = x.dcStop := by
  by_cases hav : p.avail frameHeadBits
  · rw [parseFrame_eq x p hav] at h
    exact frameSwitch_returns x _ _ _ _ h
  · obtain ⟨q, hq⟩ := parseFrame_eof x p hav
    rw [hq] at h
    cases h

theorem ParseNextFrame_returns (x : Deps σ) (p s : Parser σ) (b : Bool)
    (h : ParseNextFrame x p = .ret b s) : ∃ q, parseFrame x p = .ret b q := by
  by_cases hh : p.header = none
  · rw [ParseNextFrame_no_header x p hh] at h
    cases h
  · rw [ParseNextFrame_eq x p hh] at h
    cases hpf : parseFrame x p with
    | fault e q => rw [hpf] at h; cases h
    | ret b1 q =>
      rw [hpf] at h
      dsimp only at h
      cases hrc : reconcile q.rawPlayers 0 q with
      | fault e s1 => rw [hrc] at h; cases h
      | ret u s1 =>
        rw [hrc] at h
        dsimp only at h
        cases b1
        · simp only [Bool.false_eq_true, ↓reduceIte] at h
          split at h
          · cases h
          · cases h
            exact ⟨q, rfl⟩
        · simp only [↓reduceIte] at h
          cases h
          exact ⟨q, rfl⟩

/-- `ParseNextFrame` when no slot holds a raw player after the frame. -/
theorem ParseNextFrame_no_slots (x : Deps σ) (p q : Parser σ) (b : Bool)
    (hh : p.header ≠ none) (hpf : parseFrame x p = .ret b q)
    (hraw : ∀ rp ∈ q.rawPlayers, rp = none) (hopen : q.msgQueueClosed = false) :
    ParseNextFrame x p = .ret b { q with
      events := q.events ++ [Event.TickDoneEvent]
      msgQueueClosed := !b } := by
  rw [ParseNextFrame_eq x p hh, hpf]
  dsimp only
  rw [reconcile_all_nil _ _ _ hraw]
  dsimp only
  cases b
  · simp only [Bool.false_eq_true, ↓reduceIte, hopen, Bool.not_false]
  · simp only [↓reduceIte, Bool.not_true, hopen]

theorem reconcileSlot_panics (k : Nat) (rp : playerInfo) (p s : Parser σ) (e : PanicValue)
    (h : reconcileSlot k rp p = .fault e s) : e = .indexOutOfRange := by
  cases hb : p.players k with
  | none => rw [reconcileSlot_unbound k rp p hb] at h; cases h
  | some pl =>
    rw [reconcileSlot_bound k rp p pl hb] at h
    split at h
    · cases h; rfl
    · cases h

theorem reconcile_panics (l : List (Option playerInfo)) (k : Nat) (p s : Parser σ)
    (e : PanicValue) (h : reconcile l k p = .fault e s) : e = .indexOutOfRange := by
  induction l generalizing k p with
  | nil => cases h
  | cons a rest ih =>
    cases a with
    | none => exact ih (k + 1) p h
    | some rp =>
      have hu : reconcile (some rp :: rest) k p
          = (reconcileSlot k rp >>= fun _ => reconcile rest (k + 1)) p := rfl
      rw [hu, Act.bind_eq] at h
      cases hs : reconcileSlot k rp p with
      | ret u p1 => rw [hs] at h; exact ih (k + 1) p1 h
      | fault e1 p1 =>
        rw [hs] at h
        cases h
        exact reconcileSlot_panics k rp p _ _ hs


/-! ## Frames and the driver -/

/-- C3: when the command tag byte at the cursor is outside the defined set,
`parseFrame` panics, and so do `ParseNextFrame` and (unless a cancellation
request is taken first) `ParseToEnd`: none of them returns a value.  When the
head of the frame can be read the panic is the one for an unknown command,
raised right after the head. -/
theorem unknown_tag_panics (x : Deps σ) (p : Parser σ) (htag : tagAt p ∉ x.tags) :
    (∃ e s, parseFrame x p = .fault e s) ∧
    (∃ e s, ParseNextFrame x p = .fault e s) ∧
    (∀ fuel, p.cancelChan = 0 → ∃ e s, ParseToEnd x (fuel + 1) p = some (.fault e s)) ∧
    (p.avail frameHeadBits →
      parseFrame x p = .fault (.unknownCommand (tagAt p)) p.frameHead ∧
      (p.header ≠ none →
        ParseNextFrame x p = .fault (.unknownCommand (tagAt p)) p.frameHead)) := by
  have hpf : ∃ e s, parseFrame x p = .fault e s := by
    by_cases hav : p.avail frameHeadBits
    · exact ⟨_, _, (parseFrame_eq x p hav).trans (frameSwitch_unknown x _ _ htag)⟩
    · obtain ⟨q, hq⟩ := parseFrame_eof x p hav
      exact ⟨_, _, hq⟩
  have hnf : ∃ e s, ParseNextFrame x p = .fault e s := by
    by_cases hh : p.header = none
    · exact ⟨_, _, ParseNextFrame_no_header x p hh⟩
    · obtain ⟨e, s, hes⟩ := hpf
      exact ⟨e, s, by rw [ParseNextFrame_eq x p hh, hes]⟩
  refine ⟨hpf, hnf, ?_, ?_⟩
  · intro fuel hc
    obtain ⟨e, s, hes⟩ := hnf
    refine ⟨e, s, ?_⟩
    simp only [ParseToEnd, hc, Nat.lt_irrefl, ↓reduceIte, hes]
  · intro hav
    have h1 : parseFrame x p = .fault (.unknownCommand (tagAt p)) p.frameHead :=
      (parseFrame_eq x p hav).trans (frameSwitch_unknown x _ _ htag)
    exact ⟨h1, fun hh => by rw [ParseNextFrame_eq x p hh, h1]⟩

/-- C3, at a concrete input: tag byte 42 after a parsed header. -/
theorem unknown_tag_panics_witness :
    tagAt { newParser [42, 5, 0, 0, 0, 0] with header := some exampleHeader } ∉ exampleDeps.tags ∧
    ParseNextFrame exampleDeps { newParser [42, 5, 0, 0, 0, 0] with header := some exampleHeader }
      = .fault (.unknownCommand 42)
          { newParser [42, 5, 0, 0, 0, 0] with header := some exampleHeader }.frameHead :=
  ⟨by decide,
   ((unknown_tag_panics exampleDeps
      { newParser [42, 5, 0, 0, 0, 0] with header := some exampleHeader }
      (by decide)).2.2.2 (by decide)).2 (by simp)⟩

/-- C5: when a cancellation request is pending at the start of `ParseToEnd`,
it returns the cancellation error at once, in the state it was called in but
for the request taken from the channel: no frame is decoded (cursor, frame
counter and ingame tick as they were), no event is dispatched and the message
queue is not closed.  So `ParseToEnd` right after `Cancel` gives the parser
back as it was before `Cancel`. -/
theorem ParseToEnd_cancelled (x : Deps σ) (p : Parser σ) (fuel : Nat)
    (hc : 0 < p.cancelChan) :
    ParseToEnd x (fuel + 1) p
      = some (.ret (some cancelled) { p with cancelChan := p.cancelChan - 1 }) ∧
    ParseToEnd x (fuel + 1) (Cancel p) = some (.ret (some cancelled) p) := by
  constructor
  · simp only [ParseToEnd, hc, ↓reduceIte, cancelled]
  · simp only [ParseToEnd, Cancel, Nat.zero_lt_succ, ↓reduceIte, cancelled,
      Nat.add_sub_cancel]

/-- C5, at a concrete input: `Cancel` called on a parser that stands before a
stop frame. -/
theorem ParseToEnd_cancelled_witness :
    0 < (Cancel { newParser [7, 5, 0, 0, 0, 0] with header := some exampleHeader }).cancelChan ∧
    ParseToEnd exampleDeps 1
        (Cancel { newParser [7, 5, 0, 0, 0, 0] with header := some exampleHeader })
      = some (.ret (some cancelled)
          { newParser [7, 5, 0, 0, 0, 0] with header := some exampleHeader }) :=
  ⟨by decide,
   (ParseToEnd_cancelled exampleDeps
     (Cancel { newParser [7, 5, 0, 0, 0, 0] with header := some exampleHeader }) 0
     (by decide)).1⟩

/-- C9: with no header parsed, `ParseNextFrame` panics with the misuse panic in
the very state it was called in (no byte read, no counter, Player, registry
entry, event or queue touched); with a header set, whatever panic
`ParseNextFrame` ends in is not the misuse panic. -/
theorem ParseNextFrame_needs_header (x : Deps σ) (p : Parser σ) :
    (p.header = none → ParseNextFrame x p = .fault .headerNotParsed p) ∧
    (p.header ≠ none → (ParseNextFrame x p).panicValue ≠ some .headerNotParsed) := by
  refine ⟨ParseNextFrame_no_header x p, fun hh hp => ?_⟩
  rw [ParseNextFrame_eq x p hh] at hp
  cases hpf : parseFrame x p with
  | fault e q =>
    rw [hpf] at hp
    simp only [Res.panicValue, Option.some.injEq] at hp
    have hw := (parseFrame_within x (I := fun _ _ => True)
      (P := fun e => e ≠ .headerNotParsed) (fun _ => trivial) (fun _ _ _ _ _ => trivial)
      (fun _ _ => trivial) (fun _ _ _ => trivial) (fun _ _ => trivial) (fun _ _ => trivial)
      (fun _ _ => trivial)
      (fun e he => by rcases he with h | h | h <;> rw [h] <;> simp)
      (fun c => by simp) (fun c => by simp) p).2 e (by rw [hpf]; rfl)
    exact hw hp
  | ret b q =>
    rw [hpf] at hp
    dsimp only at hp
    cases hrc : reconcile q.rawPlayers 0 q with
    | fault e s =>
      rw [hrc] at hp
      simp only [Res.panicValue, Option.some.injEq] at hp
      have := reconcile_panics _ _ _ _ _ hrc
      rw [this] at hp
      cases hp
    | ret u s =>
      rw [hrc] at hp
      dsimp only at hp
      cases b
      · simp only [Bool.false_eq_true, ↓reduceIte] at hp
        split at hp
        · simp [Res.panicValue] at hp
        · simp [Res.panicValue] at hp
      · simp [Res.panicValue] at hp

/-- C9, at a concrete input: a frame decoded before any header. -/
theorem ParseNextFrame_needs_header_witness :
    (newParser [7, 5, 0, 0, 0, 0]).header = none ∧
    ParseNextFrame exampleDeps (newParser [7, 5, 0, 0, 0, 0])
      = .fault .headerNotParsed (newParser [7, 5, 0, 0, 0, 0]) ∧
    (ParseNextFrame exampleDeps
      { newParser [7, 5, 0, 0, 0, 0] with header := some exampleHeader }).panicValue
        ≠ some .headerNotParsed :=
  ⟨rfl, (ParseNextFrame_needs_header exampleDeps (newParser [7, 5, 0, 0, 0, 0])).1 rfl,
   (ParseNextFrame_needs_header exampleDeps
      { newParser [7, 5, 0, 0, 0, 0] with header := some exampleHeader }).2 (by simp)⟩

/-- C10: whenever the head of the frame (tag byte, tick, player slot byte) can
be read, `parseFrame` stops (by return or by panic, whatever the tag) with the
frame counter one higher than before and the ingame tick equal to the 32-bit
signed integer that follows the tag byte. -/
theorem parseFrame_counts (x : Deps σ) (p : Parser σ) (hav : p.avail frameHeadBits) :
    (parseFrame x p).state.currentFrame = p.currentFrame + 1 ∧
    (parseFrame x p).state.ingameTick = tickAt p := by
  rw [parseFrame_eq x p hav]
  have hw := (frameSwitch_within x (tagAt p)
    (I := fun a b => b.currentFrame = a.currentFrame ∧ b.ingameTick = a.ingameTick)
    (P := fun _ => True) (fun _ => ⟨rfl, rfl⟩)
    (fun a b c h1 h2 => ⟨h2.1.trans h1.1, h2.2.trans h1.2⟩)
    (fun _ _ => ⟨rfl, rfl⟩) (fun _ _ _ => ⟨rfl, rfl⟩) (fun _ _ => ⟨rfl, rfl⟩)
    (fun _ _ => trivial) (fun _ => trivial) (fun _ => trivial) p.frameHead).1
  exact hw

/-- C10, at a concrete input: an unknown tag (42) with tick -2. -/
theorem parseFrame_counts_witness :
    (newParser [42, 254, 255, 255, 255, 0]).avail frameHeadBits ∧
    (parseFrame exampleDeps (newParser [42, 254, 255, 255, 255, 0])).state.currentFrame = 1 ∧
    (parseFrame exampleDeps (newParser [42, 254, 255, 255, 255, 0])).state.ingameTick = -2 :=
  ⟨by decide,
   (parseFrame_counts exampleDeps (newParser [42, 254, 255, 255, 255, 0]) (by decide)).1,
   (parseFrame_counts exampleDeps (newParser [42, 254, 255, 255, 255, 0]) (by decide)).2.trans
     (by decide)⟩

/-- C8: for a frame whose tag is in the defined set, whenever `parseFrame`
returns, and whenever `ParseNextFrame` returns (it returns what `parseFrame`
returned), the value is false exactly when the tag is stop.  A stop frame does
return false, a synctick and a customData frame do return true, as soon as the
head of the frame can be read; the other frames return true unless the reader
or a sub-frame decoder panics, and no frame with a defined tag ends in the
panic for an unknown command. -/
theorem returns_false_iff_stop (x : Deps σ) (p : Parser σ) (htag : tagAt p ∈ x.tags) :
    (∀ b s, parseFrame x p = .ret b s → (b = false ↔ tagAt p = x.dcStop)) ∧
    (∀ b s, ParseNextFrame x p = .ret b s →
      (∃ q, parseFrame x p = .ret b q) ∧ (b = false ↔ tagAt p = x.dcStop)) ∧
    (p.avail frameHeadBits → tagAt p = x.dcStop →
      parseFrame x p = .ret false p.frameHead) ∧
    (p.avail frameHeadBits → tagAt p = x.dcSynctick →
      parseFrame x p = .ret true p.frameHead) ∧
    (p.avail frameHeadBits → tagAt p = x.dcCustomData →
      parseFrame x p = .ret true { p.frameHead with
        stderr := p.stderr ++ ["WARNING: Found CustomData but not handled\n"] }) ∧
    (∀ e, (parseFrame x p).panicValue = some e →
      readerPanic e ∨ ∃ c, e = .collaborator c) := by
  refine ⟨fun b s h => parseFrame_returns x p s b h, fun b s h => ?_, fun hav ht => ?_,
    fun hav ht => ?_, fun hav ht => ?_, fun e he => ?_⟩
  · obtain ⟨q, hq⟩ := ParseNextFrame_returns x p s b h
    exact ⟨⟨q, hq⟩, parseFrame_returns x p q b hq⟩
  · rw [parseFrame_eq x p hav, ht, frameSwitch_stop]
  · rw [parseFrame_eq x p hav, ht, frameSwitch_synctick]
  · rw [parseFrame_eq x p hav, ht, frameSwitch_customData]
    rfl
  · by_cases hav : p.avail frameHeadBits
    · rw [parseFrame_eq x p hav] at he
      exact (frameSwitch_within x (tagAt p) (I := fun _ _ => True)
        (P := fun e => readerPanic e ∨ ∃ c, e = .collaborator c)
        (fun _ => trivial) (fun _ _ _ _ _ => trivial) (fun _ _ => trivial)
        (fun _ _ _ => trivial) (fun _ _ => trivial) (fun e he => Or.inl he)
        (fun c => Or.inr ⟨c, rfl⟩) (fun hn => absurd htag hn) p.frameHead).2 e he
    · obtain ⟨q, hq⟩ := parseFrame_eof x p hav
      rw [hq] at he
      simp only [Res.panicValue, Option.some.injEq] at he
      exact Or.inl (Or.inl he.symm)

/-- C8, at a concrete input: a stop frame returns false, a packet frame true. -/
theorem returns_false_iff_stop_witness :
    tagAt { newParser [7, 5, 0, 0, 0, 0] with header := some exampleHeader } ∈ exampleDeps.tags ∧
    parseFrame exampleDeps { newParser [7, 5, 0, 0, 0, 0] with header := some exampleHeader }
      = .ret false { newParser [7, 5, 0, 0, 0, 0] with header := some exampleHeader }.frameHead ∧
    (ParseNextFrame exampleDeps
      { newParser [7, 5, 0, 0, 0, 0] with header := some exampleHeader }).value = some false ∧
    (ParseNextFrame exampleDeps
      { newParser [2, 5, 0, 0, 0, 0] with header := some exampleHeader }).value = some true :=
  ⟨by decide,
   (returns_false_iff_stop exampleDeps
      { newParser [7, 5, 0, 0, 0, 0] with header := some exampleHeader }
      (by decide)).2.2.1 (by decide) (by decide),
   by decide, by decide⟩

/-- C4: a parser that stands before a valid header followed at once by a stop
frame, with no cancellation requested, the message queue open and no raw
player in any slot: `ParseHeader` returns nil, then `ParseToEnd` returns nil,
the events dispatched are HeaderParsed and then one TickDone, and the message
queue, open until then, is closed by the one frame that was decoded. -/
theorem header_then_stop (x : Deps σ) (p : Parser σ) (fuel : Nat)
    (hsig : filestampAt p = HL2DEMO) (hav : p.avail (headerBits + frameHeadBits))
    (hstop : tagAt (p.advance headerBits) = x.dcStop) (hcancel : p.cancelChan = 0)
    (hopen : p.msgQueueClosed = false) (hraw : ∀ rp ∈ p.rawPlayers, rp = none) :
    ∃ p1 p2, ParseHeader p = .ret none p1 ∧
      ParseToEnd x (fuel + 1) p1 = some (.ret none p2) ∧
      p1.events = p.events ++
        [Event.HeaderParsedEvent (headerAt p.bitReader.data p.bitReader.pos)] ∧
      p2.events = p.events ++
        [Event.HeaderParsedEvent (headerAt p.bitReader.data p.bitReader.pos),
         Event.TickDoneEvent] ∧
      p1.msgQueueClosed = false ∧ p2.msgQueueClosed = true ∧
      p2.currentFrame = p.currentFrame + 1 := by
  unfold Parser.avail headerBits frameHeadBits at hav
  have hfs : (headerAt p.bitReader.data p.bitReader.pos).Filestamp = HL2DEMO := hsig
  have h1 := ParseHeader_eq p (by omega)
  rw [if_neg (not_not.mpr hfs)] at h1
  generalize hp1 : ({ p.advance 8576 with
      header := some (headerAt p.bitReader.data p.bitReader.pos)
      events := p.events ++
        [Event.HeaderParsedEvent (headerAt p.bitReader.data p.bitReader.pos)] } : Parser σ)
    = p1 at h1
  have e1 : p1.events = p.events ++
      [Event.HeaderParsedEvent (headerAt p.bitReader.data p.bitReader.pos)] := by
    rw [← hp1]
  have e2 : p1.msgQueueClosed = false := by rw [← hp1]; exact hopen
  have e3 : p1.rawPlayers = p.rawPlayers := by rw [← hp1]; rfl
  have e4 : p1.cancelChan = 0 := by rw [← hp1]; exact hcancel
  have e5 : p1.header ≠ none := by rw [← hp1]; simp
  have e6 : p1.currentFrame = p.currentFrame := by rw [← hp1]; rfl
  have hav2 : p1.avail frameHeadBits := by
    rw [← hp1]
    unfold Parser.avail frameHeadBits
    simp only [Parser.advance_pos, Parser.advance_data]
    omega
  have ht : tagAt p1 = x.dcStop := by rw [← hp1]; exact hstop
  have hpf : parseFrame x p1 = .ret false p1.frameHead := by
    rw [parseFrame_eq x _ hav2, ht, frameSwitch_stop]
  have hnf := ParseNextFrame_no_slots x p1 _ false e5 hpf
    (fun rp hrp => hraw rp (e3 ▸ hrp)) e2
  generalize hp2 : ({ p1.frameHead with
      events := p1.frameHead.events ++ [Event.TickDoneEvent]
      msgQueueClosed := !false } : Parser σ) = p2 at hnf
  refine ⟨p1, p2, h1, ?_, e1, ?_, e2, ?_, ?_⟩
  · simp only [ParseToEnd, e4, Nat.lt_irrefl, ↓reduceIte, hnf, Bool.not_false]
  · rw [← hp2]
    show p1.events ++ [Event.TickDoneEvent] = _
    rw [e1, List.append_assoc]
    rfl
  · rw [← hp2]
    rfl
  · rw [← hp2]
    show p1.currentFrame + 1 = _
    rw [e6]

set_option maxRecDepth 100000 in
/-- C4, at a concrete input: the encoding of a header followed by the six
bytes of a stop frame. -/
theorem header_then_stop_witness :
    filestampAt (newParser (encodeHeader exampleHeader ++ [7, 5, 0, 0, 0, 0])) = HL2DEMO ∧
    (newParser (encodeHeader exampleHeader ++ [7, 5, 0, 0, 0, 0])).avail
      (headerBits + frameHeadBits) ∧
    tagAt ((newParser (encodeHeader exampleHeader ++ [7, 5, 0, 0, 0, 0])).advance headerBits)
      = exampleDeps.dcStop ∧
    (ParseHeader (newParser (encodeHeader exampleHeader ++ [7, 5, 0, 0, 0, 0]))).value
      = some none ∧
    (ParseToEnd exampleDeps 1
      (ParseHeader (newParser (encodeHeader exampleHeader ++ [7, 5, 0, 0, 0, 0]))).state).map
        (fun r => (r.value, r.state.events, r.state.msgQueueClosed))
      = some (some none,
          [Event.HeaderParsedEvent (headerAt (encodeHeader exampleHeader ++ [7, 5, 0, 0, 0, 0]) 0),
           Event.TickDoneEvent], true) := by
  obtain ⟨p1, p2, h1, h2, -, h4, -, h6, -⟩ := header_then_stop exampleDeps
    (newParser (encodeHeader exampleHeader ++ [7, 5, 0, 0, 0, 0])) 0
    (by decide) (by decide) (by decide) rfl rfl (by decide)
  refine ⟨by decide, by decide, by decide, ?_, ?_⟩
  · rw [h1]; rfl
  · rw [h1]
    simp only [Res.state]
    rw [h2]
    simp only [Option.map_some', Res.value, Res.state, h4, h6]
    rfl


/-! ## Last alive position -/

theorem Reconciles.refl (p : Parser σ) : Reconciles p p :=
  ⟨rfl, rfl, fun _ => ⟨rfl, rfl, rfl, Or.inl rfl⟩⟩

theorem Reconciles.trans {p q s : Parser σ} (h1 : Reconciles p q) (h2 : Reconciles q s) :
    Reconciles p s := by
  obtain ⟨a1, b1, c1⟩ := h1
  obtain ⟨a2, b2, c2⟩ := h2
  refine ⟨a2.trans a1, b2.trans b1, fun a => ?_⟩
  obtain ⟨d1, e1, f1, g1⟩ := c1 a
  obtain ⟨d2, e2, f2, g2⟩ := c2 a
  refine ⟨d2.trans d1, e2.trans e1, f2.trans f1, ?_⟩
  have halive : (q.heap a).IsAlive = (p.heap a).IsAlive := by
    simp only [common.Player.IsAlive, d1]
  rcases g2 with g2 | ⟨g2a, g2b⟩
  · rcases g1 with g1 | g1
    · exact Or.inl (g2.trans g1)
    · exact Or.inr ⟨g1.1, g2.trans g1.2⟩
  · exact Or.inr ⟨halive ▸ g2a, g2b.trans e1⟩

theorem reconcileSlot_reconciles (k : Nat) (rp : playerInfo) (p : Parser σ) :
    Reconciles p (reconcileSlot k rp p).state := by
  cases hb : p.players k with
  | none => rw [reconcileSlot_unbound k rp p hb]; exact Reconciles.refl p
  | some pl =>
    rw [reconcileSlot_bound k rp p pl hb]
    split
    · refine ⟨rfl, rfl, fun a => ?_⟩
      by_cases ha : a = pl
      · subst ha
        simp [Res.state, copied]
      · simp [Res.state, Function.update_noteq ha]
    · refine ⟨rfl, rfl, fun a => ?_⟩
      by_cases ha : a = pl
      · subst ha
        by_cases hal : (p.heap a).IsAlive = true
        · simp [Res.state, reconciled, hal]
        · simp [Res.state, reconciled, hal]
      · simp [Res.state, Function.update_noteq ha]

theorem reconcile_reconciles (l : List (Option playerInfo)) (k : Nat) (p : Parser σ) :
    Reconciles p (reconcile l k p).state := by
  induction l generalizing k p with
  | nil => exact Reconciles.refl p
  | cons a rest ih =>
    cases a with
    | none => exact ih (k + 1) p
    | some rp =>
      have hu : reconcile (some rp :: rest) k p
          = (reconcileSlot k rp >>= fun _ => reconcile rest (k + 1)) p := rfl
      rw [hu, Act.bind_eq]
      have h1 := reconcileSlot_reconciles k rp p
      cases hs : reconcileSlot k rp p with
      | ret u p1 =>
        rw [hs] at h1
        exact h1.trans (ih (k + 1) p1)
      | fault e p1 =>
        rw [hs] at h1
        exact h1

/-- After a run of the loop that returns, an alive Player bound at a slot that
holds a raw player has its last alive position equal to its position. -/
theorem reconcile_alive (l : List (Option playerInfo)) (k : Nat) (p s : Parser σ)
    (h : reconcile l k p = .ret () s) (j : Nat) (rp : playerInfo) (a : Nat)
    (hj : l[j]? = some (some rp)) (hb : p.players (k + j) = some a)
    (hal : (p.heap a).IsAlive = true) :
    (s.heap a).LastAlivePosition = (s.heap a).Position := by
  induction l generalizing k p j with
  | nil => simp at hj
  | cons c rest ih =>
    cases c with
    | none =>
      cases j with
      | zero => simp at hj
      | succ j =>
        have hj1 : rest[j]? = some (some rp) := by simpa using hj
        exact ih (k + 1) p h j hj1 (by rw [← hb]; congr 1; omega) hal
    | some rp0 =>
      have hu : reconcile (some rp0 :: rest) k p
          = (reconcileSlot k rp0 >>= fun _ => reconcile rest (k + 1)) p := rfl
      rw [hu, Act.bind_eq] at h
      have h1 := reconcileSlot_reconciles k rp0 p
      cases hs : reconcileSlot k rp0 p with
      | fault e p1 => rw [hs] at h; cases h
      | ret u p1 =>
        rw [hs] at h h1
        simp only [Res.state] at h1
        dsimp only at h
        have h2 := reconcile_reconciles rest (k + 1) p1
        rw [h] at h2
        simp only [Res.state] at h2
        have hal1 : (p1.heap a).IsAlive = true := by
          simp only [common.Player.IsAlive, (h1.2.2 a).1] at hal ⊢
          exact hal
        cases j with
        | succ j =>
          have hj1 : rest[j]? = some (some rp) := by simpa using hj
          exact ih (k + 1) p1 h j hj1 (by rw [h1.1, ← hb]; congr 1; omega) hal1
        | zero =>
          have hrp : rp0 = rp := by simpa using hj
          subst hrp
          have hb0 : p.players k = some a := by simpa using hb
          rw [reconcileSlot_bound k rp0 p a hb0] at hs
          split at hs
          · cases hs
          · cases hs
            obtain ⟨-, hpos, -, hl⟩ := h2.2.2 a
            simp only [Function.update_same, reconciled, hal, ↓reduceIte] at hpos hl
            rw [hpos]
            rcases hl with hl | ⟨-, hl⟩
            · exact hl
            · exact hl


/-- The Players after `ParseNextFrame` are those the reconciliation loop leaves. -/
theorem ParseNextFrame_heap (x : Deps σ) (p q : Parser σ) (b : Bool) (hh : p.header ≠ none)
    (hpf : parseFrame x p = .ret b q) :
    (ParseNextFrame x p).state.heap = (reconcile q.rawPlayers 0 q).state.heap ∧
    (ParseNextFrame x p).state.connectedPlayers
      = (reconcile q.rawPlayers 0 q).state.connectedPlayers ∧
    ∀ s, ParseNextFrame x p = .ret b s →
      ∃ s0, reconcile q.rawPlayers 0 q = .ret () s0 ∧ s.heap = s0.heap ∧
        s.connectedPlayers = s0.connectedPlayers ∧
        s.events = s0.events ++ [Event.TickDoneEvent] := by
  rw [ParseNextFrame_eq x p hh, hpf]
  dsimp only
  cases hrc : reconcile q.rawPlayers 0 q with
  | fault e s0 => exact ⟨rfl, rfl, fun s hs => by cases hs⟩
  | ret u s0 =>
    dsimp only
    cases b
    · simp only [Bool.false_eq_true, ↓reduceIte]
      split
      · exact ⟨rfl, rfl, fun s hs => by cases hs⟩
      · exact ⟨rfl, rfl, fun s hs => by cases hs; exact ⟨s0, rfl, rfl, rfl, rfl⟩⟩
    · simp only [↓reduceIte]
      exact ⟨rfl, rfl, fun s hs => by cases hs; exact ⟨s0, rfl, rfl, rfl, rfl⟩⟩

/-- C6 as stated fails: a Player that is alive but has no raw player at its
slot keeps its old last alive position through a call of `ParseNextFrame`
that returns, so that position differs from its current position. -/
theorem lastAlive_counterexample :
    (ParseNextFrame exampleDeps aliveNoSlotParser).value = some false ∧
    ((ParseNextFrame exampleDeps aliveNoSlotParser).state.heap 0).IsAlive = true ∧
    ((ParseNextFrame exampleDeps aliveNoSlotParser).state.heap 0).Position = ⟨1, 2, 3⟩ ∧
    ((ParseNextFrame exampleDeps aliveNoSlotParser).state.heap 0).LastAlivePosition
      = ⟨0, 0, 0⟩ := by
  decide

/-- C6, amended: let `q` be the parser when reconciliation starts, that is
after `parseFrame` has returned.  A Player that is not alive then has the same
last alive position when `ParseNextFrame` stops (by return or by panic).  When
`ParseNextFrame` returns, a Player that is alive and is bound at a slot index
holding a raw player has its last alive position equal to its current
position.  The call changes no Player's position or health after `q`; and if
no sub-frame decoder writes a last alive position, `q` has those of the parser
before the call. -/
theorem lastAlive_after_frame (x : Deps σ) (p q : Parser σ) (b : Bool) (hh : p.header ≠ none)
    (hpf : parseFrame x p = .ret b q) :
    (∀ a, (q.heap a).IsAlive = false →
      ((ParseNextFrame x p).state.heap a).LastAlivePosition
        = (q.heap a).LastAlivePosition) ∧
    (∀ s, ParseNextFrame x p = .ret b s → ∀ k rp a,
      q.rawPlayers[k]? = some (some rp) → q.players k = some a →
      (q.heap a).IsAlive = true →
      (s.heap a).LastAlivePosition = (s.heap a).Position) ∧
    (∀ a, ((ParseNextFrame x p).state.heap a).Position = (q.heap a).Position ∧
      ((ParseNextFrame x p).state.heap a).IsAlive = (q.heap a).IsAlive) ∧
    ((∀ f ∈ x.decoders, ∀ (p1 : Parser σ) a,
        ((f p1).shared.heap a).LastAlivePosition = (p1.heap a).LastAlivePosition) →
      ∀ a, (q.heap a).LastAlivePosition = (p.heap a).LastAlivePosition) := by
  obtain ⟨hheap, -, hret⟩ := ParseNextFrame_heap x p q b hh hpf
  have hrec := reconcile_reconciles q.rawPlayers 0 q
  refine ⟨fun a hna => ?_, fun s hs k rp a hk hb hal => ?_, fun a => ?_, fun hdec a => ?_⟩
  · rw [hheap]
    obtain ⟨-, -, -, hl⟩ := hrec.2.2 a
    rcases hl with hl | ⟨hl, -⟩
    · exact hl
    · rw [hna] at hl
      cases hl
  · obtain ⟨s0, hs0, hs1, -⟩ := hret s hs
    rw [hs1]
    exact reconcile_alive q.rawPlayers 0 q s0 hs0 k rp a hk (by rw [Nat.zero_add]; exact hb) hal
  · rw [hheap]
    obtain ⟨h1, h2, -, -⟩ := hrec.2.2 a
    exact ⟨h2, by simp only [common.Player.IsAlive, h1]⟩
  · have hw := (parseFrame_within x
      (I := fun (a b : Parser σ) =>
        ∀ c, (b.heap c).LastAlivePosition = (a.heap c).LastAlivePosition)
      (P := fun _ => True) (fun _ _ => rfl) (fun _ _ _ h1 h2 c => (h2 c).trans (h1 c))
      (fun _ _ _ => rfl) (fun f hf p1 c => hdec f hf p1 c) (fun _ _ _ => rfl)
      (fun _ _ _ => rfl) (fun _ _ _ => rfl) (fun _ _ => trivial) (fun _ => trivial)
      (fun _ => trivial) p).1
    rw [hpf] at hw
    exact hw a

/-- C6 amended, at a concrete input: an alive Player with a raw player at its
slot gets its position as last alive position. -/
theorem lastAlive_after_frame_witness :
    aliveSlotParser.header ≠ none ∧
    parseFrame exampleDeps aliveSlotParser = .ret true aliveSlotParser.frameHead ∧
    ((ParseNextFrame exampleDeps aliveSlotParser).state.heap 0).LastAlivePosition
      = ⟨1, 2, 3⟩ :=
  ⟨by decide, rfl,
   ((lastAlive_after_frame exampleDeps aliveSlotParser aliveSlotParser.frameHead true
      (by decide) rfl).2.1 (ParseNextFrame exampleDeps aliveSlotParser).state rfl
      0 rawPlayerOne 0 rfl rfl rfl).trans (by decide)⟩


/-! ## PlayerBind events -/

theorem bindInfo_append (l1 l2 : List Event) :
    bindInfo (l1 ++ l2) = bindInfo l1 ++ bindInfo l2 := by
  induction l1 with
  | nil => rfl
  | cons e rest ih =>
    cases e with
    | HeaderParsedEvent h => simpa [bindInfo] using ih
    | PlayerBindEvent a d => simp [bindInfo, ih]
    | TickDoneEvent => simpa [bindInfo] using ih

theorem parseFrame_events (x : Deps σ) (p : Parser σ) :
    (parseFrame x p).state.events = p.events ∧
    (parseFrame x p).state.connectedPlayers = p.connectedPlayers :=
  (parseFrame_within x
    (I := fun (a b : Parser σ) =>
      b.events = a.events ∧ b.connectedPlayers = a.connectedPlayers)
    (P := fun _ => True) (fun _ => ⟨rfl, rfl⟩)
    (fun _ _ _ h1 h2 => ⟨h2.1.trans h1.1, h2.2.trans h1.2⟩)
    (fun _ _ => ⟨rfl, rfl⟩) (fun _ _ _ => ⟨rfl, rfl⟩) (fun _ _ => ⟨rfl, rfl⟩)
    (fun _ _ => ⟨rfl, rfl⟩) (fun _ _ => ⟨rfl, rfl⟩) (fun _ _ => trivial) (fun _ => trivial)
    (fun _ => trivial) p).1

/-- A slot whose user identifier is in the registry adds no event and no
registry entry. -/
theorem reconcileSlot_registered (k : Nat) (rp : playerInfo) (p s : Parser σ)
    (h : reconcileSlot k rp p = .ret () s)
    (hreg : ∀ a, p.players k = some a → p.connectedPlayers rp.UserID ≠ none) :
    s.events = p.events ∧ s.connectedPlayers = p.connectedPlayers ∧
    s.players = p.players := by
  cases hb : p.players k with
  | none =>
    rw [reconcileSlot_unbound k rp p hb] at h
    cases h
    exact ⟨rfl, rfl, rfl⟩
  | some pl =>
    have hr := hreg pl hb
    obtain ⟨v, hv⟩ := Option.ne_none_iff_exists'.mp hr
    rw [reconcileSlot_bound k rp p pl hb] at h
    split at h
    · cases h
    · cases h
      simp [registered, hv]

/-- When no slot from `k` on is fresh, the loop adds no event. -/
theorem reconcile_no_fresh (l : List (Option playerInfo)) (k : Nat) (p s : Parser σ)
    (h : reconcile l k p = .ret () s)
    (hreg : ∀ j rp1 a1, l[j]? = some (some rp1) → p.players (k + j) = some a1 →
      p.connectedPlayers rp1.UserID ≠ none) :
    s.events = p.events := by
  induction l generalizing k p with
  | nil => cases h; rfl
  | cons c rest ih =>
    cases c with
    | none =>
      exact ih (k + 1) p h (fun j rp1 a1 hj hb =>
        hreg (j + 1) rp1 a1 (by simpa using hj) (by rw [← hb]; congr 1; omega))
    | some rp0 =>
      have hu : reconcile (some rp0 :: rest) k p
          = (reconcileSlot k rp0 >>= fun _ => reconcile rest (k + 1)) p := rfl
      rw [hu, Act.bind_eq] at h
      cases hs : reconcileSlot k rp0 p with
      | fault e p1 => rw [hs] at h; cases h
      | ret u p1 =>
        rw [hs] at h
        dsimp only at h
        obtain ⟨e1, e2, e3⟩ := reconcileSlot_registered k rp0 p p1 hs
          (fun a ha => hreg 0 rp0 a (by simp) (by simpa using ha))
        rw [← e1]
        exact ih (k + 1) p1 h (fun j rp1 a1 hj hb => by
          rw [e2]
          rw [e3] at hb
          exact hreg (j + 1) rp1 a1 (by simpa using hj) (by rw [← hb]; congr 1; omega))

/-- When exactly one slot from `k` on is fresh and its raw player has a
persistent identifier other than zero, the loop adds one PlayerBind event; the
Player it carries has the raw player's name, identifier and bot flag. -/
theorem reconcile_one_fresh (l : List (Option playerInfo)) (k : Nat) (p s : Parser σ)
    (h : reconcile l k p = .ret () s) (j0 : Nat) (rp : playerInfo) (a : Nat)
    (hj0 : l[j0]? = some (some rp)) (hb0 : p.players (k + j0) = some a)
    (hnew : p.connectedPlayers rp.UserID = none) (hx : rp.XUID ≠ 0)
    (hreg : ∀ j rp1 a1, j ≠ j0 → l[j]? = some (some rp1) → p.players (k + j) = some a1 →
      p.connectedPlayers rp1.UserID ≠ none) :
    ∃ d, s.events = p.events ++ [Event.PlayerBindEvent a d] ∧
      (d.Name, d.SteamID, d.IsBot) = rp.info := by
  induction l generalizing k p j0 with
  | nil => simp at hj0
  | cons c rest ih =>
    cases c with
    | none =>
      cases j0 with
      | zero => simp at hj0
      | succ j0 =>
        exact ih (k + 1) p h j0 (by simpa using hj0) (by rw [← hb0]; congr 1; omega) hnew
          (fun j rp1 a1 hne hj hb =>
            hreg (j + 1) rp1 a1 (by omega) (by simpa using hj) (by rw [← hb]; congr 1; omega))
    | some rp0 =>
      have hu : reconcile (some rp0 :: rest) k p
          = (reconcileSlot k rp0 >>= fun _ => reconcile rest (k + 1)) p := rfl
      rw [hu, Act.bind_eq] at h
      cases hs : reconcileSlot k rp0 p with
      | fault e p1 => rw [hs] at h; cases h
      | ret u p1 =>
        rw [hs] at h
        dsimp only at h
        cases j0 with
        | succ j0 =>
          obtain ⟨e1, e2, e3⟩ := reconcileSlot_registered k rp0 p p1 hs
            (fun a1 ha => hreg 0 rp0 a1 (by omega) (by simp) (by simpa using ha))
          rw [← e1]
          exact ih (k + 1) p1 h j0 (by simpa using hj0)
            (by rw [e3, ← hb0]; congr 1; omega) (by rw [e2]; exact hnew)
            (fun j rp1 a1 hne hj hb => by
              rw [e2]
              rw [e3] at hb
              exact hreg (j + 1) rp1 a1 (by omega) (by simpa using hj)
                (by rw [← hb]; congr 1; omega))
        | zero =>
          have hrp : rp0 = rp := by simpa using hj0
          subst hrp
          have hbk : p.players k = some a := by simpa using hb0
          rw [reconcileSlot_bound k rp0 p a hbk] at hs
          split at hs
          · cases hs
          · cases hs
            have hrest := reconcile_no_fresh rest (k + 1) _ s h (fun j rp1 a1 hj hb => by
              have hb1 : p.players (k + 1 + j) = some a1 := hb
              have := hreg (j + 1) rp1 a1 (by omega) (by simpa using hj)
                (by rw [← hb1]; congr 1; omega)
              show registered p.connectedPlayers rp0.UserID a rp1.UserID ≠ none
              simp only [registered, hnew, Option.isNone_none, ↓reduceIte]
              by_cases hu : rp1.UserID = rp0.UserID
              · rw [hu]; simp
              · rw [Function.update_noteq hu]; exact this)
            refine ⟨reconciled rp0 (p.heap a), ?_, rfl⟩
            rw [hrest]
            simp [hnew, hx]


/-- C7 as stated fails.  One frame whose slot 0 holds a raw player with a
non-zero XUID never seen before, but no bound Player: no PlayerBind event.
And a frame in which the raw player of user 1 arrives with XUID 7, never seen
before, after a frame in which user 1 had XUID 0: user 1 is in the registry
already, the Player gets SteamID 7, and there is no PlayerBind event. -/
theorem playerBind_counterexample :
    unboundSlotParser.rawPlayers = [some rawPlayerOne] ∧ rawPlayerOne.XUID = 7 ∧
    (ParseNextFrame exampleDeps unboundSlotParser).value = some true ∧
    (ParseNextFrame exampleDeps unboundSlotParser).state.events = [Event.TickDoneEvent] ∧
    (ParseNextFrame xuidArrivesDeps
      (ParseNextFrame xuidArrivesDeps zeroXuidParser).state).value = some true ∧
    (ParseNextFrame xuidArrivesDeps
      (ParseNextFrame xuidArrivesDeps zeroXuidParser).state).state.rawPlayers
        = [some rawPlayerOne] ∧
    ((ParseNextFrame xuidArrivesDeps
      (ParseNextFrame xuidArrivesDeps zeroXuidParser).state).state.heap 0).SteamID = 7 ∧
    (ParseNextFrame xuidArrivesDeps
      (ParseNextFrame xuidArrivesDeps zeroXuidParser).state).state.events
        = [Event.TickDoneEvent, Event.TickDoneEvent] := by
  decide

/-- C7, amended: over N calls of `ParseNextFrame` that return, such that when
the reconciliation of each call starts exactly one slot has a raw player, a
bound Player and a user identifier not yet in the registry, and that raw
player has a non-zero XUID, exactly N PlayerBind events are dispatched, one
per call and in call order; the Player each carries has, at the dispatch, the
name, XUID and bot flag of that call's raw player, so the N persistent
identifiers are distinct when the XUIDs of the N raw players are. -/
theorem playerBind_per_fresh_frame (x : Deps σ) (p t : Parser σ) (rps : List playerInfo)
    (h : FreshFrames x p rps t) :
    bindInfo t.events = bindInfo p.events ++ rps.map playerInfo.info ∧
    (bindInfo t.events).length = (bindInfo p.events).length + rps.length ∧
    ((rps.map (fun rp => rp.XUID)).Nodup →
      (((bindInfo t.events).drop (bindInfo p.events).length).map (fun i => i.2.1)).Nodup) := by
  have hmain : bindInfo t.events = bindInfo p.events ++ rps.map playerInfo.info := by
    induction h with
    | done p => simp
    | @frame p q s t b rp rps hframe hfresh hnext hrest ih =>
      have hh : p.header ≠ none := by
        intro hn
        rw [ParseNextFrame_no_header x p hn] at hnext
        cases hnext
      obtain ⟨s0, hs0, -, -, hev⟩ := (ParseNextFrame_heap x p q b hh hframe).2.2 s hnext
      obtain ⟨k, a, hk, hb, hnew, hx, hreg⟩ := hfresh
      obtain ⟨d, hd, hinfo⟩ := reconcile_one_fresh q.rawPlayers 0 q s0 hs0 k rp a hk
        (by rw [Nat.zero_add]; exact hb) hnew hx
        (fun j rp1 a1 hne hj hb1 => hreg j rp1 a1 hne hj (by rw [Nat.zero_add] at hb1; exact hb1))
      have hq : q.events = p.events := by
        have := (parseFrame_events x p).1
        rw [hframe] at this
        exact this
      rw [ih, hev, hd, hq]
      simp only [bindInfo_append, bindInfo, hinfo, List.map_cons, List.append_nil,
        List.append_assoc, List.singleton_append]
  refine ⟨hmain, ?_, fun hnd => ?_⟩
  · rw [hmain, List.length_append, List.length_map]
  · rw [hmain, List.drop_left, List.map_map]
    exact hnd

/-- C7 amended, at a concrete input: two frames, the second of which brings a
second player. -/
theorem playerBind_per_fresh_frame_witness :
    FreshFrames joinDeps twoFramesParser [rawPlayerOne, rawPlayerTwo]
      (ParseNextFrame joinDeps (ParseNextFrame joinDeps twoFramesParser).state).state ∧
    bindInfo (ParseNextFrame joinDeps (ParseNextFrame joinDeps twoFramesParser).state).state.events
      = [([65, 108], 7, false), ([66, 111], 9, true)] := by
  have h1 : FreshFrames joinDeps twoFramesParser [rawPlayerOne, rawPlayerTwo]
      (ParseNextFrame joinDeps (ParseNextFrame joinDeps twoFramesParser).state).state := by
    refine FreshFrames.frame (q := (parseFrame joinDeps twoFramesParser).state)
      (s := (ParseNextFrame joinDeps twoFramesParser).state) (b := true) rfl ?_ rfl ?_
    · refine ⟨0, 0, rfl, rfl, rfl, by decide, fun j rp1 a1 hne hj _ => ?_⟩
      have hr : (parseFrame joinDeps twoFramesParser).state.rawPlayers
          = [some rawPlayerOne] := rfl
      rw [hr] at hj
      cases j with
      | zero => exact absurd rfl hne
      | succ j => simp at hj
    · refine FreshFrames.frame
        (q := (parseFrame joinDeps (ParseNextFrame joinDeps twoFramesParser).state).state)
        (s := (ParseNextFrame joinDeps (ParseNextFrame joinDeps twoFramesParser).state).state)
        (b := true) rfl ?_ rfl (FreshFrames.done _)
      refine ⟨1, 1, rfl, rfl, rfl, by decide, fun j rp1 a1 hne hj _ => ?_⟩
      have hr : (parseFrame joinDeps
          (ParseNextFrame joinDeps twoFramesParser).state).state.rawPlayers
          = [some rawPlayerOne, some rawPlayerTwo] := rfl
      rw [hr] at hj
      cases j with
      | zero =>
        have : rp1 = rawPlayerOne := by simpa using hj.symm
        rw [this]
        decide
      | succ j =>
        cases j with
        | zero => exact absurd rfl hne
        | succ j => simp at hj
  exact ⟨h1, (playerBind_per_fresh_frame joinDeps _ _ _ h1).1⟩

/-! ## Header acceptance and skipped frames -/

theorem onReader_BeginChunk (n : Int) (p : Parser σ) :
    onReader (BitReader.BeginChunk n) p = .ret () { p with
      bitReader := { p.bitReader with
        chunkTargets := ((p.bitReader.pos : Int) + n) :: p.bitReader.chunkTargets } } := rfl

/-- Opening a chunk of `8 * n` bits at the cursor and closing it at once moves
the cursor by `8 * n` bits and leaves the open chunks as they were. -/
theorem skip_chunk (p : Parser σ) (n : Nat) (hav : p.avail (8 * n)) :
    (onReader (BitReader.BeginChunk ((n : Int) * 2 ^ 3)) >>= fun _ =>
      (onReader BitReader.EndChunk : Act (Parser σ) Unit)) p = .ret () (p.advance (8 * n)) := by
  unfold Parser.avail at hav
  rw [Act.bind_eq, onReader_BeginChunk]
  simp only [onReader, BitReader.EndChunk]
  have h1 : ¬ ((p.bitReader.pos : Int) + (n : Int) * 2 ^ 3 < (p.bitReader.pos : Int)) := by
    omega
  have h2 : ¬ (((8 * p.bitReader.data.length : Nat) : Int)
      < (p.bitReader.pos : Int) + (n : Int) * 2 ^ 3) := by
    omega
  have h3 : ((p.bitReader.pos : Int) + (n : Int) * 2 ^ 3).toNat = p.bitReader.pos + 8 * n := by
    omega
  simp only [h1, ↓reduceIte, h3, Parser.advance]
  have h2' : ¬ ((8 : Int) * (p.bitReader.data.length : Int)
      < (p.bitReader.pos : Int) + (n : Int) * 2 ^ 3) := by
    omega
  simp only [h2', ↓reduceIte]


theorem frameSwitch_consoleCommand (x : Deps σ) (p : Parser σ) (n : Nat)
    (hn : lengthAt p 0 = n) (hav : p.avail (32 + 8 * n)) :
    frameSwitch x x.dcConsoleCommand p = .ret true (p.advance (32 + 8 * n)) := by
  obtain ⟨⟨n01, n02, n03, n04, n05, n06, n07, n08⟩, ⟨n12, n13, n14, n15, n16, n17, n18⟩, ⟨n23, n24, n25, n26, n27, n28⟩, ⟨n34, n35, n36, n37, n38⟩, ⟨n45, n46, n47, n48⟩, ⟨n56, n57, n58⟩, ⟨n67, n68⟩, n78⟩ := x.pairwise_ne
  unfold Parser.avail at hav
  unfold lengthAt at hn
  rw [Nat.add_zero] at hn
  have hsk := skip_chunk (p.advance 32) n (by
    unfold Parser.avail
    simp only [Parser.advance_pos, Parser.advance_data]
    omega)
  rw [Act.bind_eq] at hsk
  simp only [frameSwitch, ↓reduceIte, (Ne.symm n02), (Ne.symm n12), Act.bind_eq]
  rw [onReader_ReadSignedInt (by omega)]
  dsimp only
  rw [hn]
  cases hb : onReader (BitReader.BeginChunk ((n : Int) * 2 ^ 3)) (p.advance 32) with
  | fault e s1 => rw [hb] at hsk; cases hsk
  | ret u s1 =>
    rw [hb] at hsk
    dsimp only at hsk ⊢
    rw [hsk]
    simp only [Act.pure_eq, Parser.advance_advance]

theorem frameSwitch_userCommand (x : Deps σ) (p : Parser σ) (n : Nat)
    (hn : lengthAt p 32 = n) (hav : p.avail (64 + 8 * n)) :
    frameSwitch x x.dcUserCommand p = .ret true (p.advance (64 + 8 * n)) := by
  obtain ⟨⟨n01, n02, n03, n04, n05, n06, n07, n08⟩, ⟨n12, n13, n14, n15, n16, n17, n18⟩, ⟨n23, n24, n25, n26, n27, n28⟩, ⟨n34, n35, n36, n37, n38⟩, ⟨n45, n46, n47, n48⟩, ⟨n56, n57, n58⟩, ⟨n67, n68⟩, n78⟩ := x.pairwise_ne
  unfold Parser.avail at hav
  unfold lengthAt at hn
  have hsk := skip_chunk (p.advance 64) n (by
    unfold Parser.avail
    simp only [Parser.advance_pos, Parser.advance_data]
    omega)
  rw [Act.bind_eq] at hsk
  simp only [frameSwitch, ↓reduceIte, (Ne.symm n05), (Ne.symm n15), (Ne.symm n25), (Ne.symm n35), (Ne.symm n45),
    Act.bind_eq, BitReader.ReadInt]
  rw [onReader_readBits (by omega)]
  dsimp only
  rw [onReader_ReadSignedInt (by simp; omega)]
  dsimp only
  simp only [Parser.advance_pos, Parser.advance_data, Parser.advance_advance]
  rw [hn]
  cases hb : onReader (BitReader.BeginChunk ((n : Int) * 2 ^ 3)) (p.advance (32 + 32)) with
  | fault e s1 => rw [hb] at hsk; cases hsk
  | ret u s1 =>
    rw [hb] at hsk
    dsimp only at hsk ⊢
    rw [hsk]
    simp only [Act.pure_eq, Parser.advance_advance]

/-- C15: when the filestamp field at the cursor reads "HL2DEMO" and the buffer
holds the whole fixed layout, `ParseHeader` returns nil, stores as header the
record of the eleven fields found at the cursor in layout order, and
dispatches one event, a HeaderParsedEvent whose Header is that same record;
nothing else changes but the cursor. -/
theorem ParseHeader_accepts (p : Parser σ) (hsig : filestampAt p = HL2DEMO)
    (hav : p.avail headerBits) :
    ParseHeader p = .ret none { p.advance headerBits with
      header := some (headerAt p.bitReader.data p.bitReader.pos)
      events := p.events ++
        [Event.HeaderParsedEvent (headerAt p.bitReader.data p.bitReader.pos)] } := by
  have hfs : (headerAt p.bitReader.data p.bitReader.pos).Filestamp = HL2DEMO := hsig
  rw [ParseHeader_eq p hav, if_neg (not_not.mpr hfs)]
  rfl

set_option maxRecDepth 100000 in
/-- C15, at a concrete input: the encoding of a header. -/
theorem ParseHeader_accepts_witness :
    filestampAt (newParser (encodeHeader exampleHeader)) = HL2DEMO ∧
    (newParser (encodeHeader exampleHeader)).avail headerBits ∧
    (ParseHeader (newParser (encodeHeader exampleHeader))).value = some none ∧
    (ParseHeader (newParser (encodeHeader exampleHeader))).state.header
      = some (headerAt (encodeHeader exampleHeader) 0) ∧
    (ParseHeader (newParser (encodeHeader exampleHeader))).state.events
      = [Event.HeaderParsedEvent (headerAt (encodeHeader exampleHeader) 0)] :=
  have h := ParseHeader_accepts (newParser (encodeHeader exampleHeader)) (by decide) (by decide)
  ⟨by decide, by decide, by rw [h]; rfl, by rw [h]; rfl, by rw [h]; rfl⟩

/-- C16: when the buffer holds at least the 1072 bytes of the fixed layout
from the cursor on, `ParseHeader` returns with the cursor exactly
8 + 4 + 4 + 4 * 260 + 4 + 4 + 4 + 4 = 1072 bytes further, whatever the bytes
are: wherever the NUL bytes of the strings fall, and whether or not the
filestamp matches. -/
theorem ParseHeader_consumes_layout (p : Parser σ) (hav : p.avail (8 * headerBytes)) :
    (∃ r, (ParseHeader p).value = some r) ∧
    (ParseHeader p).state.bitReader.pos = p.bitReader.pos + 8 * headerBytes ∧
    headerBytes = 8 + 4 + 4 + 4 * 260 + 4 + 4 + 4 + 4 ∧
    (ParseHeader p).state.bitReader.data = p.bitReader.data ∧
    (ParseHeader p).state.bitReader.chunkTargets = p.bitReader.chunkTargets := by
  rw [ParseHeader_eq p hav]
  split
  · exact ⟨⟨_, rfl⟩, rfl, rfl, rfl, rfl⟩
  · exact ⟨⟨_, rfl⟩, rfl, rfl, rfl, rfl⟩

set_option maxRecDepth 100000 in
/-- C16, at a concrete input: 1072 bytes without the filestamp, and without a
NUL byte anywhere. -/
theorem ParseHeader_consumes_layout_witness :
    (newParser (List.replicate 1072 65)).avail (8 * headerBytes) ∧
    (ParseHeader (newParser (List.replicate 1072 65))).state.bitReader.pos = 8 * 1072 :=
  ⟨by decide,
   (ParseHeader_consumes_layout (newParser (List.replicate 1072 65)) (by decide)).2.1.trans
     (by decide)⟩

/-- C19: a consoleCommand frame whose length field holds `n ≥ 0`, in a buffer
that holds the frame: `parseFrame` returns true with the cursor
1 + 4 + 1 + 4 + n bytes further, the chunk of `8 * n` bits opened and closed
without a byte of it being read.  A userCommand frame: the same with
1 + 4 + 1 + 4 + 4 + n bytes.  In both cases the parser differs from the one
before the call in the cursor, the frame counter and the ingame tick only. -/
theorem skip_frames_advance (x : Deps σ) (p : Parser σ) (n : Nat) :
    (tagAt p = x.dcConsoleCommand → lengthAt p frameHeadBits = n →
      p.avail (8 * (1 + 4 + 1 + 4 + n)) →
      parseFrame x p = .ret true { p with
        bitReader := { p.bitReader with pos := p.bitReader.pos + 8 * (1 + 4 + 1 + 4 + n) }
        currentFrame := p.currentFrame + 1
        ingameTick := tickAt p }) ∧
    (tagAt p = x.dcUserCommand → lengthAt p (frameHeadBits + 32) = n →
      p.avail (8 * (1 + 4 + 1 + 4 + 4 + n)) →
      parseFrame x p = .ret true { p with
        bitReader := { p.bitReader with pos := p.bitReader.pos + 8 * (1 + 4 + 1 + 4 + 4 + n) }
        currentFrame := p.currentFrame + 1
        ingameTick := tickAt p }) := by
  constructor
  · intro ht hn hav
    unfold Parser.avail at hav
    have hav1 : p.avail frameHeadBits := by
      unfold Parser.avail frameHeadBits
      omega
    rw [parseFrame_eq x p hav1, ht, frameSwitch_consoleCommand x p.frameHead n hn (by
      unfold Parser.avail
      show p.bitReader.pos + 48 + (32 + 8 * n) ≤ 8 * p.bitReader.data.length
      omega)]
    simp only [Parser.frameHead, Parser.advance, frameHeadBits]
    congr 3
    omega
  · intro ht hn hav
    unfold Parser.avail at hav
    have hav1 : p.avail frameHeadBits := by
      unfold Parser.avail frameHeadBits
      omega
    rw [parseFrame_eq x p hav1, ht, frameSwitch_userCommand x p.frameHead n hn (by
      unfold Parser.avail
      show p.bitReader.pos + 48 + (64 + 8 * n) ≤ 8 * p.bitReader.data.length
      omega)]
    simp only [Parser.frameHead, Parser.advance, frameHeadBits]
    congr 3
    omega

/-- C19, at a concrete input: a consoleCommand frame with three payload bytes
and a userCommand frame with two. -/
theorem skip_frames_advance_witness :
    tagAt (newParser [4, 5, 0, 0, 0, 0, 3, 0, 0, 0, 9, 9, 9]) = exampleDeps.dcConsoleCommand ∧
    lengthAt (newParser [4, 5, 0, 0, 0, 0, 3, 0, 0, 0, 9, 9, 9]) frameHeadBits = (3 : Nat) ∧
    (parseFrame exampleDeps
      (newParser [4, 5, 0, 0, 0, 0, 3, 0, 0, 0, 9, 9, 9])).state.bitReader.pos = 8 * 13 ∧
    (parseFrame exampleDeps
      (newParser [5, 5, 0, 0, 0, 0, 1, 1, 1, 1, 2, 0, 0, 0, 9, 9])).state.bitReader.pos
        = 8 * 16 :=
  ⟨by decide, by decide,
   (congrArg (fun r => r.state.bitReader.pos)
      ((skip_frames_advance exampleDeps (newParser [4, 5, 0, 0, 0, 0, 3, 0, 0, 0, 9, 9, 9]) 3).1
        (by decide) (by decide) (by decide))).trans (by decide),
   (congrArg (fun r => r.state.bitReader.pos)
      ((skip_frames_advance exampleDeps
          (newParser [5, 5, 0, 0, 0, 0, 1, 1, 1, 1, 2, 0, 0, 0, 9, 9]) 2).2
        (by decide) (by decide) (by decide))).trans (by decide)⟩

/-! ## Traces of the reconciliation loop -/

/-- A relation between states that is reflexive, transitive and kept by the loop
body is kept by the loop. -/
theorem reconcile_induct {I : Parser σ → Parser σ → Prop} (hrefl : ∀ p, I p p)
    (htrans : ∀ a b c, I a b → I b c → I a c)
    (hstep : ∀ k rp (p : Parser σ), I p (reconcileSlot k rp p).state)
    (l : List (Option playerInfo)) (k : Nat) (p : Parser σ) :
    I p (reconcile l k p).state := by
  induction l generalizing k p with
  | nil => exact hrefl p
  | cons a rest ih =>
    cases a with
    | none => exact ih (k + 1) p
    | some rp =>
      have hu : reconcile (some rp :: rest) k p
          = (reconcileSlot k rp >>= fun _ => reconcile rest (k + 1)) p := rfl
      rw [hu, Act.bind_eq]
      have h1 := hstep k rp p
      cases hs : reconcileSlot k rp p with
      | ret u p1 =>
        rw [hs] at h1
        exact htrans _ _ _ h1 (ih (k + 1) p1)
      | fault e p1 =>
        rw [hs] at h1
        exact h1

/-- What the loop body does, in all cases: it leaves the driver's own fields
but the registry and the event log alone; the registry gets at most the entry
of the raw player's user; the event log gets at most one event, a PlayerBind
event, and only together with a new registry entry. -/
theorem reconcileSlot_cases (k : Nat) (rp : playerInfo) (p : Parser σ) :
    (reconcileSlot k rp p).state.msgQueueClosed = p.msgQueueClosed ∧
    (reconcileSlot k rp p).state.cancelChan = p.cancelChan ∧
    (reconcileSlot k rp p).state.events = p.events ++ slotEvents k rp p ∧
    ((p.players k = none ∧ reconcileSlot k rp p = .ret () p ∧ slotEvents k rp p = []) ∨
     (∃ pl, p.players k = some pl ∧
        (reconcileSlot k rp p).state.connectedPlayers
          = registered p.connectedPlayers rp.UserID pl ∧
        (slotEvents k rp p = [] ∨
          (p.connectedPlayers rp.UserID = none ∧ rp.XUID ≠ 0 ∧
            (∃ s1, reconcileSlot k rp p = .ret () s1) ∧
            slotEvents k rp p
              = [Event.PlayerBindEvent pl (reconciled rp (p.heap pl))])))) := by
  unfold slotEvents
  cases hb : p.players k with
  | none =>
    rw [reconcileSlot_unbound k rp p hb]
    simp [Res.state]
  | some pl =>
    rw [reconcileSlot_bound k rp p pl hb]
    split
    · simp [Res.state]
    · refine ⟨rfl, rfl, ?_, Or.inr ⟨pl, rfl, rfl, ?_⟩⟩ <;> simp only [Res.state]
      · split
        · simp
        · simp
      · cases hn : p.connectedPlayers rp.UserID with
        | some v => left; simp
        | none =>
          by_cases hx : rp.XUID = 0
          · left; simp [hx]
          · right
            refine ⟨rfl, hx, ⟨_, rfl⟩, ?_⟩
            simp [hx]

theorem registered_grows (c : Int → Option Nat) (uid : Int) (pl : Nat) (u : Int) (a : Nat)
    (h : c u = some a) : registered c uid pl u = some a := by
  unfold registered
  split
  · rename_i hn
    have hne : u ≠ uid := by
      intro e
      rw [e] at h
      rw [h] at hn
      cases hn
    rw [Function.update_noteq hne]
    exact h
  · exact h

theorem reconcileSlot_grows (k : Nat) (rp : playerInfo) (p : Parser σ) :
    RegistryGrows p (reconcileSlot k rp p).state := by
  intro u a h
  rcases (reconcileSlot_cases k rp p).2.2.2 with ⟨-, h1, -⟩ | ⟨pl, -, h1, -⟩
  · rw [h1]; exact h
  · rw [h1]; exact registered_grows _ _ _ _ _ h

theorem reconcile_grows (l : List (Option playerInfo)) (k : Nat) (p : Parser σ) :
    RegistryGrows p (reconcile l k p).state :=
  reconcile_induct (I := RegistryGrows) (fun _ _ _ h => h)
    (fun _ _ _ h1 h2 u a h => h2 u a (h1 u a h)) reconcileSlot_grows l k p

theorem reconcile_keeps (l : List (Option playerInfo)) (k : Nat) (p : Parser σ) :
    (reconcile l k p).state.msgQueueClosed = p.msgQueueClosed ∧
    (reconcile l k p).state.cancelChan = p.cancelChan :=
  reconcile_induct
    (I := fun a b => b.msgQueueClosed = a.msgQueueClosed ∧ b.cancelChan = a.cancelChan)
    (fun _ => ⟨rfl, rfl⟩) (fun _ _ _ h1 h2 => ⟨h2.1.trans h1.1, h2.2.trans h1.2⟩)
    (fun k rp p => ⟨(reconcileSlot_cases k rp p).1, (reconcileSlot_cases k rp p).2.1⟩) l k p

/-- The event log after the loop is the one before it followed by the events
of the trace. -/
theorem reconcile_events (l : List (Option playerInfo)) (k : Nat) (p : Parser σ) :
    (reconcile l k p).state.events = p.events ++ (loopTrace l k p).map Prod.snd := by
  induction l generalizing k p with
  | nil => simp [reconcile, loopTrace, Act.pure_eq, Res.state]
  | cons a rest ih =>
    cases a with
    | none => exact ih (k + 1) p
    | some rp =>
      have hu : reconcile (some rp :: rest) k p
          = (reconcileSlot k rp >>= fun _ => reconcile rest (k + 1)) p := rfl
      have h1 := (reconcileSlot_cases k rp p).2.2.1
      rw [hu, Act.bind_eq]
      simp only [loopTrace, List.map_append, List.map_map]
      have hm : (List.map (Prod.snd ∘ fun e => (rp.UserID, e)) (slotEvents k rp p))
          = slotEvents k rp p := by
        simp [Function.comp_def]
      rw [hm]
      cases hs : reconcileSlot k rp p with
      | ret u p1 =>
        rw [hs] at h1
        simp only [Res.state] at h1
        dsimp only
        rw [ih (k + 1) p1, h1, List.append_assoc]
      | fault e p1 =>
        rw [hs] at h1
        simp only [Res.state] at h1
        simp [Res.state, h1]

/-- Every entry of the trace is a PlayerBind event for a user that was not in
the registry when the loop started and is in it, with the Player of the event,
when the loop stops; the Player's persistent identifier is not zero at the
dispatch. -/
theorem loopTrace_sound (l : List (Option playerInfo)) (k : Nat) (p : Parser σ) (u : Int)
    (e : Event) (h : (u, e) ∈ loopTrace l k p) :
    p.connectedPlayers u = none ∧
    ∃ a d, e = Event.PlayerBindEvent a d ∧ d.SteamID ≠ 0 ∧
      (reconcile l k p).state.connectedPlayers u = some a := by
  induction l generalizing k p with
  | nil => simp [loopTrace] at h
  | cons c rest ih =>
    cases c with
    | none => exact ih (k + 1) p h
    | some rp =>
      have hu : reconcile (some rp :: rest) k p
          = (reconcileSlot k rp >>= fun _ => reconcile rest (k + 1)) p := rfl
      rw [hu, Act.bind_eq]
      simp only [loopTrace, List.mem_append, List.mem_map] at h
      have hg := reconcileSlot_grows k rp p
      rcases h with ⟨e1, he1, heq⟩ | h
      · cases heq
        rcases (reconcileSlot_cases k rp p).2.2.2 with ⟨-, -, h0⟩ | ⟨pl, -, hreg, h0⟩
        · rw [h0] at he1; cases he1
        · rcases h0 with h0 | ⟨hnone, hx, ⟨s1, hs1⟩, h0⟩
          · rw [h0] at he1; cases he1
          · rw [h0] at he1
            simp only [List.mem_singleton] at he1
            refine ⟨hnone, pl, _, he1, ?_, ?_⟩
            · simpa [reconciled] using hx
            · rw [hs1] at hreg ⊢
              simp only [Res.state] at hreg
              dsimp only
              apply reconcile_grows rest (k + 1) s1
              rw [hreg]
              simp [registered, hnone]
      · cases hs : reconcileSlot k rp p with
        | fault e1 p1 => rw [hs] at h; simp at h
        | ret u1 p1 =>
          rw [hs] at h hg
          simp only [Res.state] at hg
          dsimp only at h ⊢
          obtain ⟨hn, a, d, hd⟩ := ih (k + 1) p1 h
          refine ⟨?_, a, d, hd⟩
          cases hp : p.connectedPlayers u with
          | none => rfl
          | some a0 =>
            rw [hg u a0 hp] at hn
            cases hn

/-- No user identifier occurs twice in the trace. -/
theorem loopTrace_nodup (l : List (Option playerInfo)) (k : Nat) (p : Parser σ) :
    ((loopTrace l k p).map Prod.fst).Nodup := by
  induction l generalizing k p with
  | nil => simp [loopTrace]
  | cons c rest ih =>
    cases c with
    | none => exact ih (k + 1) p
    | some rp =>
      simp only [loopTrace, List.map_append, List.map_map]
      rcases (reconcileSlot_cases k rp p).2.2.2 with ⟨-, -, h0⟩ | ⟨pl, -, hreg, h0⟩
      · rw [h0]
        simp only [List.map_nil, List.nil_append]
        cases hs : reconcileSlot k rp p with
        | fault e1 p1 => simp
        | ret u1 p1 => exact ih (k + 1) p1
      · rcases h0 with h0 | ⟨hnone, hx, ⟨s1, hs1⟩, h0⟩
        · rw [h0]
          simp only [List.map_nil, List.nil_append]
          cases hs : reconcileSlot k rp p with
          | fault e1 p1 => simp
          | ret u1 p1 => exact ih (k + 1) p1
        · rw [h0, hs1]
          simp only [List.map_cons, List.map_nil, Function.comp_apply, List.singleton_append,
            List.nodup_cons]
          refine ⟨?_, ih (k + 1) s1⟩
          intro hmem
          obtain ⟨ue, hue, hfst⟩ := List.mem_map.mp hmem
          have := (loopTrace_sound rest (k + 1) s1 ue.1 ue.2 hue).1
          rw [hfst] at this
          rw [hs1] at hreg
          simp only [Res.state] at hreg
          rw [hreg] at this
          simp [registered, hnone] at this

/-! ## Registry growth and the events of a tick -/

theorem parseFrame_keeps (x : Deps σ) (p : Parser σ) :
    (parseFrame x p).state.msgQueueClosed = p.msgQueueClosed ∧
    (parseFrame x p).state.cancelChan = p.cancelChan ∧
    (parseFrame x p).state.header = p.header :=
  (parseFrame_within x
    (I := fun (a b : Parser σ) =>
      b.msgQueueClosed = a.msgQueueClosed ∧ b.cancelChan = a.cancelChan ∧ b.header = a.header)
    (P := fun _ => True) (fun _ => ⟨rfl, rfl, rfl⟩)
    (fun _ _ _ h1 h2 => ⟨h2.1.trans h1.1, h2.2.1.trans h1.2.1, h2.2.2.trans h1.2.2⟩)
    (fun _ _ => ⟨rfl, rfl, rfl⟩) (fun _ _ _ => ⟨rfl, rfl, rfl⟩) (fun _ _ => ⟨rfl, rfl, rfl⟩)
    (fun _ _ => ⟨rfl, rfl, rfl⟩) (fun _ _ => ⟨rfl, rfl, rfl⟩) (fun _ _ => trivial)
    (fun _ => trivial) (fun _ => trivial) p).1

/-- The three ways a call of `ParseNextFrame` can go. -/
theorem ParseNextFrame_cases (x : Deps σ) (p : Parser σ) :
    (p.header = none ∧ ParseNextFrame x p = .fault .headerNotParsed p) ∨
    (p.header ≠ none ∧ ∃ e q, parseFrame x p = .fault e q ∧
      ParseNextFrame x p = .fault e q) ∨
    (p.header ≠ none ∧ ∃ b q, parseFrame x p = .ret b q ∧
      ((∃ e s0, reconcile q.rawPlayers 0 q = .fault e s0 ∧
          ParseNextFrame x p = .fault e s0) ∨
       (∃ s0, reconcile q.rawPlayers 0 q = .ret () s0 ∧
          ((b = true ∧ ParseNextFrame x p = .ret true
              { s0 with events := s0.events ++ [Event.TickDoneEvent] }) ∨
           (b = false ∧ s0.msgQueueClosed = true ∧
              ParseNextFrame x p = .fault .closeOfClosedChannel
                { s0 with events := s0.events ++ [Event.TickDoneEvent] }) ∨
           (b = false ∧ s0.msgQueueClosed = false ∧
              ParseNextFrame x p = .ret false
                { s0 with events := s0.events ++ [Event.TickDoneEvent],
                          msgQueueClosed := true }))))) := by
  by_cases hh : p.header = none
  · exact Or.inl ⟨hh, ParseNextFrame_no_header x p hh⟩
  · right
    rw [ParseNextFrame_eq x p hh]
    cases hpf : parseFrame x p with
    | fault e q => exact Or.inl ⟨hh, e, q, rfl, rfl⟩
    | ret b q =>
      refine Or.inr ⟨hh, b, q, rfl, ?_⟩
      dsimp only
      cases hrc : reconcile q.rawPlayers 0 q with
      | fault e s0 => exact Or.inl ⟨e, s0, rfl, rfl⟩
      | ret u s0 =>
        refine Or.inr ⟨s0, rfl, ?_⟩
        dsimp only
        cases b
        · by_cases hq : s0.msgQueueClosed = true
          · exact Or.inr (Or.inl ⟨rfl, hq, by simp [hq]⟩)
          · exact Or.inr (Or.inr ⟨rfl, by simpa using hq, by simp [hq]⟩)
        · exact Or.inl ⟨rfl, by simp⟩

theorem ParseNextFrame_grows (x : Deps σ) (p : Parser σ) :
    RegistryGrows p (ParseNextFrame x p).state := by
  intro u a h
  rcases ParseNextFrame_cases x p with ⟨-, h1⟩ | ⟨-, e, q, hpf, h1⟩ | ⟨-, b, q, hpf, h1⟩
  · rw [h1]; exact h
  · rw [h1]
    have := (parseFrame_events x p).2
    rw [hpf] at this
    simp only [Res.state] at this ⊢
    rw [this]; exact h
  · have hq := (parseFrame_events x p).2
    rw [hpf] at hq
    simp only [Res.state] at hq
    have hg := reconcile_grows q.rawPlayers 0 q u a (by rw [hq]; exact h)
    rcases h1 with ⟨e, s0, hrc, h1⟩ | ⟨s0, hrc, h1⟩
    · rw [h1]; rw [hrc] at hg; exact hg
    · rw [hrc] at hg
      rcases h1 with ⟨-, h1⟩ | ⟨-, -, h1⟩ | ⟨-, -, h1⟩ <;> (rw [h1]; exact hg)

theorem runFrames_grows (x : Deps σ) (n : Nat) (p : Parser σ) :
    RegistryGrows p (runFrames x n p) := by
  induction n generalizing p with
  | zero => exact fun _ _ h => h
  | succ n ih =>
    intro u a h
    have h1 := ParseNextFrame_grows x p u a h
    unfold runFrames
    cases hs : ParseNextFrame x p with
    | ret b s =>
      rw [hs] at h1
      exact ih s u a h1
    | fault e s =>
      rw [hs] at h1
      exact h1

/-- C17: a user identifier that maps to a Player before a call of
`ParseNextFrame` maps to the same Player when the call stops, by return or by
panic; and so it does after any number of calls in a row: no entry of the
registry is ever removed or overwritten. -/
theorem registry_only_grows (x : Deps σ) (p : Parser σ) (u : Int) (a : Nat)
    (h : p.connectedPlayers u = some a) :
    (ParseNextFrame x p).state.connectedPlayers u = some a ∧
    ∀ n, (runFrames x n p).connectedPlayers u = some a :=
  ⟨ParseNextFrame_grows x p u a h, fun n => runFrames_grows x n p u a h⟩

/-- C17, at a concrete input: user 1, registered by a first frame, is still
registered to the same Player after a second frame that registers user 2. -/
theorem registry_only_grows_witness :
    (ParseNextFrame joinDeps twoFramesParser).state.connectedPlayers 1 = some 0 ∧
    (ParseNextFrame joinDeps
      (ParseNextFrame joinDeps twoFramesParser).state).state.connectedPlayers 1 = some 0 ∧
    (ParseNextFrame joinDeps
      (ParseNextFrame joinDeps twoFramesParser).state).state.connectedPlayers 2 = some 1 :=
  ⟨by decide,
   (registry_only_grows joinDeps (ParseNextFrame joinDeps twoFramesParser).state 1 0
     (by decide)).1,
   by decide⟩

/-- C14: a call of `ParseNextFrame` that returns appends to the event log zero
or more PlayerBind events, those of the reconciliation loop, and then one
TickDone event, which is the only TickDone event it appends. -/
theorem tick_events (x : Deps σ) (p s : Parser σ) (b : Bool)
    (h : ParseNextFrame x p = .ret b s) :
    s.events = p.events ++ (frameTrace x p).map Prod.snd ++ [Event.TickDoneEvent] ∧
    (∀ e ∈ (frameTrace x p).map Prod.snd, ∃ a d, e = Event.PlayerBindEvent a d) ∧
    ((frameTrace x p).map Prod.snd ++ [Event.TickDoneEvent]).count Event.TickDoneEvent = 1 := by
  have hbind : ∀ e ∈ (frameTrace x p).map Prod.snd, ∃ a d, e = Event.PlayerBindEvent a d := by
    intro e he
    obtain ⟨ue, hue, rfl⟩ := List.mem_map.mp he
    unfold frameTrace at hue
    split at hue
    · cases hue
    · cases hpf : parseFrame x p with
      | fault e1 q => rw [hpf] at hue; cases hue
      | ret b1 q =>
        rw [hpf] at hue
        obtain ⟨-, a, d, hd, -⟩ := loopTrace_sound q.rawPlayers 0 q ue.1 ue.2 hue
        exact ⟨a, d, hd⟩
  refine ⟨?_, hbind, ?_⟩
  · rcases ParseNextFrame_cases x p with ⟨-, h1⟩ | ⟨-, e, q, hpf, h1⟩ | ⟨hh, b1, q, hpf, h1⟩
    · rw [h1] at h; cases h
    · rw [h1] at h; cases h
    · have hq := (parseFrame_events x p).1
      rw [hpf] at hq
      simp only [Res.state] at hq
      have hft : frameTrace x p = loopTrace q.rawPlayers 0 q := by
        unfold frameTrace
        rw [hpf]
        simp [hh]
      have hev := reconcile_events q.rawPlayers 0 q
      rcases h1 with ⟨e, s0, hrc, h1⟩ | ⟨s0, hrc, h1⟩
      · rw [h1] at h; cases h
      · rw [hrc] at hev
        simp only [Res.state] at hev
        rcases h1 with ⟨-, h1⟩ | ⟨-, -, h1⟩ | ⟨-, -, h1⟩
        · rw [h1] at h; cases h
          simp only [hev, hq, hft]
        · rw [h1] at h; cases h
        · rw [h1] at h; cases h
          simp only [hev, hq, hft]
  · rw [List.count_append]
    have h0 : ((frameTrace x p).map Prod.snd).count Event.TickDoneEvent = 0 := by
      rw [List.count_eq_zero]
      intro hmem
      obtain ⟨a, d, hd⟩ := hbind _ hmem
      cases hd
    rw [h0]
    rfl

/-- C14, at a concrete input: a frame with one PlayerBind event, a stop frame
with none. -/
theorem tick_events_witness :
    (ParseNextFrame exampleDeps aliveSlotParser).state.events
      = [Event.PlayerBindEvent 0 (reconciled rawPlayerOne (aliveSlotParser.heap 0)),
         Event.TickDoneEvent] ∧
    (ParseNextFrame exampleDeps aliveNoSlotParser).state.events = [Event.TickDoneEvent] :=
  ⟨((tick_events exampleDeps aliveSlotParser (ParseNextFrame exampleDeps aliveSlotParser).state
      true rfl).1).trans (by decide),
   by decide⟩

/-! ## The completion signal -/

/-- What a call of `ParseNextFrame` does to the completion signal of the message
queue. -/
theorem ParseNextFrame_closed (x : Deps σ) (p : Parser σ) :
    (∀ b s, ParseNextFrame x p = .ret b s →
      (b = true → s.msgQueueClosed = p.msgQueueClosed) ∧
      (b = false → p.msgQueueClosed = false ∧ s.msgQueueClosed = true)) ∧
    (∀ e s, ParseNextFrame x p = .fault e s → s.msgQueueClosed = p.msgQueueClosed) := by
  rcases ParseNextFrame_cases x p with ⟨-, h1⟩ | ⟨-, e, q, hpf, h1⟩ | ⟨-, b, q, hpf, h1⟩
  · rw [h1]
    exact ⟨fun b s h => (by cases h), fun e s h => by cases h; rfl⟩
  · rw [h1]
    have hq := (parseFrame_keeps x p).1
    rw [hpf] at hq
    exact ⟨fun b s h => (by cases h), fun e s h => by cases h; exact hq⟩
  · have hq := (parseFrame_keeps x p).1
    rw [hpf] at hq
    simp only [Res.state] at hq
    have hk := (reconcile_keeps q.rawPlayers 0 q).1
    rcases h1 with ⟨e, s0, hrc, h1⟩ | ⟨s0, hrc, h1⟩
    · rw [h1]
      rw [hrc] at hk
      exact ⟨fun b s h => (by cases h), fun e s h => by cases h; exact hk.trans hq⟩
    · rw [hrc] at hk
      simp only [Res.state] at hk
      rcases h1 with ⟨-, h1⟩ | ⟨-, hc, h1⟩ | ⟨-, hc, h1⟩
      · rw [h1]
        refine ⟨fun b s h => ?_, fun e s h => by cases h⟩
        cases h
        exact ⟨fun _ => hk.trans hq, fun h => by cases h⟩
      · rw [h1]
        exact ⟨fun b s h => (by cases h), fun e s h => by cases h; exact hk.trans hq⟩
      · rw [h1]
        refine ⟨fun b s h => ?_, fun e s h => by cases h⟩
        cases h
        refine ⟨fun h => (by cases h), fun _ => ⟨?_, rfl⟩⟩
        rw [← hq, ← hk]
        exact hc

/-- What a run of `ParseToEnd` does to the completion signal. -/
theorem ParseToEnd_closed (x : Deps σ) (fuel : Nat) (p : Parser σ) :
    (∀ err s, ParseToEnd x fuel p = some (.ret (some err) s) →
      err = cancelled ∧ s.msgQueueClosed = p.msgQueueClosed) ∧
    (∀ s, ParseToEnd x fuel p = some (.ret none s) →
      p.msgQueueClosed = false ∧ s.msgQueueClosed = true) ∧
    (∀ e s, ParseToEnd x fuel p = some (.fault e s) →
      s.msgQueueClosed = p.msgQueueClosed) := by
  induction fuel generalizing p with
  | zero =>
    simp only [ParseToEnd]
    exact ⟨fun _ _ h => (by cases h), fun _ h => (by cases h), fun _ _ h => by cases h⟩
  | succ fuel ih =>
    unfold ParseToEnd
    by_cases hc : 0 < p.cancelChan
    · simp only [hc, ↓reduceIte]
      refine ⟨fun err s h => ?_, fun s h => (by cases h), fun e s h => by cases h⟩
      cases h
      exact ⟨rfl, rfl⟩
    · simp only [hc, ↓reduceIte]
      have hcl := ParseNextFrame_closed x p
      cases hs : ParseNextFrame x p with
      | fault e s1 =>
        dsimp only
        refine ⟨fun err s h => (by cases h), fun s h => (by cases h), fun e s h => ?_⟩
        cases h
        exact hcl.2 _ _ hs
      | ret b s1 =>
        dsimp only
        cases b
        · simp only [Bool.not_false, ↓reduceIte]
          refine ⟨fun err s h => (by cases h), fun s h => ?_, fun e s h => by cases h⟩
          cases h
          exact (hcl.1 _ _ hs).2 rfl
        · simp only [Bool.not_true, Bool.false_eq_true, ↓reduceIte]
          have h1 := (hcl.1 _ _ hs).1 rfl
          obtain ⟨i1, i2, i3⟩ := ih s1
          refine ⟨fun err s h => ?_, fun s h => ?_, fun e s h => ?_⟩
          · exact ⟨(i1 err s h).1, (i1 err s h).2.trans h1⟩
          · exact ⟨h1 ▸ (i2 s h).1, (i2 s h).2⟩
          · exact (i3 e s h).trans h1

/-- C13: the completion signal of the message queue.  A call of
`ParseNextFrame` that returns false (which it does for a stop frame only) finds
the queue open and closes it; a call that returns true, or that panics, leaves
the signal as it was.  Hence a run of `ParseToEnd` that returns an error
returns the cancellation error and has not closed the queue, a run that
returns nil started with the queue open and has closed it, once, in its last
call; and a run that panics has not closed it.  Closing a closed queue is a
panic, so the signal is never given twice. -/
theorem completion_signal (x : Deps σ) (p : Parser σ) :
    (∀ b s, ParseNextFrame x p = .ret b s →
      (b = false ↔ tagAt p = x.dcStop) ∧
      (b = true → s.msgQueueClosed = p.msgQueueClosed) ∧
      (b = false → p.msgQueueClosed = false ∧ s.msgQueueClosed = true)) ∧
    (∀ e s, ParseNextFrame x p = .fault e s → s.msgQueueClosed = p.msgQueueClosed) ∧
    (∀ fuel err s, ParseToEnd x fuel p = some (.ret (some err) s) →
      err = cancelled ∧ s.msgQueueClosed = p.msgQueueClosed) ∧
    (∀ fuel s, ParseToEnd x fuel p = some (.ret none s) →
      p.msgQueueClosed = false ∧ s.msgQueueClosed = true) ∧
    (∀ fuel e s, ParseToEnd x fuel p = some (.fault e s) →
      s.msgQueueClosed = p.msgQueueClosed) := by
  refine ⟨fun b s h => ?_, (ParseNextFrame_closed x p).2,
    fun fuel => (ParseToEnd_closed x fuel p).1, fun fuel => (ParseToEnd_closed x fuel p).2.1,
    fun fuel => (ParseToEnd_closed x fuel p).2.2⟩
  obtain ⟨q, hq⟩ := ParseNextFrame_returns x p s b h
  exact ⟨parseFrame_returns x p q b hq, (ParseNextFrame_closed x p).1 b s h⟩


/-- C13, at a concrete input: a stop frame with the queue open: the call
returns false and closes the queue. -/
theorem completion_signal_witness :
    tagAt aliveNoSlotParser = exampleDeps.dcStop ∧
    aliveNoSlotParser.msgQueueClosed = false ∧
    (ParseNextFrame exampleDeps aliveNoSlotParser).state.msgQueueClosed = true :=
  ⟨((completion_signal exampleDeps aliveNoSlotParser).1 false
      (ParseNextFrame exampleDeps aliveNoSlotParser).state rfl).1.mp rfl,
   ((completion_signal exampleDeps aliveNoSlotParser).1 false
      (ParseNextFrame exampleDeps aliveNoSlotParser).state rfl).2.2 rfl⟩

/-! ## Where registry entries come from -/

theorem registered_new (c : Int → Option Nat) (uid : Int) (pl : Nat) (u : Int) (a : Nat)
    (h : c u = none) (hr : registered c uid pl u = some a) : u = uid ∧ a = pl := by
  unfold registered at hr
  split at hr
  · by_cases hu : u = uid
    · subst hu
      rw [Function.update_same] at hr
      cases hr
      exact ⟨rfl, rfl⟩
    · rw [Function.update_noteq hu, h] at hr
      cases hr
  · rw [h] at hr
    cases hr

/-- A registry entry that the loop adds comes from a slot that holds a raw
player with that user identifier and has the registered Player bound. -/
theorem reconcile_origin (l : List (Option playerInfo)) (k : Nat) (p : Parser σ) (u : Int)
    (a : Nat) (hnew : p.connectedPlayers u = none)
    (hreg : (reconcile l k p).state.connectedPlayers u = some a) :
    ∃ j rp, l[j]? = some (some rp) ∧ rp.UserID = u ∧ p.players (k + j) = some a := by
  induction l generalizing k p with
  | nil => simp [reconcile, Act.pure_eq, Res.state, hnew] at hreg
  | cons c rest ih =>
    cases c with
    | none =>
      obtain ⟨j, rp, h1, h2, h3⟩ := ih (k + 1) p hnew hreg
      exact ⟨j + 1, rp, by simpa using h1, h2, by rw [← h3]; congr 1; omega⟩
    | some rp0 =>
      have hu : reconcile (some rp0 :: rest) k p
          = (reconcileSlot k rp0 >>= fun _ => reconcile rest (k + 1)) p := rfl
      rw [hu, Act.bind_eq] at hreg
      have hpl := (reconcileSlot_reconciles k rp0 p).1
      have hc := (reconcileSlot_cases k rp0 p).2.2.2
      cases h1 : (reconcileSlot k rp0 p).state.connectedPlayers u with
      | some a1 =>
        have hfin : a1 = a := by
          cases hs : reconcileSlot k rp0 p with
          | fault e p1 =>
            rw [hs] at hreg h1
            simp only [Res.state] at hreg h1
            rw [h1] at hreg
            exact Option.some.inj hreg
          | ret v p1 =>
            rw [hs] at hreg h1
            simp only [Res.state] at h1
            dsimp only at hreg
            rw [reconcile_grows rest (k + 1) p1 u a1 h1] at hreg
            exact Option.some.inj hreg
        subst hfin
        rcases hc with ⟨-, h0, -⟩ | ⟨pl, hb, hr, -⟩
        · rw [h0] at h1
          simp only [Res.state] at h1
          rw [hnew] at h1
          cases h1
        · rw [hr] at h1
          obtain ⟨e1, e2⟩ := registered_new _ _ _ _ _ hnew h1
          exact ⟨0, rp0, by simp, e1.symm, by rw [e2]; exact hb⟩
      | none =>
        cases hs : reconcileSlot k rp0 p with
        | fault e p1 =>
          rw [hs] at hreg h1
          simp only [Res.state] at hreg h1
          rw [h1] at hreg
          cases hreg
        | ret v p1 =>
          rw [hs] at hreg h1 hpl
          simp only [Res.state] at h1 hpl
          dsimp only at hreg
          obtain ⟨j, rp, i1, i2, i3⟩ := ih (k + 1) p1 h1 hreg
          exact ⟨j + 1, rp, by simpa using i1, i2, by rw [← i3, hpl]; congr 1; omega⟩

/-- C12 as stated fails: user 1 is in slot 0 with a bound Player and XUID 0,
and is not in the registry; the call of `ParseNextFrame` returns, and after
it the registry holds user 1, while the only raw player still has XUID 0. -/
theorem registry_zero_xuid_counterexample :
    zeroXuidParser.connectedPlayers 1 = none ∧
    (ParseNextFrame exampleDeps zeroXuidParser).value = some true ∧
    (ParseNextFrame exampleDeps zeroXuidParser).state.connectedPlayers 1 = some 0 ∧
    (ParseNextFrame exampleDeps zeroXuidParser).state.rawPlayers
      = [some { rawPlayerOne with XUID := 0 }] ∧
    (parseFrame exampleDeps zeroXuidParser).state.rawPlayers
      = [some { rawPlayerOne with XUID := 0 }] ∧
    ({ rawPlayerOne with XUID := 0 } : playerInfo).XUID = 0 := by
  decide

/-- C12, amended: a registry entry that is new after a call of
`ParseNextFrame` comes from a slot of the frame just parsed that holds a raw
player with that user identifier and has the registered Player bound at its
index; the persistent identifier of the raw player plays no part. -/
theorem registry_entry_origin (x : Deps σ) (p : Parser σ) (u : Int) (a : Nat)
    (hnew : p.connectedPlayers u = none)
    (hreg : (ParseNextFrame x p).state.connectedPlayers u = some a) :
    ∃ b q k rp, parseFrame x p = .ret b q ∧ q.rawPlayers[k]? = some (some rp) ∧
      rp.UserID = u ∧ q.players k = some a := by
  rcases ParseNextFrame_cases x p with ⟨-, h1⟩ | ⟨-, e, q, hpf, h1⟩ | ⟨-, b, q, hpf, h1⟩
  · rw [h1] at hreg
    simp only [Res.state] at hreg
    rw [hnew] at hreg
    cases hreg
  · have hq := (parseFrame_events x p).2
    rw [hpf] at hq
    rw [h1] at hreg
    simp only [Res.state] at hreg hq
    rw [hq, hnew] at hreg
    cases hreg
  · have hq := (parseFrame_events x p).2
    rw [hpf] at hq
    simp only [Res.state] at hq
    have hloop : (reconcile q.rawPlayers 0 q).state.connectedPlayers u = some a := by
      rcases h1 with ⟨e, s0, hrc, h1⟩ | ⟨s0, hrc, h1⟩
      · rw [h1] at hreg; rw [hrc]; exact hreg
      · rw [hrc]
        rcases h1 with ⟨-, h1⟩ | ⟨-, -, h1⟩ | ⟨-, -, h1⟩ <;> (rw [h1] at hreg; exact hreg)
    obtain ⟨j, rp, i1, i2, i3⟩ := reconcile_origin q.rawPlayers 0 q u a (by rw [hq]; exact hnew) hloop
    exact ⟨b, q, j, rp, hpf, i1, i2, by rw [← i3]; congr 1; omega⟩

/-- C12 amended, at a concrete input: user 1 with XUID 0 in slot 0 gets its
registry entry from slot 0 of the frame. -/
theorem registry_entry_origin_witness :
    zeroXuidParser.connectedPlayers 1 = none ∧
    (ParseNextFrame exampleDeps zeroXuidParser).state.connectedPlayers 1 = some 0 ∧
    ∃ b q k rp, parseFrame exampleDeps zeroXuidParser = .ret b q ∧
      q.rawPlayers[k]? = some (some rp) ∧ rp.UserID = 1 ∧ q.players k = some 0 :=
  ⟨by decide, by decide,
   registry_entry_origin exampleDeps zeroXuidParser 1 0 (by decide) (by decide)⟩

/-! ## What the reconciliation copies -/

/-- The loop body writes to no Player but the one bound at its slot. -/
theorem reconcileSlot_heap_other (k : Nat) (rp : playerInfo) (p : Parser σ) (a : Nat)
    (h : p.players k ≠ some a) : (reconcileSlot k rp p).state.heap a = p.heap a := by
  cases hb : p.players k with
  | none => rw [reconcileSlot_unbound k rp p hb]; rfl
  | some pl =>
    have hne : a ≠ pl := by
      intro e
      rw [hb, e] at h
      exact h rfl
    rw [reconcileSlot_bound k rp p pl hb]
    split
    · simp only [Res.state]
      exact Function.update_noteq hne _ _
    · simp only [Res.state]
      exact Function.update_noteq hne _ _

/-- A Player bound at no slot that holds a raw player is not written by the
loop. -/
theorem reconcile_heap_other (l : List (Option playerInfo)) (k : Nat) (p : Parser σ) (a : Nat)
    (h : ∀ j rp, l[j]? = some (some rp) → p.players (k + j) ≠ some a) :
    (reconcile l k p).state.heap a = p.heap a := by
  induction l generalizing k p with
  | nil => rfl
  | cons c rest ih =>
    cases c with
    | none =>
      refine ih (k + 1) p fun j rp hj => ?_
      have := h (j + 1) rp (by simpa using hj)
      rwa [show k + (j + 1) = k + 1 + j by omega] at this
    | some rp0 =>
      have hu : reconcile (some rp0 :: rest) k p
          = (reconcileSlot k rp0 >>= fun _ => reconcile rest (k + 1)) p := rfl
      rw [hu, Act.bind_eq]
      have h0 := reconcileSlot_heap_other k rp0 p a (h 0 rp0 (by simp))
      have hpl := (reconcileSlot_reconciles k rp0 p).1
      cases hs : reconcileSlot k rp0 p with
      | fault e p1 =>
        rw [hs] at h0
        exact h0
      | ret v p1 =>
        rw [hs] at h0 hpl
        simp only [Res.state] at h0 hpl
        dsimp only
        rw [← h0]
        refine ih (k + 1) p1 fun j rp hj => ?_
        have := h (j + 1) rp (by simpa using hj)
        rw [hpl]
        rwa [show k + (j + 1) = k + 1 + j by omega] at this

/-- A user identifier carried by no slot that holds a raw player and has a
bound Player keeps its registry entry, or its absence, through the loop. -/
theorem reconcile_registry_other (l : List (Option playerInfo)) (k : Nat) (p : Parser σ)
    (u : Int)
    (h : ∀ j rp, l[j]? = some (some rp) → p.players (k + j) ≠ none → rp.UserID ≠ u) :
    (reconcile l k p).state.connectedPlayers u = p.connectedPlayers u := by
  cases hp : p.connectedPlayers u with
  | some a => exact reconcile_grows l k p u a hp
  | none =>
    cases hf : (reconcile l k p).state.connectedPlayers u with
    | none => rfl
    | some a =>
      obtain ⟨j, rp, h1, h2, h3⟩ := reconcile_origin l k p u a hp hf
      exact absurd h2 (h j rp h1 (by rw [h3]; exact fun e => by cases e))

/-- After a run of the loop that returns, the Player bound at a slot that holds
a raw player carries that raw player's name, persistent identifier and bot
flag, when no later slot with a raw player has the same Player bound. -/
theorem reconcile_copied (l : List (Option playerInfo)) (k : Nat) (p s : Parser σ)
    (h : reconcile l k p = .ret () s) (j : Nat) (rp : playerInfo) (a : Nat)
    (hj : l[j]? = some (some rp)) (hb : p.players (k + j) = some a)
    (hlast : ∀ i rp1, j < i → l[i]? = some (some rp1) → p.players (k + i) ≠ some a) :
    (s.heap a).Name = rp.Name ∧ (s.heap a).SteamID = rp.XUID ∧
    (s.heap a).IsBot = rp.IsFakePlayer := by
  induction l generalizing k p j with
  | nil => simp at hj
  | cons c rest ih =>
    cases c with
    | none =>
      cases j with
      | zero => simp at hj
      | succ j =>
        have hj1 : rest[j]? = some (some rp) := by simpa using hj
        refine ih (k + 1) p h j hj1 (by rw [← hb]; congr 1; omega) fun i rp1 hi hri => ?_
        have := hlast (i + 1) rp1 (by omega) (by simpa using hri)
        rwa [show k + (i + 1) = k + 1 + i by omega] at this
    | some rp0 =>
      have hu : reconcile (some rp0 :: rest) k p
          = (reconcileSlot k rp0 >>= fun _ => reconcile rest (k + 1)) p := rfl
      rw [hu, Act.bind_eq] at h
      have hpl := (reconcileSlot_reconciles k rp0 p).1
      cases hs : reconcileSlot k rp0 p with
      | fault e p1 => rw [hs] at h; cases h
      | ret v p1 =>
        rw [hs] at h hpl
        simp only [Res.state] at hpl
        dsimp only at h
        cases j with
        | succ j =>
          have hj1 : rest[j]? = some (some rp) := by simpa using hj
          refine ih (k + 1) p1 h j hj1 (by rw [hpl, ← hb]; congr 1; omega) fun i rp1 hi hri => ?_
          have := hlast (i + 1) rp1 (by omega) (by simpa using hri)
          rw [hpl]
          rwa [show k + (i + 1) = k + 1 + i by omega] at this
        | zero =>
          have hrp : rp0 = rp := by simpa using hj
          subst hrp
          have hb0 : p.players k = some a := by simpa using hb
          have hrest := reconcile_heap_other rest (k + 1) p1 a (fun i rp1 hri => by
            have := hlast (i + 1) rp1 (by omega) (by simpa using hri)
            rw [hpl]
            rwa [show k + (i + 1) = k + 1 + i by omega] at this)
          rw [h] at hrest
          simp only [Res.state] at hrest
          rw [hrest]
          rw [reconcileSlot_bound k rp0 p a hb0] at hs
          split at hs
          · cases hs
          · cases hs
            simp [reconciled]

/-- C18: the reconciliation of `ParseNextFrame`, run on the state `q` that
`parseFrame` leaves.  When the call returns, the Player bound at a slot that
holds a raw player has that raw player's Name, XUID (as SteamID) and
IsFakePlayer (as IsBot), if no later slot with a raw player has the same
Player bound, as is the case when distinct slots have distinct Players.  A
Player that is bound at no slot holding a raw player keeps every field, and a
user identifier that no slot with a raw player and a bound Player carries
keeps its registry entry or its absence; so slots without a raw player or
without a bound Player change nothing.  No Player's EntityID or Position
changes.  The last three hold also when the loop panics. -/
theorem reconciliation_copies (x : Deps σ) (p q : Parser σ) (b : Bool)
    (hh : p.header ≠ none) (hpf : parseFrame x p = .ret b q) :
    (∀ s, ParseNextFrame x p = .ret b s → ∀ k rp a,
      q.rawPlayers[k]? = some (some rp) → q.players k = some a →
      (∀ i rp1, k < i → q.rawPlayers[i]? = some (some rp1) → q.players i ≠ some a) →
      (s.heap a).Name = rp.Name ∧ (s.heap a).SteamID = rp.XUID ∧
      (s.heap a).IsBot = rp.IsFakePlayer) ∧
    (∀ a, (∀ k rp, q.rawPlayers[k]? = some (some rp) → q.players k ≠ some a) →
      (ParseNextFrame x p).state.heap a = q.heap a) ∧
    (∀ u, (∀ k rp, q.rawPlayers[k]? = some (some rp) → q.players k ≠ none → rp.UserID ≠ u) →
      (ParseNextFrame x p).state.connectedPlayers u = p.connectedPlayers u) ∧
    (∀ a, ((ParseNextFrame x p).state.heap a).EntityID = (q.heap a).EntityID ∧
      ((ParseNextFrame x p).state.heap a).Position = (q.heap a).Position) := by
  obtain ⟨hheap, hreg, hret⟩ := ParseNextFrame_heap x p q b hh hpf
  have hq := (parseFrame_events x p).2
  rw [hpf] at hq
  simp only [Res.state] at hq
  refine ⟨fun s hs k rp a hk ha hlast => ?_, fun a ha => ?_, fun u hu => ?_, fun a => ?_⟩
  · obtain ⟨s0, hrc, hs0, -, -⟩ := hret s hs
    rw [hs0]
    exact reconcile_copied q.rawPlayers 0 q s0 hrc k rp a hk (by rw [Nat.zero_add]; exact ha)
      (fun i rp1 hi hri => by rw [Nat.zero_add]; exact hlast i rp1 hi hri)
  · rw [hheap]
    exact reconcile_heap_other q.rawPlayers 0 q a
      (fun k rp hk => by rw [Nat.zero_add]; exact ha k rp hk)
  · rw [hreg, ← hq]
    exact reconcile_registry_other q.rawPlayers 0 q u
      (fun k rp hk => by rw [Nat.zero_add]; exact hu k rp hk)
  · rw [hheap]
    have := (reconcile_reconciles q.rawPlayers 0 q).2.2 a
    exact ⟨this.2.2.1, this.2.1⟩

/-- C18, at a concrete input: the packet frame delivers raw players for slots
0 and 1 and binds Players 0 and 1 there; after the call Player 1 carries the
name, identifier and bot flag of the raw player in slot 1, and Player 5, bound
nowhere, is as it was. -/
theorem reconciliation_copies_witness :
    (ParseNextFrame joinDeps twoFramesParser).state.header ≠ none ∧
    ((ParseNextFrame joinDeps
      (ParseNextFrame joinDeps twoFramesParser).state).state.heap 1).Name = rawPlayerTwo.Name ∧
    ((ParseNextFrame joinDeps
      (ParseNextFrame joinDeps twoFramesParser).state).state.heap 1).SteamID = 9 ∧
    ((ParseNextFrame joinDeps
      (ParseNextFrame joinDeps twoFramesParser).state).state.heap 1).IsBot = true ∧
    (ParseNextFrame joinDeps
      (ParseNextFrame joinDeps twoFramesParser).state).state.heap 5 = zeroPlayer :=
  ⟨by decide, by decide, by decide, by decide,
   ((reconciliation_copies joinDeps (ParseNextFrame joinDeps twoFramesParser).state
      (parseFrame joinDeps (ParseNextFrame joinDeps twoFramesParser).state).state true
      (by decide) rfl).2.1 5
      (fun k rp _ h => by
        have hp : (parseFrame joinDeps (ParseNextFrame joinDeps twoFramesParser).state).state.players
            = fun k => if k = 0 then some 0 else if k = 1 then some 1 else none := rfl
        rw [hp] at h
        revert h
        dsimp only
        split_ifs <;> simp)).trans (by decide)⟩

/-! ## PlayerBind events over a session -/

/-- The trace of a call of `ParseNextFrame` is that of its loop, when the
header is set and `parseFrame` returns. -/
theorem frameTrace_eq (x : Deps σ) (p q : Parser σ) (b : Bool) (hh : p.header ≠ none)
    (hpf : parseFrame x p = .ret b q) : frameTrace x p = loopTrace q.rawPlayers 0 q := by
  unfold frameTrace
  rw [hpf]
  simp [hh]

/-- A call of `ParseNextFrame` that does not get to its loop has no trace. -/
theorem frameTrace_none (x : Deps σ) (p : Parser σ)
    (h : p.header = none ∨ ∃ e q, parseFrame x p = .fault e q) : frameTrace x p = [] := by
  unfold frameTrace
  rcases h with h | ⟨e, q, h⟩
  · simp [h]
  · rw [h]
    simp

/-- The events of one call of `ParseNextFrame`, return or panic: those of the
trace, then at most the TickDone event; and the registry after the call is the
one the loop leaves. -/
theorem ParseNextFrame_trace (x : Deps σ) (p : Parser σ) :
    (∃ tail, (ParseNextFrame x p).state.events
        = p.events ++ ((frameTrace x p).map Prod.snd ++ tail) ∧
      tail.filter Event.isBind = []) ∧
    (∀ u e, (u, e) ∈ frameTrace x p →
      p.connectedPlayers u = none ∧
      ∃ a d, e = Event.PlayerBindEvent a d ∧ d.SteamID ≠ 0 ∧
        (ParseNextFrame x p).state.connectedPlayers u = some a) ∧
    ((frameTrace x p).map Prod.fst).Nodup := by
  rcases ParseNextFrame_cases x p with ⟨hh, h1⟩ | ⟨-, e, q, hpf, h1⟩ | ⟨hh, b, q, hpf, h1⟩
  · rw [frameTrace_none x p (Or.inl hh), h1]
    exact ⟨⟨[], by simp [Res.state], rfl⟩, fun u e h => (by cases h), List.nodup_nil⟩
  · have hq := (parseFrame_events x p).1
    rw [hpf] at hq
    simp only [Res.state] at hq
    rw [frameTrace_none x p (Or.inr ⟨e, q, hpf⟩), h1]
    exact ⟨⟨[], by simp [Res.state, hq], rfl⟩, fun u e h => (by cases h), List.nodup_nil⟩
  · have hq := parseFrame_events x p
    rw [hpf] at hq
    simp only [Res.state] at hq
    obtain ⟨hqe, hqc⟩ := hq
    rw [frameTrace_eq x p q b hh hpf]
    have hev := reconcile_events q.rawPlayers 0 q
    have hstate : (ParseNextFrame x p).state.connectedPlayers
          = (reconcile q.rawPlayers 0 q).state.connectedPlayers ∧
        ∃ tail, (ParseNextFrame x p).state.events
          = (reconcile q.rawPlayers 0 q).state.events ++ tail ∧
          tail.filter Event.isBind = [] := by
      rcases h1 with ⟨e, s0, hrc, h1⟩ | ⟨s0, hrc, h1⟩
      · rw [h1, hrc]
        exact ⟨rfl, [], by simp [Res.state], rfl⟩
      · rw [hrc]
        rcases h1 with ⟨-, h1⟩ | ⟨-, -, h1⟩ | ⟨-, -, h1⟩ <;>
          (rw [h1]; exact ⟨rfl, [Event.TickDoneEvent], rfl, rfl⟩)
    obtain ⟨hreg, tail, htail, hfil⟩ := hstate
    refine ⟨⟨tail, ?_, hfil⟩, fun u e h => ?_, loopTrace_nodup q.rawPlayers 0 q⟩
    · rw [htail, hev, hqe, List.append_assoc]
    · obtain ⟨hn, a, d, hd, hs, hr⟩ := loopTrace_sound q.rawPlayers 0 q u e h
      exact ⟨by rw [← hqc]; exact hn, a, d, hd, hs, by rw [hreg]; exact hr⟩

/-- Every entry of the trace of a session is a PlayerBind event for a user that
was not in the registry when the session started and is in it, with the Player
of the event, when the session stops; the Player's persistent identifier is
not zero at the dispatch. -/
theorem sessionTrace_sound (x : Deps σ) (n : Nat) (p : Parser σ) (u : Int) (e : Event)
    (h : (u, e) ∈ sessionTrace x n p) :
    p.connectedPlayers u = none ∧
    ∃ a d, e = Event.PlayerBindEvent a d ∧ d.SteamID ≠ 0 ∧
      (runFrames x n p).connectedPlayers u = some a := by
  induction n generalizing p with
  | zero => simp [sessionTrace] at h
  | succ n ih =>
    unfold sessionTrace at h
    unfold runFrames
    have hf := (ParseNextFrame_trace x p).2.1
    have hg := ParseNextFrame_grows x p
    rcases List.mem_append.mp h with h | h
    · obtain ⟨hn, a, d, hd, hs, hr⟩ := hf u e h
      refine ⟨hn, a, d, hd, hs, ?_⟩
      cases hpn : ParseNextFrame x p with
      | fault e1 s => rw [hpn] at hr; exact hr
      | ret b s =>
        rw [hpn] at hr
        exact runFrames_grows x n s u a hr
    · cases hpn : ParseNextFrame x p with
      | fault e1 s => rw [hpn] at h; cases h
      | ret b s =>
        rw [hpn] at h hg
        simp only [Res.state] at hg
        dsimp only at h ⊢
        obtain ⟨hn, rest⟩ := ih s h
        refine ⟨?_, rest⟩
        cases hp : p.connectedPlayers u with
        | none => rfl
        | some a0 =>
          rw [hg u a0 hp] at hn
          cases hn

/-- No user identifier occurs twice in the trace of a session. -/
theorem sessionTrace_nodup (x : Deps σ) (n : Nat) (p : Parser σ) :
    ((sessionTrace x n p).map Prod.fst).Nodup := by
  induction n generalizing p with
  | zero => simp [sessionTrace]
  | succ n ih =>
    unfold sessionTrace
    rw [List.map_append, List.nodup_append]
    have hf := ParseNextFrame_trace x p
    refine ⟨hf.2.2, ?_, ?_⟩
    · cases hpn : ParseNextFrame x p with
      | fault e1 s => simp
      | ret b s => exact ih s
    · intro u hu1 hu2
      obtain ⟨ue1, hm1, hfst1⟩ := List.mem_map.mp hu1
      obtain ⟨ue2, hm2, hfst2⟩ := List.mem_map.mp hu2
      obtain ⟨-, a, d, -, -, hr⟩ := hf.2.1 ue1.1 ue1.2 hm1
      cases hpn : ParseNextFrame x p with
      | fault e1 s => rw [hpn] at hm2; cases hm2
      | ret b s =>
        rw [hpn] at hm2 hr
        simp only [Res.state] at hr
        dsimp only at hm2
        have := (sessionTrace_sound x n s ue2.1 ue2.2 hm2).1
        rw [hfst2, ← hfst1, hr] at this
        cases this

/-- The PlayerBind events that a session appends to the event log are those of
its trace, in order. -/
theorem runFrames_events (x : Deps σ) (n : Nat) (p : Parser σ) :
    ∃ evs, (runFrames x n p).events = p.events ++ evs ∧
      evs.filter Event.isBind = (sessionTrace x n p).map Prod.snd := by
  induction n generalizing p with
  | zero => exact ⟨[], by simp [runFrames], rfl⟩
  | succ n ih =>
    obtain ⟨⟨tail, hev, hfil⟩, hsound, -⟩ := ParseNextFrame_trace x p
    have hbind : ((frameTrace x p).map Prod.snd).filter Event.isBind
        = (frameTrace x p).map Prod.snd := by
      rw [List.filter_eq_self]
      intro e he
      obtain ⟨ue, hm, rfl⟩ := List.mem_map.mp he
      obtain ⟨-, a, d, hd, -⟩ := hsound ue.1 ue.2 hm
      rw [hd]
      rfl
    unfold runFrames sessionTrace
    cases hpn : ParseNextFrame x p with
    | fault e1 s =>
      rw [hpn] at hev
      simp only [Res.state] at hev
      exact ⟨_, hev, by simp [List.filter_append, hbind, hfil]⟩
    | ret b s =>
      rw [hpn] at hev
      simp only [Res.state] at hev
      dsimp only
      obtain ⟨evs, h1, h2⟩ := ih s
      refine ⟨((frameTrace x p).map Prod.snd ++ tail) ++ evs, ?_, ?_⟩
      · rw [h1, hev, List.append_assoc]
      · simp [List.filter_append, hbind, hfil, h2]

/-- C11: a session of `n` calls of `ParseNextFrame` (fewer when one panics).
The PlayerBind events the session appends to the event log are, in order, the
events of its trace, where each event stands next to the user identifier of
the slot for which it was dispatched.  No user identifier occurs twice in the
trace; each event of the trace carries a Player whose SteamID is not zero at
the dispatch, for a user that was not registered when the session started and
is registered, with that Player, when it stops. -/
theorem playerBind_once_per_user (x : Deps σ) (n : Nat) (p : Parser σ) :
    (∃ evs, (runFrames x n p).events = p.events ++ evs ∧
      evs.filter Event.isBind = (sessionTrace x n p).map Prod.snd) ∧
    ((sessionTrace x n p).map Prod.fst).Nodup ∧
    ∀ u e, (u, e) ∈ sessionTrace x n p →
      p.connectedPlayers u = none ∧
      ∃ a d, e = Event.PlayerBindEvent a d ∧ d.SteamID ≠ 0 ∧
        (runFrames x n p).connectedPlayers u = some a :=
  ⟨runFrames_events x n p, sessionTrace_nodup x n p, sessionTrace_sound x n p⟩

/-- C11, at a concrete input: user 1 joins in the one frame of the session:
the trace of the session has one event, for user 1. -/
theorem playerBind_once_per_user_witness :
    (sessionTrace exampleDeps 1 aliveSlotParser).map Prod.fst = [1] ∧
    ((sessionTrace exampleDeps 1 aliveSlotParser).map Prod.fst).Nodup :=
  ⟨by decide, (playerBind_once_per_user exampleDeps 1 aliveSlotParser).2.1⟩

/-! ## First sighting with a zero persistent identifier -/

theorem registered_self (c : Int → Option Nat) (uid : Int) (pl : Nat) :
    (registered c uid pl uid).isSome = true := by
  unfold registered
  split
  · rw [Function.update_same]
    rfl
  · rename_i h
    cases hc : c uid with
    | none => rw [hc] at h; exact absurd rfl h
    | some a => rfl

/-- After a run of the loop that returns, the user identifier of every slot
that holds a raw player and has a bound Player is in the registry. -/
theorem reconcile_registers (l : List (Option playerInfo)) (k : Nat) (p s : Parser σ)
    (h : reconcile l k p = .ret () s) (j : Nat) (rp : playerInfo)
    (hj : l[j]? = some (some rp)) (hb : p.players (k + j) ≠ none) :
    (s.connectedPlayers rp.UserID).isSome = true := by
  induction l generalizing k p j with
  | nil => simp at hj
  | cons c rest ih =>
    cases c with
    | none =>
      cases j with
      | zero => simp at hj
      | succ j =>
        have hj1 : rest[j]? = some (some rp) := by simpa using hj
        exact ih (k + 1) p h j hj1 (by rwa [show k + 1 + j = k + (j + 1) by omega])
    | some rp0 =>
      have hu : reconcile (some rp0 :: rest) k p
          = (reconcileSlot k rp0 >>= fun _ => reconcile rest (k + 1)) p := rfl
      rw [hu, Act.bind_eq] at h
      have hpl := (reconcileSlot_reconciles k rp0 p).1
      have hc := (reconcileSlot_cases k rp0 p).2.2.2
      cases hs : reconcileSlot k rp0 p with
      | fault e p1 => rw [hs] at h; cases h
      | ret v p1 =>
        rw [hs] at h hpl hc
        simp only [Res.state] at hpl hc
        dsimp only at h
        cases j with
        | succ j =>
          have hj1 : rest[j]? = some (some rp) := by simpa using hj
          exact ih (k + 1) p1 h j hj1
            (by rw [hpl]; rwa [show k + 1 + j = k + (j + 1) by omega])
        | zero =>
          have hrp : rp0 = rp := by simpa using hj
          subst hrp
          have hb0 : p.players k ≠ none := by simpa using hb
          rcases hc with ⟨hnone, -⟩ | ⟨pl, -, hreg, -⟩
          · exact absurd hnone hb0
          · have h1 := registered_self p.connectedPlayers rp0.UserID pl
            rw [← hreg] at h1
            cases h2 : p1.connectedPlayers rp0.UserID with
            | none => rw [h2] at h1; cases h1
            | some a =>
              have hg := reconcile_grows rest (k + 1) p1 rp0.UserID a h2
              rw [h] at hg
              simp only [Res.state] at hg
              rw [hg]
              rfl

/-- The loop dispatches no event for a user whose slots with a bound Player
all carry a zero persistent identifier. -/
theorem loopTrace_zero (l : List (Option playerInfo)) (k : Nat) (p : Parser σ) (u : Int)
    (h : ∀ j rp1, l[j]? = some (some rp1) → rp1.UserID = u → p.players (k + j) ≠ none →
      rp1.XUID = 0) :
    ∀ e ∈ loopTrace l k p, e.1 ≠ u := by
  induction l generalizing k p with
  | nil => intro e he; simp [loopTrace] at he
  | cons c rest ih =>
    cases c with
    | none =>
      refine ih (k + 1) p fun j rp1 hj hu hb => ?_
      exact h (j + 1) rp1 (by simpa using hj) hu
        (by rwa [show k + (j + 1) = k + 1 + j by omega])
    | some rp0 =>
      intro e he
      simp only [loopTrace, List.mem_append, List.mem_map] at he
      have hpl := (reconcileSlot_reconciles k rp0 p).1
      rcases he with ⟨e1, he1, heq⟩ | he
      · rw [← heq]
        intro hu
        rcases (reconcileSlot_cases k rp0 p).2.2.2 with ⟨-, -, h0⟩ | ⟨pl, hb, -, h0⟩
        · rw [h0] at he1; cases he1
        · rcases h0 with h0 | ⟨-, hx, -, -⟩
          · rw [h0] at he1; cases he1
          · exact hx (h 0 rp0 (by simp) hu (by rw [Nat.add_zero, hb]; exact fun e => by cases e))
      · cases hs : reconcileSlot k rp0 p with
        | fault e1 p1 => rw [hs] at he; cases he
        | ret v p1 =>
          rw [hs] at he hpl
          simp only [Res.state] at hpl
          dsimp only at he
          refine ih (k + 1) p1 (fun j rp1 hj hu hb => ?_) e he
          rw [hpl] at hb
          exact h (j + 1) rp1 (by simpa using hj) hu
            (by rwa [show k + (j + 1) = k + 1 + j by omega])

/-- C20: a tick on which the user identifier `u` is not yet registered and is
sighted (slot `k` holds a raw player with that identifier and has a bound
Player), every sighting of `u` on the tick having a zero persistent
identifier.  When the call returns, `u` is registered, with a Player bound at
a slot of this tick that carries `u` with a zero persistent identifier; the
tick's trace has no event for `u`; and neither has the trace of any number of
later calls, whatever their frames deliver, where the PlayerBind events the
later calls append to the event log are those of their trace. -/
theorem zero_xuid_first_sighting (x : Deps σ) (p q s : Parser σ) (b : Bool) (u : Int)
    (k : Nat) (rp : playerInfo)
    (hpf : parseFrame x p = .ret b q) (hnext : ParseNextFrame x p = .ret b s)
    (hfirst : p.connectedPlayers u = none)
    (hraw : q.rawPlayers[k]? = some (some rp)) (hu : rp.UserID = u)
    (hbound : q.players k ≠ none)
    (hzero : ∀ j rp1, q.rawPlayers[j]? = some (some rp1) → rp1.UserID = u →
      q.players j ≠ none → rp1.XUID = 0) :
    (s.connectedPlayers u).isSome = true ∧
    (∀ a, s.connectedPlayers u = some a →
      ∃ j rp1, q.rawPlayers[j]? = some (some rp1) ∧ rp1.UserID = u ∧ rp1.XUID = 0 ∧
        q.players j = some a) ∧
    (∀ e ∈ frameTrace x p, e.1 ≠ u) ∧
    ∀ n, (∀ e ∈ sessionTrace x n s, e.1 ≠ u) ∧
      ∃ evs, (runFrames x n s).events = s.events ++ evs ∧
        evs.filter Event.isBind = (sessionTrace x n s).map Prod.snd := by
  have hh : p.header ≠ none := by
    intro h0
    rw [ParseNextFrame_no_header x p h0] at hnext
    cases hnext
  obtain ⟨-, -, hret⟩ := ParseNextFrame_heap x p q b hh hpf
  obtain ⟨s0, hrc, -, hreg, -⟩ := hret s hnext
  have hsome : (s.connectedPlayers u).isSome = true := by
    rw [hreg, ← hu]
    exact reconcile_registers q.rawPlayers 0 q s0 hrc k rp hraw (by rwa [Nat.zero_add])
  have hqc := (parseFrame_events x p).2
  rw [hpf] at hqc
  simp only [Res.state] at hqc
  refine ⟨hsome, fun a ha => ?_, ?_, fun n => ⟨fun e he hue => ?_, runFrames_events x n s⟩⟩
  · rw [hreg] at ha
    obtain ⟨j, rp1, h1, h2, h3⟩ := reconcile_origin q.rawPlayers 0 q u a
      (by rw [hqc]; exact hfirst) (by rw [hrc]; exact ha)
    rw [Nat.zero_add] at h3
    exact ⟨j, rp1, h1, h2, hzero j rp1 h1 h2 (by rw [h3]; exact fun e => by cases e), h3⟩
  · rw [frameTrace_eq x p q b hh hpf]
    exact loopTrace_zero q.rawPlayers 0 q u
      (fun j rp1 hj hu1 hb => hzero j rp1 hj hu1 (by rwa [Nat.zero_add] at hb))
  · have := (sessionTrace_sound x n s e.1 e.2 he).1
    rw [hue] at this
    rw [this] at hsome
    cases hsome

/-- C20, at a concrete input: user 1 is first sighted with XUID 0 and is
registered; the next frame delivers XUID 7 for user 1 and the trace of that
call is empty. -/
theorem zero_xuid_first_sighting_witness :
    zeroXuidParser.connectedPlayers 1 = none ∧
    ((ParseNextFrame xuidArrivesDeps zeroXuidParser).state.connectedPlayers 1).isSome = true ∧
    (ParseNextFrame xuidArrivesDeps
      (ParseNextFrame xuidArrivesDeps zeroXuidParser).state).state.rawPlayers
        = [some rawPlayerOne] ∧
    rawPlayerOne.XUID = 7 ∧
    sessionTrace xuidArrivesDeps 1 (ParseNextFrame xuidArrivesDeps zeroXuidParser).state = [] :=
  ⟨rfl,
   (zero_xuid_first_sighting xuidArrivesDeps zeroXuidParser
      (parseFrame xuidArrivesDeps zeroXuidParser).state
      (ParseNextFrame xuidArrivesDeps zeroXuidParser).state true 1 0
      { rawPlayerOne with XUID := 0 } rfl rfl rfl rfl rfl (by decide)
      (fun j rp1 hj _ _ => by
        have hr : (parseFrame xuidArrivesDeps zeroXuidParser).state.rawPlayers
            = [some { rawPlayerOne with XUID := 0 }] := rfl
        rw [hr] at hj
        cases j with
        | zero =>
          have : ({ rawPlayerOne with XUID := 0 } : playerInfo) = rp1 := by simpa using hj
          rw [← this]
        | succ j => simp at hj)).1,
   by decide, rfl, by decide⟩

end demoinfocs
